import Mathlib

/-!
# libnodegl: the GL context core (`glcontext.c`)

A shallow embedding of the construction, destruction and capability-probing
code of `libnodegl/glcontext.c` and a verification of its specification.

Conventions of the embedding.

* A C string is the list of its characters before the terminating NUL; a
  `char *` that may be `NULL` is an `Option`.
* A pointer stored in the function table is a natural number, `0` being `NULL`.
* A function that may not return has an `Outcome` as result.
* A constructor that may dereference a null pointer has an `Option` as result,
  `none` standing for that undefined behaviour; it threads a log of the backend
  calls and releases, since the handle may not survive.
-/

namespace NodeGL

/-! ## C strings -/

/-- The character read at `s[i]`: the terminating NUL sits at index `strlen s`. -/
def charAt (s : List Char) (i : Nat) : Char := s.getD i '\x00'

/-- The libc `strstr`: index of the first occurrence of `needle` in `haystack`,
`none` for the `NULL` result. An empty needle is found at index 0. -/
def strstr (needle : List Char) : List Char → Option Nat
  | [] => if needle = [] then some 0 else none
  | c :: t =>
    if needle.isPrefixOf (c :: t) then some 0
    else (strstr needle t).map (· + 1)

/-! ## `ngli_glcontext_check_extension` (glcontext.c, 536-556) -/

/-- The `while (cur < end)` loop of `ngli_glcontext_check_extension`; `cur` is
the index `cur - extensions`. One unit of fuel is one evaluation of the loop
condition; `none` means the fuel ran out. Note that `strstr` is called on
`extensions`, not on `cur`, as in the source. -/
def check_extension_loop (extension extensions : List Char) : Nat → Nat → Option Int
  | 0, _ => none
  | fuel + 1, cur =>
    if cur < extensions.length then
      match strstr extension extensions with
      | none => some 0
      | some p =>
        let cur := p + extension.length
        if charAt extensions cur = ' ' ∨ charAt extensions cur = '\x00' then some 1
        else check_extension_loop extension extensions fuel cur
    else some 0

/-- Fuelled `ngli_glcontext_check_extension`: `none` when the loop has not
returned within `fuel` evaluations of its condition. -/
def ngli_glcontext_check_extension_fuel (fuel : Nat)
    (extension extensions : Option String) : Option Int :=
  match extension, extensions with
  | some e, some es => check_extension_loop e.toList es.toList fuel 0
  | _, _ => some 0

/-- The function `ngli_glcontext_check_extension`, run with as much fuel as the
extension string has characters, plus one. `none` means that the loop does not
terminate: it is `none` exactly when every amount of fuel runs out
(`check_extension_none_iff`). -/
def ngli_glcontext_check_extension (extension extensions : Option String) : Option Int :=
  ngli_glcontext_check_extension_fuel ((extensions.getD "").toList.length + 1)
    extension extensions

/-! ## Outcomes, the handle and its environment -/

/-- Result of running a function that may not return. The macro `ngli_assert`
(`utils.h`, not part of the sources) is taken from the specification: a
programming-error assertion, which aborts the process when it fails. -/
inductive Outcome (α : Type) where
  /-- the function returns `a` -/
  | returns (a : α)
  /-- an `ngli_assert` fails and the process is aborted -/
  | aborts
  /-- the function loops forever -/
  | diverges

/-- Sequencing of outcomes. -/
def Outcome.bind {α β : Type} (o : Outcome α) (f : α → Outcome β) : Outcome β :=
  match o with
  | .returns a => f a
  | .aborts => .aborts
  | .diverges => .diverges

/-- A call made to the backend or to the GL driver, or a release of memory with
`free`. -/
inductive Call where
  | init (display window handle : Nat)
  | uninit
  | create
  | get_display
  | get_window
  | get_handle
  | free (what : String)
  | get_proc_address (name : String)
  | glGetIntegerv (pname : String)
  | glGetString (pname : String)
  | glGetStringi (pname : String) (index : Int)
  | glGetIntegeri_v (pname : String) (index : Int)
  deriving DecidableEq, Repr

/-- Modelled from the spec: the API identifiers of `nodegl.h`, which is not part
of the sources: the automatic sentinel, the desktop family, the embedded
family, and any other integer a caller may pass. -/
inductive GLApi where
  | NGL_GLAPI_AUTO
  | NGL_GLAPI_OPENGL3
  | NGL_GLAPI_OPENGLES2
  | other (v : Int)
  deriving DecidableEq, Repr

/-- Modelled from the spec: the backend contract `struct glcontext_class` of
`glcontext.h`, which is not part of the sources, reduced to the callbacks the
code uses. An absent callback is `none` (`false` for `uninit`, which returns
nothing); `init` gives the status returned for a display, window and handle,
`create` the status returned, and the accessors the pointers returned. -/
structure glcontext_class where
  priv_size : Nat := 0
  init : Option (Nat → Nat → Nat → Int) := none
  create : Option Int := none
  get_display : Option Nat := none
  get_window : Option Nat := none
  get_handle : Option Nat := none
  uninit : Bool := false
  get_proc_address : Option (String → Nat) := none

/-- Modelled from the spec: the handle `struct glcontext` of `glcontext.h`, which
is not part of the sources, with the fields that `glcontext.c` reads and
writes; `calloc` gives the default values. A member of `struct glfunctions` is
identified by its name, which stands for its offset (`offsetof` is injective
on members). `calls` is a ghost field: the backend and driver calls made on
behalf of the handle, oldest first. -/
structure glcontext where
  class_ : glcontext_class := {}
  priv_data : Nat := 0
  platform : Int := 0
  api : GLApi := .NGL_GLAPI_OPENGL3
  wrapped : Int := 0
  loaded : Int := 0
  es : Int := 0
  major_version : Int := 0
  minor_version : Int := 0
  features : Nat := 0
  funcs : String → Nat := fun _ => 0
  gl_1comp : Nat := 0
  gl_2comp : Nat := 0
  max_texture_image_units : Int := 0
  max_compute_work_group_counts : List Int := [0, 0, 0]
  calls : List Call := []

/-- What the GL driver answers to the queries of the probing code, and whether
`ngli_bstr_create` can allocate. The queries go through the `ngli_gl*` wrappers,
which are not part of the sources; each query is taken to write its result. -/
structure Env where
  GL_MAJOR_VERSION : Int := 0
  GL_MINOR_VERSION : Int := 0
  GL_VERSION : Option String := none
  GL_EXTENSIONS : Option String := none
  GL_NUM_EXTENSIONS : Int := 0
  GL_EXTENSIONS_i : Int → Option String := fun _ => none
  GL_MAX_TEXTURE_IMAGE_UNITS : Int := 0
  GL_MAX_COMPUTE_WORK_GROUP_COUNT : Int → Int := fun _ => 0
  bstr_create_ok : Bool := true

/-- Record a call in the ghost log. -/
def glcontext.log (c : glcontext) (call : Call) : glcontext :=
  { c with calls := c.calls ++ [call] }

/-! ## Function loading (glcontext.c, 167-185 and 506-514) -/

/-- Modelled from the spec: an entry of the `gldefinitions` table
(`gldefinitions_data.h`, not part of the sources): symbol name, function-table
member, flags. The table itself is a parameter of the loader. -/
structure gldefinition where
  name : String
  offset : String
  flags : Nat

/-- Modelled from the spec: the flag `M` of `gldefinitions_data.h` that tags an
entry as mandatory. -/
def M : Nat := 1

/-- The test `gldefinition->flags & M`. -/
def gldefinition.mandatory (d : gldefinition) : Bool := d.flags &&& M != 0

/-- The function `ngli_glcontext_get_proc_address`. -/
def ngli_glcontext_get_proc_address (c : glcontext) (name : String) : Nat × glcontext :=
  match c.class_.get_proc_address with
  | some f => (f name, c.log (.get_proc_address name))
  | none => (0, c)

/-- The `for` loop of `glcontext_load_functions` over the remaining entries. -/
def glcontext_load_functions_loop : List gldefinition → glcontext → Int × glcontext
  | [], c => (0, c)
  | d :: rest, c =>
    let r := ngli_glcontext_get_proc_address c d.name
    if d.mandatory ∧ r.1 = 0 then (-1, r.2)
    else glcontext_load_functions_loop rest
      { r.2 with funcs := Function.update r.2.funcs d.offset r.1 }

/-- The function `glcontext_load_functions`, for a given `gldefinitions` table. -/
def glcontext_load_functions (gldefinitions : List gldefinition) (c : glcontext) :
    Int × glcontext :=
  glcontext_load_functions_loop gldefinitions c

/-! ## Version probing (glcontext.c, 187-231) -/

/-- The libc `isspace` in the C locale. -/
def isspace (c : Char) : Bool :=
  c = ' ' || c = '\t' || c = '\n' || c = '\x0b' || c = '\x0c' || c = '\r'

/-- A literal (non-blank) run of a `sscanf` format: the input must start with
it; the result is the rest of the input. -/
def scan_literal : List Char → List Char → Option (List Char)
  | [], s => some s
  | _ :: _, [] => none
  | l :: ls, c :: s => if l = c then scan_literal ls s else none

/-- Value of a run of decimal digits. -/
def digits_value (ds : List Char) : Int :=
  ds.foldl (fun acc d => 10 * acc + ((d.toNat : Int) - 48)) 0

/-- The `%d` conversion of `sscanf`: leading blanks are skipped, then an
optional sign and at least one decimal digit are read. The result is the value
and the rest of the input. Values that do not fit an `int` are undefined
behaviour in C and are kept as they are here. -/
def scan_int (s : List Char) : Option (Int × List Char) :=
  let s := s.dropWhile isspace
  let signed : Bool × List Char :=
    match s with
    | '-' :: t => (true, t)
    | '+' :: t => (false, t)
    | _ => (false, s)
  let ds := signed.2.takeWhile Char.isDigit
  if ds = [] then none
  else some ((if signed.1 then - digits_value ds else digits_value ds),
             signed.2.dropWhile Char.isDigit)

/-- Result of `sscanf(gl_version, "OpenGL ES %d.%d", &major, &minor)`: the
returned count and the values stored, if any. -/
structure ScanVersion where
  ret : Int
  major : Option Int
  minor : Option Int
  deriving DecidableEq, Repr

/-- The call `sscanf(gl_version, "OpenGL ES %d.%d", ...)`. A blank of the format
matches any run of blanks, the empty one included. When nothing was stored the
count is 0, or `EOF` (-1) if the input ended first. -/
def sscanf_version (s : List Char) : ScanVersion :=
  let failed (rest : Option (List Char)) : ScanVersion :=
    ⟨if rest = some [] then -1 else 0, none, none⟩
  match scan_literal "OpenGL".toList s with
  | none => failed (if s.length < 6 ∧ s.isPrefixOf "OpenGL".toList then some [] else none)
  | some s =>
    let s := s.dropWhile isspace
    match scan_literal "ES".toList s with
    | none => failed (if s.length < 2 ∧ s.isPrefixOf "ES".toList then some [] else none)
    | some s =>
      let s := s.dropWhile isspace
      match scan_int s with
      | none => failed (some (s.dropWhile isspace))
      | some (major, s) =>
        match scan_literal ".".toList s with
        | none => ⟨1, some major, none⟩
        | some s =>
          match scan_int s with
          | none => ⟨1, some major, none⟩
          | some (minor, _) => ⟨2, some major, some minor⟩

/-- The function `glcontext_probe_version`. The `ngli_assert(0)` of the last
branch aborts. -/
def glcontext_probe_version (env : Env) (c : glcontext) : Outcome (Int × glcontext) :=
  match c.api with
  | .NGL_GLAPI_OPENGL3 =>
    let c : glcontext := { c.log (.glGetIntegerv "GL_MAJOR_VERSION") with
                           major_version := env.GL_MAJOR_VERSION }
    let c : glcontext := { c.log (.glGetIntegerv "GL_MINOR_VERSION") with
                           minor_version := env.GL_MINOR_VERSION }
    if c.major_version < 3 then .returns (-1, c) else .returns (0, c)
  | .NGL_GLAPI_OPENGLES2 =>
    let c : glcontext := { c with es := 1 }
    let c : glcontext := c.log (.glGetString "GL_VERSION")
    match env.GL_VERSION with
    | none => .returns (-1, c)
    | some gl_version =>
      let r := sscanf_version gl_version.toList
      let c : glcontext := { c with major_version := r.major.getD c.major_version,
                                    minor_version := r.minor.getD c.minor_version }
      if r.ret ≠ 2 then .returns (-1, c)
      else if c.major_version < 2 then .returns (-1, c)
      else .returns (0, c)
  | _ => .aborts

/-! ## Capability probing (glcontext.c, 233-421) -/

/-- The type `struct glfeature`. A `NULL` list is `none`; the `NULL` and `-1`
terminators of the lists are the ends of the Lean lists. -/
structure glfeature where
  name : String
  flag : Nat
  maj_version : Int
  min_version : Int
  maj_es_version : Int
  min_es_version : Int
  extensions : Option (List String) := none
  es_extensions : Option (List String) := none
  funcs_offsets : Option (List String) := none

/-- The feature flags `NGLI_FEATURE_*` of `glcontext.h`, which is not part of
the sources: they are a parameter of the table. -/
structure FeatureFlags where
  NGLI_FEATURE_VERTEX_ARRAY_OBJECT : Nat
  NGLI_FEATURE_TEXTURE_3D : Nat
  NGLI_FEATURE_TEXTURE_STORAGE : Nat
  NGLI_FEATURE_COMPUTE_SHADER : Nat
  NGLI_FEATURE_PROGRAM_INTERFACE_QUERY : Nat
  NGLI_FEATURE_SHADER_IMAGE_LOAD_STORE : Nat
  NGLI_FEATURE_SHADER_STORAGE_BUFFER_OBJECT : Nat

/-- The seven flags, in table order. -/
def FeatureFlags.toList (F : FeatureFlags) : List Nat :=
  [F.NGLI_FEATURE_VERTEX_ARRAY_OBJECT, F.NGLI_FEATURE_TEXTURE_3D,
   F.NGLI_FEATURE_TEXTURE_STORAGE, F.NGLI_FEATURE_COMPUTE_SHADER,
   F.NGLI_FEATURE_PROGRAM_INTERFACE_QUERY, F.NGLI_FEATURE_SHADER_IMAGE_LOAD_STORE,
   F.NGLI_FEATURE_SHADER_STORAGE_BUFFER_OBJECT]

/-- The flags are distinct bits: pairwise different powers of two. -/
def FeatureFlags.DistinctBits (F : FeatureFlags) : Prop :=
  F.toList.Nodup ∧ ∀ f ∈ F.toList, ∃ k : Nat, f = 2 ^ k

/-- The table `glfeatures`. -/
def glfeatures (F : FeatureFlags) : List glfeature :=
  [ { name := "vertex_array_object"
      flag := F.NGLI_FEATURE_VERTEX_ARRAY_OBJECT
      maj_version := 3, min_version := 0
      maj_es_version := 3, min_es_version := 0
      extensions := some ["GL_ARB_vertex_array_object"]
      es_extensions := some ["GL_OES_vertex_array_object"]
      funcs_offsets := some ["GenVertexArrays", "BindVertexArray", "DeleteVertexArrays"] },
    { name := "texture3d"
      flag := F.NGLI_FEATURE_TEXTURE_3D
      maj_version := 2, min_version := 0
      maj_es_version := 3, min_es_version := 0
      funcs_offsets := some ["TexImage3D", "TexSubImage3D"] },
    { name := "texture_storage"
      flag := F.NGLI_FEATURE_TEXTURE_STORAGE
      maj_version := 4, min_version := 2
      maj_es_version := 3, min_es_version := 1
      funcs_offsets := some ["TexStorage2D", "TexStorage3D"] },
    { name := "compute_shader"
      flag := F.NGLI_FEATURE_COMPUTE_SHADER
      maj_version := 4, min_version := 3
      maj_es_version := 3, min_es_version := 1
      extensions := some ["GL_ARB_compute_shader"]
      funcs_offsets := some ["DispatchCompute", "MemoryBarrier"] },
    { name := "program_interface_query"
      flag := F.NGLI_FEATURE_PROGRAM_INTERFACE_QUERY
      maj_version := 4, min_version := 3
      maj_es_version := 3, min_es_version := 1
      extensions := some ["GL_ARB_program_interface_query"]
      funcs_offsets := some ["GetProgramResourceIndex", "GetProgramResourceiv",
                             "GetProgramResourceLocation"] },
    { name := "shader_image_load_store"
      flag := F.NGLI_FEATURE_SHADER_IMAGE_LOAD_STORE
      maj_version := 4, min_version := 2
      maj_es_version := 3, min_es_version := 1
      extensions := some ["GL_ARB_shader_image_load_store"]
      funcs_offsets := some ["BindImageTexture"] },
    { name := "shader_storage_buffer_object"
      flag := F.NGLI_FEATURE_SHADER_STORAGE_BUFFER_OBJECT
      maj_version := 4, min_version := 3
      maj_es_version := 3, min_es_version := 1
      extensions := some ["GL_ARB_shader_storage_buffer_object"]
      funcs_offsets := some ["TexStorage2D", "TexStorage3D"] } ]

/-- The `for` loop of the static `glcontext_check_extension` (desktop family):
`n` iterations remain and `i` is the loop index. -/
def glcontext_check_extension_loop (env : Env) (extension : String) :
    Nat → Int → glcontext → Int × glcontext
  | 0, _, c => (0, c)
  | n + 1, i, c =>
    let c := c.log (.glGetStringi "GL_EXTENSIONS" i)
    match env.GL_EXTENSIONS_i i with
    | none => (0, c)
    | some tmp =>
      if extension = tmp then (1, c)
      else glcontext_check_extension_loop env extension n (i + 1) c

/-- The static function `glcontext_check_extension` (desktop family). -/
def glcontext_check_extension (env : Env) (extension : String) (c : glcontext) :
    Int × glcontext :=
  let c := c.log (.glGetIntegerv "GL_NUM_EXTENSIONS")
  glcontext_check_extension_loop env extension env.GL_NUM_EXTENSIONS.toNat 0 c

/-- The embedded-family `while (*extensions)` loop of
`glcontext_check_extensions`. -/
def check_extensions_es_loop (gl_extensions : Option String) :
    List String → glcontext → Outcome (Int × glcontext)
  | [], c => .returns (1, c)
  | e :: rest, c =>
    match ngli_glcontext_check_extension (some e) gl_extensions with
    | none => .diverges
    | some r => if r = 0 then .returns (0, c) else check_extensions_es_loop gl_extensions rest c

/-- The desktop-family `while (*extensions)` loop of
`glcontext_check_extensions`. -/
def check_extensions_loop (env : Env) : List String → glcontext → Int × glcontext
  | [], c => (1, c)
  | e :: rest, c =>
    let r := glcontext_check_extension env e c
    if r.1 = 0 then (0, r.2) else check_extensions_loop env rest r.2

/-- The function `glcontext_check_extensions`. -/
def glcontext_check_extensions (env : Env) (c : glcontext)
    (extensions : Option (List String)) : Outcome (Int × glcontext) :=
  match extensions with
  | none => .returns (0, c)
  | some [] => .returns (0, c)
  | some (e :: rest) =>
    if c.es ≠ 0 then
      let c := c.log (.glGetString "GL_EXTENSIONS")
      check_extensions_es_loop env.GL_EXTENSIONS (e :: rest) c
    else .returns (check_extensions_loop env (e :: rest) c)

/-- The function `glcontext_check_functions`. -/
def glcontext_check_functions (c : glcontext) (funcs_offsets : Option (List String)) : Int :=
  match funcs_offsets with
  | none => 1
  | some offs => if offs.all (fun off => c.funcs off != 0) then 1 else 0

/-- The version gate of a descriptor for the family of the handle
(glcontext.c, 400-401). -/
def glfeature.gate (es : Int) (f : glfeature) : Int × Int :=
  (if es ≠ 0 then f.maj_es_version else f.maj_version,
   if es ≠ 0 then f.min_es_version else f.min_version)

/-- The extension list of a descriptor for the family of the handle
(glcontext.c, 405). -/
def glfeature.gate_extensions (es : Int) (f : glfeature) : Option (List String) :=
  if es ≠ 0 then f.es_extensions else f.extensions

/-- The end of the body of the probing loop (glcontext.c, 410-414): the function
gate, then the flag is OR-ed into the bitmask. -/
def probe_feature_functions (glfeature : glfeature) (c : glcontext) : glcontext :=
  if glcontext_check_functions c glfeature.funcs_offsets = 0 then c
  else { c with features := c.features ||| glfeature.flag }

/-- The body of the `for` loop of `glcontext_probe_extensions` for one
descriptor; `es` is the local copy of the embedded flag. -/
def glcontext_probe_feature (env : Env) (es : Int) (glfeature : glfeature) (c : glcontext) :
    Outcome glcontext :=
  if ¬ (c.major_version ≥ (glfeature.gate es).1 ∧ c.minor_version ≥ (glfeature.gate es).2) then
    (glcontext_check_extensions env c (glfeature.gate_extensions es)).bind fun r =>
      if r.1 = 0 then .returns r.2
      else .returns (probe_feature_functions glfeature r.2)
  else .returns (probe_feature_functions glfeature c)

/-- The `for` loop of `glcontext_probe_extensions` over the remaining
descriptors. -/
def glcontext_probe_loop (env : Env) (es : Int) : List glfeature → glcontext → Outcome glcontext
  | [], c => .returns c
  | f :: rest, c => (glcontext_probe_feature env es f c).bind (glcontext_probe_loop env es rest)

/-- The function `glcontext_probe_extensions`. -/
def glcontext_probe_extensions (F : FeatureFlags) (env : Env) (c : glcontext) :
    Outcome (Int × glcontext) :=
  let es := c.es
  if ¬ env.bstr_create_ok then .returns (-1, c)
  else (glcontext_probe_loop env es (glfeatures F) c).bind (fun c => .returns (0, c))

/-! ## Settings and the load sequence (glcontext.c, 423-472) -/

def GL_RED : Nat := 0x1903
def GL_RG : Nat := 0x8227
def GL_LUMINANCE : Nat := 0x1909
def GL_LUMINANCE_ALPHA : Nat := 0x190A

/-- The loop of `glcontext_probe_settings` over the entries of
`max_compute_work_group_counts`. -/
def probe_work_group_counts (env : Env) : List Nat → glcontext → glcontext
  | [], c => c
  | i :: rest, c =>
    probe_work_group_counts env rest
      { c.log (.glGetIntegeri_v "GL_MAX_COMPUTE_WORK_GROUP_COUNT" i) with
        max_compute_work_group_counts :=
          c.max_compute_work_group_counts.set i (env.GL_MAX_COMPUTE_WORK_GROUP_COUNT i) }

/-- The function `glcontext_probe_settings`. -/
def glcontext_probe_settings (F : FeatureFlags) (env : Env) (c : glcontext) : Int × glcontext :=
  let es := c.es
  let c : glcontext :=
    if es ≠ 0 ∧ c.major_version = 2 ∧ c.minor_version = 0 then
      { c with gl_1comp := GL_LUMINANCE, gl_2comp := GL_LUMINANCE_ALPHA }
    else { c with gl_1comp := GL_RED, gl_2comp := GL_RG }
  let c : glcontext := { c.log (.glGetIntegerv "GL_MAX_TEXTURE_IMAGE_UNITS") with
                         max_texture_image_units := env.GL_MAX_TEXTURE_IMAGE_UNITS }
  let c : glcontext :=
    if c.features &&& F.NGLI_FEATURE_COMPUTE_SHADER ≠ 0 then
      probe_work_group_counts env (List.range c.max_compute_work_group_counts.length) c
    else c
  (0, c)

/-- The function `ngli_glcontext_load_extensions`. -/
def ngli_glcontext_load_extensions (gldefinitions : List gldefinition) (F : FeatureFlags)
    (env : Env) (c : glcontext) : Outcome (Int × glcontext) :=
  if c.loaded ≠ 0 then .returns (0, c)
  else
    let r := glcontext_load_functions gldefinitions c
    if r.1 < 0 then .returns r
    else
      (glcontext_probe_version env r.2).bind fun r =>
      if r.1 < 0 then .returns r
      else
        (glcontext_probe_extensions F env r.2).bind fun r =>
        if r.1 < 0 then .returns r
        else
          let r := glcontext_probe_settings F env r.2
          if r.1 < 0 then .returns r
          else .returns (0, { r.2 with loaded := 1 })

/-! ## Construction and destruction (glcontext.c, 55-143 and 488-504) -/

/-- Modelled from the spec: what the build fixes for `glcontext.c`. The table
`glcontext_class_map` has one slot per platform identifier up to the largest
one compiled in; a slot whose platform is not compiled in is a null pointer
(`none`). The identifiers of `nodegl.h` and the `TARGET_*` macros are not part
of the sources: `NGL_GLPLATFORM_AUTO` is the automatic sentinel,
`auto_platform` the platform chosen for the target (`none` when no target is
defined) and `auto_api` the API family chosen for it. -/
structure Build where
  glcontext_class_map : List (Option glcontext_class) := []
  NGL_GLPLATFORM_AUTO : Int := 0
  auto_platform : Option Int := none
  auto_api : GLApi := .NGL_GLAPI_OPENGL3

/-- Whether the two `calloc` calls of `glcontext_new` succeed. -/
structure Mem where
  calloc_glcontext : Bool := true
  calloc_priv_data : Bool := true

/-- The function `ngli_glcontext_freep`. The argument is the pointer
`glcontextp` (`none` when null) to the caller's reference (`none` when null);
the result is the reference after the call and the log of events. -/
def ngli_glcontext_freep (glcontextp : Option (Option glcontext)) (log : List Call) :
    Option (Option glcontext) × List Call :=
  match glcontextp with
  | none => (none, log)
  | some none => (some none, log)
  | some (some ctx) =>
    let log := if ctx.class_.uninit then log ++ [.uninit] else log
    (some none, log ++ [.free "priv_data", .free "glcontext"])

/-- The label `fail` of `glcontext_new`: the handle is destroyed and `NULL` is
returned. -/
def glcontext_new_fail (ctx : glcontext) (log : List Call) : Option glcontext × List Call :=
  (none, (ngli_glcontext_freep (some (some ctx)) log).2)

/-- The static function `glcontext_new`. The result is the handle returned
(`none` for `NULL`) and the log of events; there is no result (`none`) when the
slot of the platform is a null pointer, which the code dereferences. -/
def glcontext_new (B : Build) (mem : Mem) (display window handle : Nat) (platform : Int)
    (api : GLApi) (log : List Call) : Option (Option glcontext × List Call) :=
  if platform < 0 ∨ platform ≥ B.glcontext_class_map.length then some (none, log)
  else if ¬ mem.calloc_glcontext then some (none, log)
  else
    match B.glcontext_class_map.getD platform.toNat none with
    | none => none
    | some cls =>
      let ctx : glcontext := { class_ := cls }
      if cls.priv_size ≠ 0 ∧ ¬ mem.calloc_priv_data then some (glcontext_new_fail ctx log)
      else
        let ctx : glcontext :=
          { ctx with priv_data := if cls.priv_size ≠ 0 then 1 else 0,
                     platform := platform, api := api }
        match cls.init with
        | none => some (some ctx, log)
        | some init =>
          if init display window handle < 0 then
            some (glcontext_new_fail ctx (log ++ [.init display window handle]))
          else some (some ctx, log ++ [.init display window handle])

/-- The function `ngli_glcontext_new_wrapped`. -/
def ngli_glcontext_new_wrapped (B : Build) (mem : Mem) (display window handle : Nat)
    (platform : Int) (api : GLApi) (log : List Call) : Option (Option glcontext × List Call) :=
  let resolved : Option Int :=
    if platform = B.NGL_GLPLATFORM_AUTO then B.auto_platform else some platform
  match resolved with
  | none => some (none, log)
  | some platform =>
    let api := if api = .NGL_GLAPI_AUTO then B.auto_api else api
    match glcontext_new B mem display window handle platform api log with
    | none => none
    | some (none, log) => some (none, log)
    | some (some ctx, log) => some (some { ctx with wrapped := 1 }, log)

/-- The function `ngli_glcontext_new_shared`; `other` is `none` for a null
source handle. There is no result (`none`) when the code calls an accessor that
the backend lacks, or dereferences the null handle that `glcontext_new` has
returned. -/
def ngli_glcontext_new_shared (B : Build) (mem : Mem) (other : Option glcontext)
    (log : List Call) : Option (Option glcontext × List Call) :=
  match other with
  | none => some (none, log)
  | some other =>
    match other.class_.get_display, other.class_.get_window, other.class_.get_handle with
    | some display, some window, some handle =>
      let log := log ++ [.get_display, .get_window, .get_handle]
      match glcontext_new B mem display window handle other.platform other.api log with
      | none => none
      | some (none, _) => none
      | some (some ctx, log) =>
        match ctx.class_.create with
        | none => some (some ctx, log)
        | some ret =>
          let log := log ++ [.create]
          if ret < 0 then
            let freed := ngli_glcontext_freep (some (some ctx)) log
            some (freed.1.join, freed.2)
          else some (some ctx, log)
    | _, _, _ => none

/-! ## Vocabulary of the statements -/

/-- The space-separated tokens of an extension string. -/
def tokens (s : String) : List (List Char) := s.toList.splitOn ' '

/-- The second handle differs from the first in its call log only. -/
def CallsOnly (c c' : glcontext) : Prop := c' = { c with calls := c'.calls }

/-- The second handle differs from the first in its call log and its feature
bitmask only. -/
def Frame (c c' : glcontext) : Prop :=
  c' = { c with calls := c'.calls, features := c'.features }

/-- The embedded-family searches of a descriptor all terminate. -/
def es_ok (env : Env) (f : glfeature) : Prop :=
  ∀ e ∈ f.es_extensions.getD [], ngli_glcontext_check_extension (some e) env.GL_EXTENSIONS ≠ none

/-- The driver reports the extension to the handle: for the embedded family the
name is one of the space-separated tokens of the string the driver returns for
`GL_EXTENSIONS`; for the desktop family it is the entry of the indexed
extension list at some index below the count the driver returns for
`GL_NUM_EXTENSIONS`. -/
def extension_reported (env : Env) (c : glcontext) (name : String) : Prop :=
  if c.es ≠ 0 then ∃ s, env.GL_EXTENSIONS = some s ∧ name.toList ∈ tokens s
  else ∃ i : Nat, (i : Int) < env.GL_NUM_EXTENSIONS ∧ env.GL_EXTENSIONS_i i = some name

/-- The presence test that the code runs for the family of the handle returns 1
on the name: `ngli_glcontext_check_extension` for the embedded family,
`glcontext_check_extension` for the desktop family. -/
def presence_test_passes (env : Env) (c : glcontext) (name : String) : Prop :=
  if c.es ≠ 0 then ngli_glcontext_check_extension (some name) env.GL_EXTENSIONS = some 1
  else (glcontext_check_extension env name c).1 = 1

/-- The second handle differs from the first in its function table and its
call log only. -/
def LoadFrame (c c' : glcontext) : Prop :=
  c' = { c with funcs := c'.funcs, calls := c'.calls }

/-- The address the resolver of the handle gives for a symbol name: that of the
`get_proc_address` callback of the backend, or `NULL` without a callback. -/
def resolver (c : glcontext) (name : String) : Nat :=
  match c.class_.get_proc_address with
  | some f => f name
  | none => 0

/-- The calls logged when the resolver is asked for the given names in turn. -/
def asked (c : glcontext) (names : List String) : List Call :=
  match c.class_.get_proc_address with
  | some _ => names.map Call.get_proc_address
  | none => []

/-- The feature bitmask after the body of the probing loop has been run for the
descriptor `d` alone on the handle `c` (that of `c` when it does not return). -/
def alone_bits (env : Env) (c : glcontext) (d : glfeature) : Nat :=
  match glcontext_probe_feature env c.es d c with
  | .returns c2 => c2.features
  | _ => c.features

/-- Seven distinct bits for the feature flags. -/
def F0 : FeatureFlags :=
  { NGLI_FEATURE_VERTEX_ARRAY_OBJECT := 1
    NGLI_FEATURE_TEXTURE_3D := 2
    NGLI_FEATURE_TEXTURE_STORAGE := 4
    NGLI_FEATURE_COMPUTE_SHADER := 8
    NGLI_FEATURE_PROGRAM_INTERFACE_QUERY := 16
    NGLI_FEATURE_SHADER_IMAGE_LOAD_STORE := 32
    NGLI_FEATURE_SHADER_STORAGE_BUFFER_OBJECT := 64 }

/-- A driver that advertises no extension. -/
def env_plain : Env := {}

/-- A desktop handle of version 5.0 whose function table is fully resolved. -/
def handle_desktop_5_0 : glcontext :=
  { api := .NGL_GLAPI_OPENGL3, major_version := 5, minor_version := 0, funcs := fun _ => 1 }

/-- A desktop handle of version 3.0 whose function table is empty. -/
def handle_desktop_3_0_unresolved : glcontext :=
  { api := .NGL_GLAPI_OPENGL3, major_version := 3, minor_version := 0 }

/-- An embedded driver that advertises the vertex array object extension. -/
def env_es_vao : Env :=
  { GL_VERSION := some "OpenGL ES 2.0"
    GL_EXTENSIONS := some "GL_OES_depth24 GL_OES_vertex_array_object GL_OES_rgb8_rgba8" }

/-- An embedded handle of version 2.0 whose function table is fully resolved. -/
def handle_es_2_0 : glcontext :=
  { api := .NGL_GLAPI_OPENGLES2, es := 1, major_version := 2, minor_version := 0,
    funcs := fun _ => 1 }

/-- A handle that has already been loaded. -/
def handle_loaded : glcontext :=
  { api := .NGL_GLAPI_OPENGL3, loaded := 1, major_version := 3, minor_version := 3,
    features := 3, funcs := fun _ => 1 }

/-- A handle constructed with an API identifier that is none of the two
families. -/
def handle_other_api : glcontext := { api := .other 3 }

/-- A backend that resolves every symbol but `glGetString`. -/
def class_without_GetString : glcontext_class :=
  { get_proc_address := some (fun name => if name = "glGetString" then 0 else 1) }

/-- A fresh handle on that backend with a function table filled with 7. -/
def handle_without_GetString : glcontext :=
  { class_ := class_without_GetString, funcs := fun _ => 7 }

/-- A table of three definitions, the second one mandatory. -/
def gldefinitions_sample : List gldefinition :=
  [ { name := "glGetError", offset := "GetError", flags := 1 },
    { name := "glGetString", offset := "GetString", flags := 1 },
    { name := "glTexStorage2D", offset := "TexStorage2D", flags := 0 } ]

/-- A table of three definitions, the first one mandatory, with the two
functions of texture storage. -/
def gldefinitions_storage : List gldefinition :=
  [ { name := "glGetError", offset := "GetError", flags := 1 },
    { name := "glTexStorage2D", offset := "TexStorage2D", flags := 0 },
    { name := "glTexStorage3D", offset := "TexStorage3D", flags := 0 } ]

/-- A backend that resolves every symbol. -/
def class_full : glcontext_class := { get_proc_address := some (fun _ => 1) }

/-- A fresh, zero-initialised embedded handle on that backend. -/
def handle_es_fresh : glcontext := { class_ := class_full, api := .NGL_GLAPI_OPENGLES2 }

/-- A desktop driver that reports version 2.1. -/
def env_desktop_2_1 : Env := { GL_MAJOR_VERSION := 2, GL_MINOR_VERSION := 1 }

/-- A desktop driver that reports version 3.0. -/
def env_desktop_3_0 : Env := { GL_MAJOR_VERSION := 3, GL_MINOR_VERSION := 0 }

/-- A fresh, zero-initialised desktop handle. -/
def handle_desktop_fresh : glcontext := { api := .NGL_GLAPI_OPENGL3 }

/-- A run of white space, possibly empty. -/
def IsBlank (b : List Char) : Prop := ∀ c ∈ b, isspace c = true

/-- What a `%d` conversion reads: white space, an optional sign, and at least
one decimal digit. -/
def IsIntToken (t : List Char) : Prop :=
  ∃ ws sg ds, t = ws ++ sg ++ ds ∧ IsBlank ws ∧ (sg = [] ∨ sg = ['-'] ∨ sg = ['+']) ∧
    ds ≠ [] ∧ ∀ c ∈ ds, c.isDigit = true

/-- The strings that the format `OpenGL ES %d.%d` matches up to its second
conversion: `OpenGL`, white space, `ES`, white space, an integer, a dot and an
integer, followed by anything. The runs of white space may be empty. -/
def MatchesFormat (s : List Char) : Prop :=
  ∃ b1 b2 i1 i2 rest, IsBlank b1 ∧ IsBlank b2 ∧ IsIntToken i1 ∧ IsIntToken i2 ∧
    s = "OpenGL".toList ++ (b1 ++ ("ES".toList ++ (b2 ++ (i1 ++ '.' :: (i2 ++ rest)))))

/-- An embedded driver that reports `OpenGL ES 3.1 (driver xyz)`. -/
def env_es_3_1 : Env := { GL_VERSION := some "OpenGL ES 3.1 (driver xyz)" }

/-- An embedded driver that reports `GLES-3.1-broken`. -/
def env_es_broken : Env := { GL_VERSION := some "GLES-3.1-broken" }

/-- An embedded driver that reports `OpenGLES3.1`, without any space. -/
def env_es_nospace : Env := { GL_VERSION := some "OpenGLES3.1" }

/-- A backend with private data whose `init` fails with -1. -/
def class_init_fails : glcontext_class :=
  { priv_size := 16, init := some (fun _ _ _ => -1), uninit := true }

/-- A backend whose `init` returns the positive status 1. -/
def class_init_positive : glcontext_class :=
  { init := some (fun _ _ _ => 1), uninit := true }

/-- A build with three platform slots, the first one (the automatic sentinel)
empty. -/
def build_sample : Build :=
  { glcontext_class_map := [none, some class_init_fails, some class_init_positive]
    NGL_GLPLATFORM_AUTO := 0
    auto_platform := some 1 }

/-- An embedded handle of version 3.0 whose function table is fully resolved. -/
def handle_es_3_0 : glcontext :=
  { api := .NGL_GLAPI_OPENGLES2, es := 1, major_version := 3, minor_version := 0,
    funcs := fun _ => 1 }

/-- A desktop handle of version 4.2 whose function table is fully resolved. -/
def handle_desktop_4_2 : glcontext :=
  { api := .NGL_GLAPI_OPENGL3, major_version := 4, minor_version := 2, funcs := fun _ => 1 }

/-- A backend that supports shared contexts and whose `init` succeeds. -/
def class_shared : glcontext_class :=
  { init := some (fun _ _ _ => 0), create := some 0, uninit := true
    get_display := some 1, get_window := some 2, get_handle := some 3 }

/-- A backend that supports shared contexts and whose `init` fails when it is
given the display 1 that its accessor returns. -/
def class_shared_init_fails : glcontext_class :=
  { init := some (fun display _ _ => if display = 1 then -1 else 0), create := some 0
    uninit := true, get_display := some 1, get_window := some 2, get_handle := some 3 }

/-- A backend that supports shared contexts and whose `create` fails. -/
def class_shared_create_fails : glcontext_class :=
  { init := some (fun _ _ _ => 0), create := some (-1), uninit := true
    get_display := some 1, get_window := some 2, get_handle := some 3 }

/-- A build whose platforms 1, 2 and 3 are these three backends. -/
def build_shared : Build :=
  { glcontext_class_map :=
      [none, some class_shared, some class_shared_init_fails, some class_shared_create_fails]
    NGL_GLPLATFORM_AUTO := 0
    auto_platform := some 1 }

/-- A source handle on the first of these backends. -/
def handle_source : glcontext :=
  { class_ := class_shared, platform := 1, api := .NGL_GLAPI_OPENGL3, wrapped := 1 }

/-- A source handle on the backend whose `init` fails on its own display. -/
def handle_source_init_fails : glcontext :=
  { class_ := class_shared_init_fails, platform := 2, api := .NGL_GLAPI_OPENGL3, wrapped := 1 }

/-- A source handle on the backend whose `create` fails. -/
def handle_source_create_fails : glcontext :=
  { class_ := class_shared_create_fails, platform := 3, api := .NGL_GLAPI_OPENGL3,
    wrapped := 1 }

/-- A desktop driver that counts two extensions and returns `NULL` for the
first index. -/
def env_desktop_null_entry : Env :=
  { GL_MAJOR_VERSION := 4, GL_MINOR_VERSION := 2, GL_NUM_EXTENSIONS := 2
    GL_EXTENSIONS_i := fun i => if i = 1 then some "GL_ARB_compute_shader" else none }

/-- An embedded driver that advertises the vertex array object extension, when
the summary buffer of the prober cannot be allocated. -/
def env_es_vao_no_buffer : Env :=
  { GL_VERSION := some "OpenGL ES 2.0"
    GL_EXTENSIONS := some "GL_OES_depth24 GL_OES_vertex_array_object GL_OES_rgb8_rgba8"
    bstr_create_ok := false }

/-- An embedded driver whose first extension name ends with the name of the
vertex array object extension, which it does not advertise. -/
def env_es_tail_match : Env :=
  { GL_VERSION := some "OpenGL ES 2.0"
    GL_EXTENSIONS := some "XGL_OES_vertex_array_object GL_OES_rgb8_rgba8" }

/-- A backend that resolves every symbol but the optional `glTexStorage2D`. -/
def class_without_TexStorage2D : glcontext_class :=
  { get_proc_address := some (fun name => if name = "glTexStorage2D" then 0 else 42) }

/-- A fresh desktop handle on that backend. -/
def handle_without_TexStorage2D : glcontext :=
  { class_ := class_without_TexStorage2D, api := .NGL_GLAPI_OPENGL3 }

/-! ## Theorems: the extension-token search -/

/-- A character that is not the NUL read past the end lies inside the string. -/
theorem charAt_ne_nul_lt (s : List Char) (i : Nat) (h : charAt s i ≠ '\x00') :
    i < s.length := by
  by_contra hlt
  apply h
  unfold charAt
  rw [List.getD_eq_default _ _ (Nat.le_of_not_lt hlt)]

/-- When the first occurrence of the name is not followed by a space or the end
of the string, the loop never leaves: it runs out of any amount of fuel. -/
theorem check_extension_loop_stuck (e es : List Char) (p : Nat)
    (hs : strstr e es = some p)
    (hb : ¬ (charAt es (p + e.length) = ' ' ∨ charAt es (p + e.length) = '\x00')) :
    ∀ (fuel cur : Nat), cur < es.length → check_extension_loop e es fuel cur = none := by
  intro fuel
  induction fuel with
  | zero => intro cur _; rfl
  | succ n ih =>
    intro cur hcur
    have hlt : p + e.length < es.length :=
      charAt_ne_nul_lt es _ (fun h => hb (Or.inr h))
    simp only [check_extension_loop, hcur, if_true, hs, hb, if_false]
    exact ih _ hlt

/-- With at least one unit of fuel the loop started at the beginning of the
string either returns in its first iteration or is stuck for ever. -/
theorem check_extension_loop_succ (e es : List Char) (n : Nat) :
    check_extension_loop e es (n + 1) 0 =
      if 0 < es.length then
        match strstr e es with
        | none => some (0 : Int)
        | some p =>
          if charAt es (p + e.length) = ' ' ∨ charAt es (p + e.length) = '\x00'
          then some (1 : Int)
          else none
      else some (0 : Int) := by
  by_cases h0 : 0 < es.length
  · cases hs : strstr e es with
    | none => simp [check_extension_loop, h0, hs]
    | some p =>
      by_cases hb : charAt es (p + e.length) = ' ' ∨ charAt es (p + e.length) = '\x00'
      · simp only [check_extension_loop, h0, if_true, hs, hb]
      · have hlt : p + e.length < es.length :=
          charAt_ne_nul_lt es _ (fun h => hb (Or.inr h))
        simp only [check_extension_loop, h0, if_true, hs, hb, if_false]
        exact check_extension_loop_stuck e es p hs hb n _ hlt
  · simp [check_extension_loop, h0]

/-- The result does not depend on the amount of fuel, as soon as there is some. -/
theorem check_extension_fuel_succ (n m : Nat) (extension extensions : Option String) :
    ngli_glcontext_check_extension_fuel (n + 1) extension extensions =
      ngli_glcontext_check_extension_fuel (m + 1) extension extensions := by
  cases extension <;> cases extensions <;>
    simp only [ngli_glcontext_check_extension_fuel, check_extension_loop_succ]

/-- The function `ngli_glcontext_check_extension` has no result exactly when the
loop of the source runs out of every amount of fuel, that is, never terminates. -/
theorem check_extension_none_iff (extension extensions : Option String) :
    ngli_glcontext_check_extension extension extensions = none ↔
      ∀ fuel, ngli_glcontext_check_extension_fuel fuel extension extensions = none := by
  unfold ngli_glcontext_check_extension
  constructor
  · intro h fuel
    cases fuel with
    | zero =>
      cases extension <;> cases extensions <;>
        simp_all [ngli_glcontext_check_extension_fuel, check_extension_loop]
    | succ m => rw [check_extension_fuel_succ m _]; exact h
  · intro h; exact h _

/-- The function `ngli_glcontext_check_extension` returns only 0 or 1. -/
theorem check_extension_result (extension extensions : Option String) (r : Int)
    (h : ngli_glcontext_check_extension extension extensions = some r) : r = 0 ∨ r = 1 := by
  unfold ngli_glcontext_check_extension at h
  cases extension <;> cases extensions <;>
    simp only [ngli_glcontext_check_extension_fuel, check_extension_loop_succ] at h
  all_goals first
    | (left; exact (Option.some.inj h).symm)
    | skip
  split at h
  · split at h
    · left; exact (Option.some.inj h).symm
    · split at h
      · right; exact (Option.some.inj h).symm
      · exact absurd h (by simp)
  · left; exact (Option.some.inj h).symm

/-- C1 (code evaluated at the failing input): the name `GL_OES_foo` is accepted
in the string `XGL_OES_foo GL_OES_bar`, although it is none of its tokens: the
occurrence is the tail of the longer token `XGL_OES_foo`, and only the right
side of an occurrence is tested. -/
theorem C1_tail_of_longer_token_accepted :
    ngli_glcontext_check_extension (some "GL_OES_foo") (some "XGL_OES_foo GL_OES_bar") = some 1
      ∧ "GL_OES_foo".toList ∉ tokens "XGL_OES_foo GL_OES_bar" := by
  constructor
  · decide
  · decide

/-- C2 (code evaluated at the failing input): on the name `GL_OES_foo` and the
string `GL_OES_fooz` the function does not return 0; its loop never terminates,
whatever the fuel, because `strstr` restarts from the beginning of the string. -/
theorem C2_prefix_collision_never_returns :
    ∀ fuel, ngli_glcontext_check_extension_fuel fuel (some "GL_OES_foo") (some "GL_OES_fooz")
      = none := by
  intro fuel
  exact check_extension_loop_stuck "GL_OES_foo".toList "GL_OES_fooz".toList 0
    (by decide) (by decide) fuel 0 (by decide)

/-- C3 (code evaluated at the failing input): the instance of the specification
returns 1, but when the whole token `GL_OES_foo` comes after the longer token
`GL_OES_fooz` the function never returns. -/
theorem C3_token_after_longer_token_never_returns :
    ngli_glcontext_check_extension (some "GL_OES_foo")
        (some "GL_OES_bar GL_OES_foo GL_OES_fooz") = some 1
      ∧ "GL_OES_foo".toList ∈ tokens "GL_OES_fooz GL_OES_foo"
      ∧ ∀ fuel, ngli_glcontext_check_extension_fuel fuel (some "GL_OES_foo")
          (some "GL_OES_fooz GL_OES_foo") = none := by
  refine ⟨by decide, by decide, ?_⟩
  intro fuel
  exact check_extension_loop_stuck "GL_OES_foo".toList "GL_OES_fooz GL_OES_foo".toList 0
    (by decide) (by decide) fuel 0 (by decide)

/-- C4 (code evaluated at the failing inputs): with an empty name the function
never returns on the string `GL_OES_foo`, and returns 1 on a string that starts
with a space. With an empty string or a `NULL` argument it does return 0. -/
theorem C4_empty_name_not_rejected :
    (∀ fuel, ngli_glcontext_check_extension_fuel fuel (some "") (some "GL_OES_foo") = none)
      ∧ ngli_glcontext_check_extension (some "") (some " GL_OES_foo") = some 1
      ∧ (∀ name, ngli_glcontext_check_extension name (some "") = some 0)
      ∧ (∀ s, ngli_glcontext_check_extension none s = some 0)
      ∧ (∀ name, ngli_glcontext_check_extension name none = some 0) := by
  refine ⟨?_, by decide, ?_, ?_, ?_⟩
  · intro fuel
    exact check_extension_loop_stuck "".toList "GL_OES_foo".toList 0
      (by decide) (by decide) fuel 0 (by decide)
  · intro name
    cases name <;> rfl
  · intro s
    cases s <;> rfl
  · intro name
    cases name <;> rfl

/-! ## Theorems: what the probing loops leave unchanged -/

theorem callsOnly_refl (c : glcontext) : CallsOnly c c := rfl

theorem callsOnly_trans {a b c : glcontext} (h1 : CallsOnly a b) (h2 : CallsOnly b c) :
    CallsOnly a c := by
  unfold CallsOnly at *
  rw [h2, h1]

theorem callsOnly_log (c : glcontext) (x : Call) : CallsOnly c (c.log x) := rfl

theorem check_extension_loop_calls (env : Env) (e : String) :
    ∀ (n : Nat) (i : Int) (c : glcontext),
      CallsOnly c (glcontext_check_extension_loop env e n i c).2 := by
  intro n
  induction n with
  | zero => intro i c; exact callsOnly_refl c
  | succ n ih =>
    intro i c
    simp only [glcontext_check_extension_loop]
    cases env.GL_EXTENSIONS_i i with
    | none => exact callsOnly_log c _
    | some tmp =>
      by_cases h : e = tmp
      · simp only [h, if_true]; exact callsOnly_log c _
      · simp only [h, if_false]
        exact callsOnly_trans (callsOnly_log c _) (ih _ _)

/-- The value returned by the desktop search does not depend on the handle. -/
theorem check_extension_loop_value (env : Env) (e : String) :
    ∀ (n : Nat) (i : Int) (c c0 : glcontext),
      (glcontext_check_extension_loop env e n i c).1
        = (glcontext_check_extension_loop env e n i c0).1 := by
  intro n
  induction n with
  | zero => intro i c c0; rfl
  | succ n ih =>
    intro i c c0
    simp only [glcontext_check_extension_loop]
    cases env.GL_EXTENSIONS_i i with
    | none => rfl
    | some tmp =>
      by_cases h : e = tmp
      · simp only [h, if_true]
      · simp only [h, if_false]
        exact ih _ _ _

theorem glcontext_check_extension_calls (env : Env) (e : String) (c : glcontext) :
    CallsOnly c (glcontext_check_extension env e c).2 :=
  callsOnly_trans (callsOnly_log c _) (check_extension_loop_calls env e _ _ _)

theorem glcontext_check_extension_value (env : Env) (e : String) (c c0 : glcontext) :
    (glcontext_check_extension env e c).1 = (glcontext_check_extension env e c0).1 :=
  check_extension_loop_value env e _ _ _ _

theorem check_extensions_loop_calls (env : Env) :
    ∀ (l : List String) (c : glcontext), CallsOnly c (check_extensions_loop env l c).2 := by
  intro l
  induction l with
  | nil => intro c; exact callsOnly_refl c
  | cons e rest ih =>
    intro c
    simp only [check_extensions_loop]
    by_cases h : (glcontext_check_extension env e c).1 = 0
    · simp only [h, if_true]; exact glcontext_check_extension_calls env e c
    · simp only [h, if_false]
      exact callsOnly_trans (glcontext_check_extension_calls env e c) (ih _)

theorem check_extensions_es_loop_same (g : Option String) :
    ∀ (l : List String) (c : glcontext) (r : Int × glcontext),
      check_extensions_es_loop g l c = .returns r → r.2 = c := by
  intro l
  induction l with
  | nil => intro c r h; simp only [check_extensions_es_loop, Outcome.returns.injEq] at h; rw [← h]
  | cons e rest ih =>
    intro c r h
    simp only [check_extensions_es_loop] at h
    cases hc : ngli_glcontext_check_extension (some e) g with
    | none => rw [hc] at h; exact absurd h (by simp)
    | some v =>
      rw [hc] at h
      by_cases hv : v = 0
      · simp only [hv, if_true, Outcome.returns.injEq] at h; rw [← h]
      · simp only [hv, if_false] at h; exact ih c r h

theorem glcontext_check_extensions_calls (env : Env) (c : glcontext)
    (exts : Option (List String)) (r : Int × glcontext)
    (h : glcontext_check_extensions env c exts = .returns r) : CallsOnly c r.2 := by
  unfold glcontext_check_extensions at h
  split at h
  · simp only [Outcome.returns.injEq] at h; rw [← h]; exact callsOnly_refl c
  · simp only [Outcome.returns.injEq] at h; rw [← h]; exact callsOnly_refl c
  · split at h
    · rw [check_extensions_es_loop_same _ _ _ _ h]; exact callsOnly_log c _
    · simp only [Outcome.returns.injEq] at h; rw [← h]; exact check_extensions_loop_calls env _ c

theorem frame_refl (c : glcontext) : Frame c c := rfl

theorem frame_trans {a b c : glcontext} (h1 : Frame a b) (h2 : Frame b c) : Frame a c := by
  unfold Frame at *
  rw [h2, h1]

theorem callsOnly_frame {c c' : glcontext} (h : CallsOnly c c') : Frame c c' := by
  unfold CallsOnly at h
  unfold Frame
  rw [h]

theorem frame_funcs {c c' : glcontext} (h : Frame c c') : c'.funcs = c.funcs := by
  rw [h]

theorem frame_es {c c' : glcontext} (h : Frame c c') : c'.es = c.es := by
  rw [h]

theorem frame_major_version {c c' : glcontext} (h : Frame c c') :
    c'.major_version = c.major_version := by
  rw [h]

theorem frame_minor_version {c c' : glcontext} (h : Frame c c') :
    c'.minor_version = c.minor_version := by
  rw [h]

theorem frame_loaded {c c' : glcontext} (h : Frame c c') : c'.loaded = c.loaded := by
  rw [h]

theorem frame_check_functions {c c' : glcontext} (h : Frame c c') (o : Option (List String)) :
    glcontext_check_functions c' o = glcontext_check_functions c o := by
  unfold glcontext_check_functions
  rw [frame_funcs h]

theorem probe_feature_functions_frame (f : glfeature) (c : glcontext) :
    Frame c (probe_feature_functions f c) := by
  unfold probe_feature_functions
  split
  · exact frame_refl c
  · rfl

theorem probe_feature_functions_features (f : glfeature) (c : glcontext) :
    (probe_feature_functions f c).features =
      if glcontext_check_functions c f.funcs_offsets = 0 then c.features
      else c.features ||| f.flag := by
  unfold probe_feature_functions
  split <;> rfl

/-- What one iteration of the probing loop does to the handle: the call log
grows, and the flag is OR-ed in only if the function gate passes. -/
theorem probe_feature_cases (env : Env) (es : Int) (f : glfeature) (c c' : glcontext)
    (h : glcontext_probe_feature env es f c = .returns c') :
    Frame c c' ∧ (c'.features = c.features ∨
      (c'.features = c.features ||| f.flag ∧ glcontext_check_functions c f.funcs_offsets ≠ 0)) := by
  have key : ∀ c1, CallsOnly c c1 → Frame c (probe_feature_functions f c1) ∧
      ((probe_feature_functions f c1).features = c.features ∨
        ((probe_feature_functions f c1).features = c.features ||| f.flag ∧
          glcontext_check_functions c f.funcs_offsets ≠ 0)) := by
    intro c1 h1
    have hf : c1.features = c.features := by rw [h1]
    refine ⟨frame_trans (callsOnly_frame h1) (probe_feature_functions_frame f c1), ?_⟩
    rw [probe_feature_functions_features, frame_check_functions (callsOnly_frame h1), hf]
    by_cases hz : glcontext_check_functions c f.funcs_offsets = 0
    · left; simp only [hz, if_true]
    · right; simp only [hz, if_false]; exact ⟨trivial, hz⟩
  unfold glcontext_probe_feature at h
  split at h
  · cases hx : glcontext_check_extensions env c (f.gate_extensions es) with
    | returns r =>
      rw [hx] at h
      have h1 := glcontext_check_extensions_calls env c _ r hx
      simp only [Outcome.bind] at h
      split at h
      · rw [← Outcome.returns.inj h]
        exact ⟨callsOnly_frame h1, Or.inl (by rw [h1])⟩
      · rw [← Outcome.returns.inj h]; exact key r.2 h1
    | aborts => rw [hx] at h; exact absurd h (by simp [Outcome.bind])
    | diverges => rw [hx] at h; exact absurd h (by simp [Outcome.bind])
  · rw [← Outcome.returns.inj h]; exact key c (callsOnly_refl c)

/-! ## Theorems: the feature bitmask after the probing loop -/

theorem and_or_of_and (a g x : Nat) (h : a &&& x = x) : (a ||| g) &&& x = x := by
  apply Nat.eq_of_testBit_eq
  intro i
  have hi := congrArg (fun n => n.testBit i) h
  simp only [Nat.testBit_and] at hi
  simp only [Nat.testBit_and, Nat.testBit_or]
  cases hx : x.testBit i <;> simp_all

theorem or_and_self_right (a x : Nat) : (a ||| x) &&& x = x := by
  apply Nat.eq_of_testBit_eq
  intro i
  simp only [Nat.testBit_and, Nat.testBit_or]
  cases x.testBit i <;> simp

theorem and_two_pow_eq_zero (a k : Nat) (h : a.testBit k = false) : a &&& 2 ^ k = 0 := by
  apply Nat.eq_of_testBit_eq
  intro i
  simp only [Nat.testBit_and, Nat.testBit_two_pow, Nat.zero_testBit]
  by_cases hki : k = i
  · subst hki; simp [h]
  · simp [hki]

/-- The probing loop only adds bits, and each bit it adds is a bit of the flag
of a descriptor of the table whose function gate passes. -/
theorem probe_loop_cases (env : Env) (es : Int) :
    ∀ (l : List glfeature) (c c' : glcontext), glcontext_probe_loop env es l c = .returns c' →
      Frame c c' ∧
      (∀ k, c'.features.testBit k = true → c.features.testBit k = true ∨
        ∃ f ∈ l, glcontext_check_functions c f.funcs_offsets ≠ 0 ∧ f.flag.testBit k = true) ∧
      (∀ x, c.features &&& x = x → c'.features &&& x = x) := by
  intro l
  induction l with
  | nil =>
    intro c c' h
    simp only [glcontext_probe_loop] at h
    rw [← Outcome.returns.inj h]
    exact ⟨frame_refl c, fun k hk => Or.inl hk, fun x hx => hx⟩
  | cons f rest ih =>
    intro c c' h
    simp only [glcontext_probe_loop] at h
    cases hs : glcontext_probe_feature env es f c with
    | returns c1 =>
      rw [hs] at h
      simp only [Outcome.bind] at h
      obtain ⟨hf1, hfeat⟩ := probe_feature_cases env es f c c1 hs
      obtain ⟨hf2, hbits, hmono⟩ := ih c1 c' h
      refine ⟨frame_trans hf1 hf2, ?_, ?_⟩
      · intro k hk
        rcases hbits k hk with h1 | ⟨g, hg, hgf, hgk⟩
        · rcases hfeat with he | ⟨he, hne⟩
          · left; rwa [he] at h1
          · rw [he, Nat.testBit_or] at h1
            rcases Bool.or_eq_true _ _ |>.mp h1 with h2 | h2
            · left; exact h2
            · right; exact ⟨f, List.mem_cons_self _ _, hne, h2⟩
        · right
          refine ⟨g, List.mem_cons_of_mem _ hg, ?_, hgk⟩
          rwa [frame_check_functions hf1] at hgf
      · intro x hx
        apply hmono
        rcases hfeat with he | ⟨he, _⟩
        · rwa [he]
        · rw [he]; exact and_or_of_and _ _ _ hx
    | aborts => rw [hs] at h; exact absurd h (by simp [Outcome.bind])
    | diverges => rw [hs] at h; exact absurd h (by simp [Outcome.bind])

theorem check_extensions_es_loop_returns (g : Option String) :
    ∀ (l : List String) (c : glcontext),
      (∀ e ∈ l, ngli_glcontext_check_extension (some e) g ≠ none) →
      ∃ r, check_extensions_es_loop g l c = .returns r := by
  intro l
  induction l with
  | nil => intro c _; exact ⟨_, rfl⟩
  | cons e rest ih =>
    intro c h
    simp only [check_extensions_es_loop]
    cases hc : ngli_glcontext_check_extension (some e) g with
    | none => exact absurd hc (h e (List.mem_cons_self _ _))
    | some v =>
      by_cases hv : v = 0
      · simp only [hv, if_true]; exact ⟨_, rfl⟩
      · simp only [hv, if_false]
        exact ih c (fun x hx => h x (List.mem_cons_of_mem _ hx))

theorem glcontext_check_extensions_returns (env : Env) (c : glcontext)
    (exts : Option (List String))
    (h : c.es ≠ 0 → ∀ e ∈ exts.getD [], ngli_glcontext_check_extension (some e) env.GL_EXTENSIONS
      ≠ none) :
    ∃ r, glcontext_check_extensions env c exts = .returns r := by
  unfold glcontext_check_extensions
  split
  · exact ⟨_, rfl⟩
  · exact ⟨_, rfl⟩
  · rename_i e rest
    by_cases hes : c.es ≠ 0
    · rw [if_pos hes]
      exact check_extensions_es_loop_returns _ _ _ (h hes)
    · rw [if_neg hes]; exact ⟨_, rfl⟩

/-- One iteration of the probing loop returns, unless an embedded-family search
does not terminate. -/
theorem probe_feature_returns (env : Env) (f : glfeature) (c : glcontext)
    (h : c.es ≠ 0 → es_ok env f) :
    ∃ c', glcontext_probe_feature env c.es f c = .returns c' := by
  unfold glcontext_probe_feature
  split
  · have hr : ∃ r, glcontext_check_extensions env c (f.gate_extensions c.es) = .returns r := by
      apply glcontext_check_extensions_returns
      intro hes
      have := h hes
      unfold es_ok at this
      unfold glfeature.gate_extensions
      rw [if_pos hes]
      exact this
    obtain ⟨r, hr⟩ := hr
    rw [hr]
    simp only [Outcome.bind]
    split <;> exact ⟨_, rfl⟩
  · exact ⟨_, rfl⟩

/-- The probing loop returns, unless an embedded-family search does not
terminate. It always returns for the desktop family. -/
theorem probe_loop_returns (env : Env) :
    ∀ (l : List glfeature) (c : glcontext), (c.es ≠ 0 → ∀ f ∈ l, es_ok env f) →
      ∃ c', glcontext_probe_loop env c.es l c = .returns c' := by
  intro l
  induction l with
  | nil => intro c _; exact ⟨_, rfl⟩
  | cons f rest ih =>
    intro c h
    obtain ⟨c1, h1⟩ := probe_feature_returns env f c (fun hes => h hes f (List.mem_cons_self _ _))
    have hf := (probe_feature_cases env c.es f c c1 h1).1
    simp only [glcontext_probe_loop, h1, Outcome.bind]
    have := ih c1 (fun hes g hg => h (by rwa [frame_es hf] at hes) g (List.mem_cons_of_mem _ hg))
    rwa [frame_es hf] at this

theorem check_extensions_es_loop_all (g : Option String) :
    ∀ (l : List String) (c : glcontext),
      (∀ e ∈ l, ngli_glcontext_check_extension (some e) g = some 1) →
      check_extensions_es_loop g l c = .returns (1, c) := by
  intro l
  induction l with
  | nil => intro c _; rfl
  | cons e rest ih =>
    intro c h
    simp only [check_extensions_es_loop, h e (List.mem_cons_self _ _)]
    exact ih c (fun x hx => h x (List.mem_cons_of_mem _ hx))

theorem check_extensions_loop_all (env : Env) (c0 : glcontext) :
    ∀ (l : List String) (c : glcontext),
      (∀ e ∈ l, (glcontext_check_extension env e c0).1 = 1) →
      (check_extensions_loop env l c).1 = 1 := by
  intro l
  induction l with
  | nil => intro c _; rfl
  | cons e rest ih =>
    intro c h
    have he : (glcontext_check_extension env e c).1 = 1 := by
      rw [glcontext_check_extension_value env e c c0]; exact h e (List.mem_cons_self _ _)
    simp only [check_extensions_loop, he]
    exact ih _ (fun x hx => h x (List.mem_cons_of_mem _ hx))

/-- When every extension of a non-empty list passes the presence test, the list check
returns a non-zero value. -/
theorem glcontext_check_extensions_all (env : Env) (c c1 : glcontext) (hc : Frame c c1)
    (e : String) (rest : List String) (h : ∀ x ∈ e :: rest, presence_test_passes env c x) :
    ∃ r, glcontext_check_extensions env c1 (some (e :: rest)) = .returns r ∧ r.1 ≠ 0 := by
  unfold glcontext_check_extensions
  simp only
  by_cases hes : c.es ≠ 0
  · have hes1 : c1.es ≠ 0 := by rwa [frame_es hc]
    rw [if_pos hes1]
    refine ⟨(1, _), check_extensions_es_loop_all _ _ _ ?_, by simp⟩
    intro x hx
    have := h x hx
    unfold presence_test_passes at this
    rwa [if_pos hes] at this
  · have hes1 : ¬ c1.es ≠ 0 := by rwa [frame_es hc]
    rw [if_neg hes1]
    refine ⟨_, rfl, ?_⟩
    rw [check_extensions_loop_all env c (e :: rest) c1 ?_]
    · decide
    · intro x hx
      have := h x hx
      unfold presence_test_passes at this
      rwa [if_neg hes] at this

/-- A descriptor whose flag is already in the bitmask, or whose iteration sets
it, has its flag in the bitmask when the loop returns. -/
theorem probe_loop_sets (env : Env) (es : Int) :
    ∀ (l : List glfeature) (c c' : glcontext), glcontext_probe_loop env es l c = .returns c' →
      ∀ d ∈ l,
        (∀ c1, Frame c c1 → ∀ c2, glcontext_probe_feature env es d c1 = .returns c2 →
          c2.features &&& d.flag = d.flag) →
        c'.features &&& d.flag = d.flag := by
  intro l
  induction l with
  | nil => intro c c' _ d hd; exact absurd hd (List.not_mem_nil d)
  | cons f rest ih =>
    intro c c' h d hd hstep
    simp only [glcontext_probe_loop] at h
    cases hs : glcontext_probe_feature env es f c with
    | returns c1 =>
      rw [hs] at h
      simp only [Outcome.bind] at h
      have hf1 := (probe_feature_cases env es f c c1 hs).1
      rcases List.mem_cons.mp hd with hdf | hdr
      · subst hdf
        exact (probe_loop_cases env es rest c1 c' h).2.2 _ (hstep c (frame_refl c) c1 hs)
      · exact ih c1 c' h d hdr (fun c2 h2 => hstep c2 (frame_trans hf1 h2))
    | aborts => rw [hs] at h; exact absurd h (by simp [Outcome.bind])
    | diverges => rw [hs] at h; exact absurd h (by simp [Outcome.bind])

theorem check_functions_of_all (c : glcontext) (o : Option (List String))
    (h : ∀ offs, o = some offs → ∀ off ∈ offs, c.funcs off ≠ 0) :
    glcontext_check_functions c o ≠ 0 := by
  unfold glcontext_check_functions
  cases o with
  | none => simp
  | some offs =>
    have : offs.all (fun off => c.funcs off != 0) = true := by
      rw [List.all_eq_true]
      intro off hoff
      simpa using h offs rfl off hoff
    simp [this]

theorem check_functions_of_null (c : glcontext) (o : Option (List String))
    (h : ∃ offs off, o = some offs ∧ off ∈ offs ∧ c.funcs off = 0) :
    glcontext_check_functions c o = 0 := by
  obtain ⟨offs, off, ho, hoff, hz⟩ := h
  subst ho
  unfold glcontext_check_functions
  have : ¬ offs.all (fun off => c.funcs off != 0) = true := by
    rw [List.all_eq_true]
    intro hall
    have := hall off hoff
    simp [hz] at this
  simp [this]

/-! ## Theorems: the table `glfeatures` -/

/-- Two descriptors of the table with the same flag require the same functions,
when the flags are pairwise different. -/
theorem glfeatures_flag_inj (F : FeatureFlags) (hF : F.toList.Nodup) (f d : glfeature)
    (hf : f ∈ glfeatures F) (hd : d ∈ glfeatures F) (h : f.flag = d.flag) :
    f.funcs_offsets = d.funcs_offsets := by
  simp only [FeatureFlags.toList, List.nodup_cons, List.mem_cons, List.mem_singleton,
    List.not_mem_nil, not_or, List.nodup_nil, or_false, and_true, not_false_eq_true] at hF
  simp only [glfeatures, List.mem_cons, List.mem_singleton, List.not_mem_nil, or_false] at hf hd
  rcases hf with rfl | rfl | rfl | rfl | rfl | rfl | rfl <;>
    rcases hd with rfl | rfl | rfl | rfl | rfl | rfl | rfl <;>
    first
      | rfl
      | (exfalso; simp only at h; tauto)

/-- In the table only `vertex_array_object` has an embedded-family extension
list, and it holds the single name `GL_OES_vertex_array_object`. -/
theorem glfeatures_es_extensions (F : FeatureFlags) (f : glfeature) (hf : f ∈ glfeatures F) :
    f.es_extensions = none ∨ f.es_extensions = some ["GL_OES_vertex_array_object"] := by
  simp only [glfeatures, List.mem_cons, List.mem_singleton, List.not_mem_nil, or_false] at hf
  rcases hf with rfl | rfl | rfl | rfl | rfl | rfl | rfl <;> simp

theorem glfeatures_es_ok (F : FeatureFlags) (env : Env)
    (h : ngli_glcontext_check_extension (some "GL_OES_vertex_array_object") env.GL_EXTENSIONS
      ≠ none) :
    ∀ f ∈ glfeatures F, es_ok env f := by
  intro f hf e he
  rcases glfeatures_es_extensions F f hf with h1 | h1
  · rw [h1] at he; exact absurd he (List.not_mem_nil e)
  · rw [h1] at he
    simp only [Option.getD_some, List.mem_singleton] at he
    rw [he]; exact h

theorem probe_extensions_returns (F : FeatureFlags) (env : Env) (c : glcontext)
    (h : c.es ≠ 0 → ngli_glcontext_check_extension (some "GL_OES_vertex_array_object")
      env.GL_EXTENSIONS ≠ none) :
    ∃ r, glcontext_probe_extensions F env c = .returns r := by
  unfold glcontext_probe_extensions
  by_cases ha : env.bstr_create_ok = true
  · obtain ⟨c', hc'⟩ := probe_loop_returns env (glfeatures F) c
      (fun hes => glfeatures_es_ok F env (h hes))
    simp only [ha, not_true_eq_false, if_false, hc', Outcome.bind]
    exact ⟨_, rfl⟩
  · simp only [ha, not_false_eq_true, if_true]
    exact ⟨_, rfl⟩

/-- What `glcontext_probe_extensions` returns: a status of 0 or -1, and a handle
that differs in its call log and its bitmask only. -/
theorem probe_extensions_frame (F : FeatureFlags) (env : Env) (c : glcontext)
    (r : Int × glcontext) (h : glcontext_probe_extensions F env c = .returns r) :
    Frame c r.2 ∧ (r.1 = 0 ∨ r.1 = -1) := by
  unfold glcontext_probe_extensions at h
  by_cases ha : env.bstr_create_ok = true
  · simp only [ha, not_true_eq_false, if_false] at h
    cases hl : glcontext_probe_loop env c.es (glfeatures F) c with
    | returns c' =>
      rw [hl] at h
      simp only [Outcome.bind] at h
      rw [← Outcome.returns.inj h]
      exact ⟨(probe_loop_cases env c.es _ c c' hl).1, Or.inl rfl⟩
    | aborts => rw [hl] at h; exact absurd h (by simp [Outcome.bind])
    | diverges => rw [hl] at h; exact absurd h (by simp [Outcome.bind])
  · simp only [ha, not_false_eq_true, if_true] at h
    rw [← Outcome.returns.inj h]
    exact ⟨frame_refl c, Or.inr rfl⟩

/-! ## Theorems: the capability prober -/

theorem F0_distinct : F0.DistinctBits := by
  refine ⟨by decide, ?_⟩
  intro f hf
  simp only [F0, FeatureFlags.toList, List.mem_cons, List.mem_singleton, List.not_mem_nil,
    or_false] at hf
  rcases hf with rfl | rfl | rfl | rfl | rfl | rfl | rfl
  exacts [⟨0, rfl⟩, ⟨1, rfl⟩, ⟨2, rfl⟩, ⟨3, rfl⟩, ⟨4, rfl⟩, ⟨5, rfl⟩, ⟨6, rfl⟩]

/-- C5 (code evaluated at the failing input): a desktop handle of version 5.0,
with every function resolved, is lexicographically above the gate 4.2 of
`texture_storage`, yet the flag is not set: the gate is tested component by
component (5 >= 4 but not 0 >= 2), so only the first two flags are set, and the
driver is asked for its extension count by each of the four descriptors that
have a desktop extension list. -/
theorem C5_version_5_0_fails_gate_4_2 :
    (∃ d ∈ glfeatures F0, d.name = "texture_storage" ∧ d.flag = 4 ∧ d.gate 0 = (4, 2)) ∧
    (∀ off, handle_desktop_5_0.funcs off ≠ 0) ∧
    ∃ c', glcontext_probe_extensions F0 env_plain handle_desktop_5_0 = .returns (0, c') ∧
      c'.features = 3 ∧ c'.features &&& 4 = 0 ∧
      c'.calls = [.glGetIntegerv "GL_NUM_EXTENSIONS", .glGetIntegerv "GL_NUM_EXTENSIONS",
                  .glGetIntegerv "GL_NUM_EXTENSIONS", .glGetIntegerv "GL_NUM_EXTENSIONS"] := by
  refine ⟨?_, ?_, ?_⟩
  · refine ⟨_, List.mem_cons_of_mem _ (List.mem_cons_of_mem _ (List.mem_cons_self _ _)), ?_⟩
    exact ⟨rfl, rfl, rfl⟩
  · intro off; exact Nat.one_ne_zero
  · exact ⟨_, rfl, rfl, rfl, rfl⟩

/-- C6: when the bitmask is initially 0, the flags are distinct bits and one of
the functions required by a descriptor of `glfeatures` is null, the flag of the
descriptor is not in the bitmask that `glcontext_probe_extensions` returns,
whatever the version and the extensions; and the function does return, for the
desktop family always and for the embedded family as soon as its extension
search terminates. -/
theorem C6_null_function_blocks_flag (F : FeatureFlags) (hF : F.DistinctBits) (env : Env)
    (c : glcontext) (d : glfeature) (h0 : c.features = 0) (hd : d ∈ glfeatures F)
    (hnull : ∃ offs off, d.funcs_offsets = some offs ∧ off ∈ offs ∧ c.funcs off = 0) :
    (∀ r, glcontext_probe_extensions F env c = .returns r → r.2.features &&& d.flag = 0) ∧
    ((c.es ≠ 0 → ngli_glcontext_check_extension (some "GL_OES_vertex_array_object")
        env.GL_EXTENSIONS ≠ none) →
      ∃ r, glcontext_probe_extensions F env c = .returns r) := by
  refine ⟨?_, probe_extensions_returns F env c⟩
  intro r hr
  have hflag : d.flag ∈ F.toList := by
    simp only [glfeatures, List.mem_cons, List.mem_singleton, List.not_mem_nil, or_false] at hd
    rcases hd with rfl | rfl | rfl | rfl | rfl | rfl | rfl <;> simp [FeatureFlags.toList]
  obtain ⟨k, hk⟩ := hF.2 _ hflag
  rw [hk]
  apply and_two_pow_eq_zero
  by_contra hbit
  have hbit : r.2.features.testBit k = true := by simpa using hbit
  unfold glcontext_probe_extensions at hr
  by_cases ha : env.bstr_create_ok = true
  · simp only [ha, not_true_eq_false, if_false] at hr
    cases hl : glcontext_probe_loop env c.es (glfeatures F) c with
    | returns c' =>
      rw [hl] at hr
      simp only [Outcome.bind] at hr
      rw [← Outcome.returns.inj hr] at hbit
      rcases (probe_loop_cases env c.es _ c c' hl).2.1 k hbit with h1 | ⟨f, hf, hfn, hfk⟩
      · rw [h0] at h1; simp at h1
      · have hfflag : f.flag ∈ F.toList := by
          simp only [glfeatures, List.mem_cons, List.mem_singleton, List.not_mem_nil,
            or_false] at hf
          rcases hf with rfl | rfl | rfl | rfl | rfl | rfl | rfl <;> simp [FeatureFlags.toList]
        obtain ⟨j, hj⟩ := hF.2 _ hfflag
        rw [hj, Nat.testBit_two_pow] at hfk
        have hjk : j = k := by simpa using hfk
        have hsame : f.flag = d.flag := by rw [hj, hk, hjk]
        have := glfeatures_flag_inj F hF.1 f d hf hd hsame
        rw [this] at hfn
        exact hfn (check_functions_of_null c _ hnull)
    | aborts => rw [hl] at hr; exact absurd hr (by simp [Outcome.bind])
    | diverges => rw [hl] at hr; exact absurd hr (by simp [Outcome.bind])
  · simp only [ha, not_false_eq_true, if_true] at hr
    rw [← Outcome.returns.inj hr, h0] at hbit
    simp at hbit

/-- C6, witness: on a desktop handle of version 3.0 with an empty function table
the prober returns and the flag of `vertex_array_object` is not set, although
its version gate is satisfied. -/
theorem C6_null_function_blocks_flag_witness :
    ∃ r, glcontext_probe_extensions F0 env_plain handle_desktop_3_0_unresolved = .returns r ∧
      r.2.features &&& F0.NGLI_FEATURE_VERTEX_ARRAY_OBJECT = 0 := by
  have h := C6_null_function_blocks_flag F0 F0_distinct env_plain handle_desktop_3_0_unresolved
    { name := "vertex_array_object"
      flag := F0.NGLI_FEATURE_VERTEX_ARRAY_OBJECT
      maj_version := 3, min_version := 0
      maj_es_version := 3, min_es_version := 0
      extensions := some ["GL_ARB_vertex_array_object"]
      es_extensions := some ["GL_OES_vertex_array_object"]
      funcs_offsets := some ["GenVertexArrays", "BindVertexArray", "DeleteVertexArrays"] }
    rfl (List.mem_cons_self _ _) ⟨_, "GenVertexArrays", rfl, List.mem_cons_self _ _, rfl⟩
  obtain ⟨r, hr⟩ := h.2 (fun hes => absurd rfl hes)
  exact ⟨r, hr, h.1 r hr⟩

/-! ## Theorems: function loading -/

theorem get_proc_address_eq (c : glcontext) (name : String) :
    ngli_glcontext_get_proc_address c name =
      (resolver c name, { c with calls := c.calls ++ asked c [name] }) := by
  unfold ngli_glcontext_get_proc_address resolver asked
  cases c.class_.get_proc_address with
  | none => simp
  | some f => rfl

theorem asked_append (c : glcontext) (a b : List String) :
    asked c (a ++ b) = asked c a ++ asked c b := by
  unfold asked
  cases c.class_.get_proc_address with
  | none => rfl
  | some f => simp

theorem load_functions_loop_frame :
    ∀ (l : List gldefinition) (c : glcontext),
      LoadFrame c (glcontext_load_functions_loop l c).2 ∧
      ((glcontext_load_functions_loop l c).1 = 0 ∨ (glcontext_load_functions_loop l c).1 = -1) := by
  intro l
  induction l with
  | nil => intro c; exact ⟨rfl, Or.inl rfl⟩
  | cons d rest ih =>
    intro c
    simp only [glcontext_load_functions_loop, get_proc_address_eq]
    split
    · exact ⟨rfl, Or.inr rfl⟩
    · refine ⟨?_, (ih _).2⟩
      have := (ih { c with calls := c.calls ++ asked c [d.name],
                           funcs := Function.update c.funcs d.offset (resolver c d.name) }).1
      unfold LoadFrame at this ⊢
      rw [this]

/-- The loop of `glcontext_load_functions` on a table whose entry `d`, after the
entries `pre`, is the first mandatory one that does not resolve. -/
theorem load_functions_loop_first_missing :
    ∀ (pre : List gldefinition) (d : gldefinition) (post : List gldefinition) (c : glcontext),
      (∀ e ∈ pre, ¬ (e.mandatory = true ∧ resolver c e.name = 0)) →
      (d.mandatory = true ∧ resolver c d.name = 0) →
      (∀ e ∈ pre, ∀ x ∈ d :: post, e.offset ≠ x.offset) →
      (glcontext_load_functions_loop (pre ++ d :: post) c).1 = -1 ∧
      (glcontext_load_functions_loop (pre ++ d :: post) c).2.calls
        = c.calls ++ asked c ((pre ++ [d]).map (·.name)) ∧
      ∀ x ∈ d :: post,
        (glcontext_load_functions_loop (pre ++ d :: post) c).2.funcs x.offset
          = c.funcs x.offset := by
  intro pre
  induction pre with
  | nil =>
    intro d post c _ hd _
    simp only [List.nil_append, glcontext_load_functions_loop, get_proc_address_eq, hd,
      and_self, if_true, List.map_cons, List.map_nil]
    exact ⟨trivial, trivial, fun _ _ => trivial⟩
  | cons p pre ih =>
    intro d post c hpre hd hoff
    have hp := hpre p (List.mem_cons_self _ _)
    simp only [List.cons_append, glcontext_load_functions_loop, get_proc_address_eq, hp,
      if_false]
    have hih := ih d post
      { c with calls := c.calls ++ asked c [p.name],
               funcs := Function.update c.funcs p.offset (resolver c p.name) }
      (fun e he => hpre e (List.mem_cons_of_mem _ he)) hd
      (fun e he => hoff e (List.mem_cons_of_mem _ he))
    obtain ⟨h1, h2, h3⟩ := hih
    refine ⟨h1, h2.trans ?_, fun x hx => (h3 x hx).trans ?_⟩
    · show (c.calls ++ asked c [p.name]) ++ asked c ((pre ++ [d]).map (·.name))
        = c.calls ++ asked c ((p :: (pre ++ [d])).map (·.name))
      rw [List.append_assoc, ← asked_append]
      rfl
    · show Function.update c.funcs p.offset (resolver c p.name) x.offset = c.funcs x.offset
      rw [Function.update_noteq]
      exact fun h => hoff p (List.mem_cons_self _ _) x hx h.symm

/-- A table cut at the index of one of its entries. -/
theorem list_split_at {α : Type} (l : List α) (k : Nat) (d : α) (hk : l[k]? = some d) :
    l = l.take k ++ d :: l.drop (k + 1) ∧ l.take (k + 1) = l.take k ++ [d] := by
  obtain ⟨hlt, hd⟩ := List.getElem?_eq_some_iff.mp hk
  constructor
  · conv_lhs => rw [← List.take_append_drop k l, List.drop_eq_getElem_cons hlt, hd]
  · rw [List.take_succ, hk]; rfl

/-- C9: for every resolver, if `k` is the first index of the table whose entry is
mandatory and resolves to `NULL` (the offsets of the table being pairwise
distinct), `glcontext_load_functions` returns a negative value, the resolver
has been asked for the entries up to `k` and no other, and the function-table
slots of entry `k` and of the later entries are as before the call. -/
theorem C9_first_missing_mandatory_aborts (gldefinitions : List gldefinition) (c : glcontext)
    (k : Nat) (d : gldefinition)
    (hnodup : (gldefinitions.map (·.offset)).Nodup)
    (hk : gldefinitions[k]? = some d)
    (hd : d.mandatory = true ∧ resolver c d.name = 0)
    (hfirst : ∀ j e, j < k → gldefinitions[j]? = some e →
      ¬ (e.mandatory = true ∧ resolver c e.name = 0)) :
    (glcontext_load_functions gldefinitions c).1 < 0 ∧
    (glcontext_load_functions gldefinitions c).2.calls
      = c.calls ++ asked c ((gldefinitions.take (k + 1)).map (·.name)) ∧
    ∀ j e, k ≤ j → gldefinitions[j]? = some e →
      (glcontext_load_functions gldefinitions c).2.funcs e.offset = c.funcs e.offset := by
  obtain ⟨hsplit, htake⟩ := list_split_at gldefinitions k d hk
  have hpre : ∀ e ∈ gldefinitions.take k, ¬ (e.mandatory = true ∧ resolver c e.name = 0) := by
    intro e he
    obtain ⟨j, hj⟩ := List.mem_iff_getElem?.mp he
    by_cases hjk : j < k
    · rw [List.getElem?_take_of_lt hjk] at hj
      exact hfirst j e hjk hj
    · rw [List.getElem?_take_eq_none (Nat.le_of_not_lt hjk)] at hj
      exact absurd hj (by simp)
  have hoff : ∀ e ∈ gldefinitions.take k, ∀ x ∈ d :: gldefinitions.drop (k + 1),
      e.offset ≠ x.offset := by
    intro e he x hx heq
    rw [hsplit, List.map_append, List.nodup_append] at hnodup
    exact hnodup.2.2 (List.mem_map_of_mem _ he) (heq ▸ List.mem_map_of_mem _ hx)
  have key := load_functions_loop_first_missing (gldefinitions.take k) d
    (gldefinitions.drop (k + 1)) c hpre hd hoff
  rw [← hsplit, ← htake] at key
  unfold glcontext_load_functions
  refine ⟨by rw [key.1]; decide, key.2.1, ?_⟩
  intro j e hkj hj
  apply key.2.2
  have hdrop : d :: gldefinitions.drop (k + 1) = gldefinitions.drop k := by
    obtain ⟨hlt, hdk⟩ := List.getElem?_eq_some_iff.mp hk
    rw [List.drop_eq_getElem_cons hlt, hdk]
  rw [hdrop]
  apply List.getElem?_mem (n := j - k)
  rw [List.getElem?_drop, Nat.add_sub_cancel' hkj]
  exact hj

/-- C9, witness: on a backend that resolves every symbol but the mandatory
`glGetString`, second of three entries, loading fails with -1, the resolver is
asked for the first two names only, and the slots of the second and third
entries keep their former content. -/
theorem C9_first_missing_mandatory_aborts_witness :
    (glcontext_load_functions gldefinitions_sample handle_without_GetString).1 < 0 ∧
    (glcontext_load_functions gldefinitions_sample handle_without_GetString).2.calls
      = [.get_proc_address "glGetError", .get_proc_address "glGetString"] ∧
    (glcontext_load_functions gldefinitions_sample handle_without_GetString).2.funcs "GetString"
      = 7 ∧
    (glcontext_load_functions gldefinitions_sample handle_without_GetString).2.funcs "TexStorage2D"
      = 7 := by
  have h := C9_first_missing_mandatory_aborts gldefinitions_sample handle_without_GetString 1
    { name := "glGetString", offset := "GetString", flags := 1 }
    (by decide) rfl ⟨by decide, by decide⟩
    (by
      intro j e hj he
      have hj0 : j = 0 := by omega
      subst hj0
      have : e = { name := "glGetError", offset := "GetError", flags := 1 } :=
        (Option.some.inj he).symm
      subst this
      decide)
  exact ⟨h.1, h.2.1, h.2.2 1 _ (Nat.le_refl 1) rfl, h.2.2 2 _ (by decide) rfl⟩

/-! ## Theorems: the load sequence -/

/-- What `glcontext_probe_version` returns: a status of 0 or -1; the loaded flag
is untouched and the embedded flag is set only for the embedded family. -/
theorem probe_version_cases (env : Env) (c : glcontext) (r : Int × glcontext)
    (h : glcontext_probe_version env c = .returns r) :
    (r.1 = 0 ∨ r.1 = -1) ∧ r.2.loaded = c.loaded ∧
      (r.2.es ≠ 0 → c.api = .NGL_GLAPI_OPENGLES2 ∨ c.es ≠ 0) := by
  unfold glcontext_probe_version at h
  split at h
  · simp only at h
    split at h <;>
      (rw [← Outcome.returns.inj h]; refine ⟨?_, rfl, Or.inr⟩; simp)
  · rename_i hapi
    simp only at h
    split at h
    · rw [← Outcome.returns.inj h]; exact ⟨Or.inr rfl, rfl, fun _ => Or.inl hapi⟩
    · split at h
      · rw [← Outcome.returns.inj h]; exact ⟨Or.inr rfl, rfl, fun _ => Or.inl hapi⟩
      · split at h <;>
          (rw [← Outcome.returns.inj h]; refine ⟨?_, rfl, fun _ => Or.inl hapi⟩; simp)
  · exact absurd h (by simp)

/-- For the two API families `glcontext_probe_version` returns. -/
theorem probe_version_returns (env : Env) (c : glcontext)
    (h : c.api = .NGL_GLAPI_OPENGL3 ∨ c.api = .NGL_GLAPI_OPENGLES2) :
    ∃ r, glcontext_probe_version env c = .returns r := by
  unfold glcontext_probe_version
  rcases h with h | h
  · rw [h]; simp only; split <;> exact ⟨_, rfl⟩
  · rw [h]; simp only
    split
    · exact ⟨_, rfl⟩
    · split
      · exact ⟨_, rfl⟩
      · split <;> exact ⟨_, rfl⟩

theorem probe_work_group_counts_loaded (env : Env) :
    ∀ (l : List Nat) (c : glcontext), (probe_work_group_counts env l c).loaded = c.loaded := by
  intro l
  induction l with
  | nil => intro c; rfl
  | cons i rest ih => intro c; simp only [probe_work_group_counts]; rw [ih]; rfl

/-- The function `glcontext_probe_settings` returns 0 and leaves the loaded flag
untouched. -/
theorem probe_settings_cases (F : FeatureFlags) (env : Env) (c : glcontext) :
    (glcontext_probe_settings F env c).1 = 0 ∧
      (glcontext_probe_settings F env c).2.loaded = c.loaded := by
  refine ⟨rfl, ?_⟩
  unfold glcontext_probe_settings
  simp only
  split <;> split <;> first
    | rfl
    | (rw [probe_work_group_counts_loaded]; rfl)

theorem loadFrame_loaded {c c' : glcontext} (h : LoadFrame c c') : c'.loaded = c.loaded := by
  rw [h]

theorem loadFrame_api {c c' : glcontext} (h : LoadFrame c c') : c'.api = c.api := by
  rw [h]

theorem loadFrame_es {c c' : glcontext} (h : LoadFrame c c') : c'.es = c.es := by
  rw [h]

/-- On an unloaded handle, whatever `ngli_glcontext_load_extensions` returns is
either 0 with the loaded flag set to 1, or negative with the loaded flag at 0. -/
theorem load_extensions_cases (gldefinitions : List gldefinition) (F : FeatureFlags)
    (env : Env) (c : glcontext) (hl : c.loaded = 0) (r : Int × glcontext)
    (h : ngli_glcontext_load_extensions gldefinitions F env c = .returns r) :
    (r.1 = 0 ∧ r.2.loaded = 1) ∨ (r.1 < 0 ∧ r.2.loaded = 0) := by
  unfold ngli_glcontext_load_extensions at h
  rw [if_neg (by simp [hl])] at h
  have h1 := (load_functions_loop_frame gldefinitions c).1
  simp only at h
  split at h
  · rename_i hneg
    rw [← Outcome.returns.inj h]
    exact Or.inr ⟨hneg, by rw [glcontext_load_functions, loadFrame_loaded h1, hl]⟩
  · cases hv : glcontext_probe_version env (glcontext_load_functions gldefinitions c).2 with
    | returns v =>
      rw [hv] at h
      simp only [Outcome.bind] at h
      have hvl : v.2.loaded = 0 := by
        rw [(probe_version_cases env _ v hv).2.1, glcontext_load_functions, loadFrame_loaded h1,
          hl]
      split at h
      · rename_i hneg
        rw [← Outcome.returns.inj h]
        exact Or.inr ⟨hneg, hvl⟩
      · cases hp : glcontext_probe_extensions F env v.2 with
        | returns p =>
          rw [hp] at h
          simp only [Outcome.bind] at h
          have hpl : p.2.loaded = 0 := by
            rw [frame_loaded (probe_extensions_frame F env v.2 p hp).1, hvl]
          split at h
          · rename_i hneg
            rw [← Outcome.returns.inj h]
            exact Or.inr ⟨hneg, hpl⟩
          · split at h
            · rename_i hneg
              rw [(probe_settings_cases F env p.2).1] at hneg
              exact absurd hneg (by decide)
            · rw [← Outcome.returns.inj h]
              exact Or.inl ⟨rfl, rfl⟩
        | aborts => rw [hp] at h; exact absurd h (by simp [Outcome.bind])
        | diverges => rw [hp] at h; exact absurd h (by simp [Outcome.bind])
    | aborts => rw [hv] at h; exact absurd h (by simp [Outcome.bind])
    | diverges => rw [hv] at h; exact absurd h (by simp [Outcome.bind])

/-- C8: on a handle whose loaded flag is set, `ngli_glcontext_load_extensions`
returns 0 and leaves the handle, call log included, as it was; this holds in
particular for the handle that a first successful load has returned. -/
theorem C8_load_extensions_loaded_noop (gldefinitions : List gldefinition)
    (F : FeatureFlags) (env : Env) (c : glcontext)
    (h : c.loaded ≠ 0 ∨
      ∃ c0, ngli_glcontext_load_extensions gldefinitions F env c0 = .returns (0, c)) :
    ngli_glcontext_load_extensions gldefinitions F env c = .returns (0, c) := by
  have hloaded : c.loaded ≠ 0 := by
    rcases h with h | ⟨c0, h0⟩
    · exact h
    · by_cases hl0 : c0.loaded = 0
      · rcases load_extensions_cases gldefinitions F env c0 hl0 _ h0 with ⟨_, h1⟩ | ⟨h1, _⟩
        · simp only at h1; rw [h1]; decide
        · exact absurd h1 (Int.lt_irrefl 0)
      · unfold ngli_glcontext_load_extensions at h0
        rw [if_pos hl0] at h0
        have := Outcome.returns.inj h0
        have hc : c0 = c := congrArg Prod.snd this
        rwa [← hc]
  unfold ngli_glcontext_load_extensions
  rw [if_pos hloaded]

/-- C8, witness: a second load of a loaded handle returns 0 and the same
handle. -/
theorem C8_load_extensions_loaded_noop_witness :
    ngli_glcontext_load_extensions gldefinitions_sample F0 env_plain handle_loaded
      = .returns (0, handle_loaded) :=
  C8_load_extensions_loaded_noop gldefinitions_sample F0 env_plain handle_loaded
    (Or.inl (by decide))

/-- C10 (counterexample): an unloaded handle whose API identifier is none of the
two families makes `ngli_glcontext_load_extensions` neither return 0 nor return
a negative value: the assertion of `glcontext_probe_version` aborts. -/
theorem C10_other_api_aborts :
    handle_other_api.loaded = 0 ∧
    ngli_glcontext_load_extensions [] F0 env_plain handle_other_api = .aborts ∧
    ¬ ∃ r, ngli_glcontext_load_extensions [] F0 env_plain handle_other_api = .returns r := by
  refine ⟨rfl, rfl, ?_⟩
  rintro ⟨r, hr⟩
  have h : ngli_glcontext_load_extensions [] F0 env_plain handle_other_api = .aborts := rfl
  rw [h] at hr
  exact absurd hr (by simp)

/-- C10 (amended): for an unloaded handle of the desktop or of the embedded
family, on which the embedded extension search, if it is run, terminates,
`ngli_glcontext_load_extensions` returns, and it returns either 0 with the
loaded flag set to 1 or a negative value with the loaded flag left at 0. When
function loading fails the result is that of function loading, and when version
probing fails the result is that of version probing: no later phase has run. -/
theorem C10_load_extensions_status (gldefinitions : List gldefinition) (F : FeatureFlags)
    (env : Env) (c : glcontext) (hl : c.loaded = 0)
    (hapi : c.api = .NGL_GLAPI_OPENGL3 ∨ c.api = .NGL_GLAPI_OPENGLES2)
    (hterm : (c.api = .NGL_GLAPI_OPENGLES2 ∨ c.es ≠ 0) →
      ngli_glcontext_check_extension (some "GL_OES_vertex_array_object") env.GL_EXTENSIONS
        ≠ none) :
    ∃ r, ngli_glcontext_load_extensions gldefinitions F env c = .returns r ∧
      ((r.1 = 0 ∧ r.2.loaded = 1) ∨ (r.1 < 0 ∧ r.2.loaded = 0)) ∧
      ((glcontext_load_functions gldefinitions c).1 < 0 →
        r = glcontext_load_functions gldefinitions c) ∧
      (¬ (glcontext_load_functions gldefinitions c).1 < 0 →
        ∀ v, glcontext_probe_version env (glcontext_load_functions gldefinitions c).2
            = .returns v → v.1 < 0 → r = v) := by
  have hret : ∃ r, ngli_glcontext_load_extensions gldefinitions F env c = .returns r := by
    unfold ngli_glcontext_load_extensions
    rw [if_neg (by simp [hl])]
    simp only
    split
    · exact ⟨_, rfl⟩
    · have h1 := (load_functions_loop_frame gldefinitions c).1
      obtain ⟨v, hv⟩ := probe_version_returns env (glcontext_load_functions gldefinitions c).2
        (by rw [glcontext_load_functions, loadFrame_api h1]; exact hapi)
      rw [hv]
      simp only [Outcome.bind]
      split
      · exact ⟨_, rfl⟩
      · obtain ⟨p, hp⟩ := probe_extensions_returns F env v.2 (by
          intro hes
          apply hterm
          have := (probe_version_cases env _ v hv).2.2 hes
          rwa [glcontext_load_functions, loadFrame_api h1, loadFrame_es h1] at this)
        rw [hp]
        simp only [Outcome.bind]
        split
        · exact ⟨_, rfl⟩
        · split <;> exact ⟨_, rfl⟩
  obtain ⟨r, hr⟩ := hret
  refine ⟨r, hr, load_extensions_cases gldefinitions F env c hl r hr, ?_, ?_⟩
  · intro hneg
    unfold ngli_glcontext_load_extensions at hr
    rw [if_neg (by simp [hl])] at hr
    simp only [hneg, if_true] at hr
    exact (Outcome.returns.inj hr).symm
  · intro hnn v hv hvneg
    unfold ngli_glcontext_load_extensions at hr
    rw [if_neg (by simp [hl])] at hr
    simp only [hnn, if_false, hv, Outcome.bind, hvneg, if_true] at hr
    exact (Outcome.returns.inj hr).symm

/-- C10 (amended), witness: a fresh embedded handle on a driver of version 2.0
that advertises `GL_OES_vertex_array_object`. -/
theorem C10_load_extensions_status_witness :
    ∃ r, ngli_glcontext_load_extensions gldefinitions_sample F0 env_es_vao handle_es_fresh
        = .returns r ∧
      ((r.1 = 0 ∧ r.2.loaded = 1) ∨ (r.1 < 0 ∧ r.2.loaded = 0)) ∧
      ((glcontext_load_functions gldefinitions_sample handle_es_fresh).1 < 0 →
        r = glcontext_load_functions gldefinitions_sample handle_es_fresh) ∧
      (¬ (glcontext_load_functions gldefinitions_sample handle_es_fresh).1 < 0 →
        ∀ v, glcontext_probe_version env_es_vao
              (glcontext_load_functions gldefinitions_sample handle_es_fresh).2
            = .returns v → v.1 < 0 → r = v) :=
  C10_load_extensions_status gldefinitions_sample F0 env_es_vao handle_es_fresh rfl
    (Or.inr rfl) (fun _ => by decide)

/-! ## Theorems: version probing and settings -/

/-- C11: for a desktop-family handle `glcontext_probe_version` returns; the
status is negative exactly when the major version reported by the driver is
below 3, and 0 otherwise; the handle stores the reported major and minor
versions and the embedded flag is left as it was (unset on a fresh handle). -/
theorem C11_desktop_version (env : Env) (c : glcontext)
    (hapi : c.api = .NGL_GLAPI_OPENGL3) :
    ∃ r, glcontext_probe_version env c = .returns r ∧
      (r.1 < 0 ↔ env.GL_MAJOR_VERSION < 3) ∧
      (¬ env.GL_MAJOR_VERSION < 3 → r.1 = 0) ∧
      r.2.major_version = env.GL_MAJOR_VERSION ∧
      r.2.minor_version = env.GL_MINOR_VERSION ∧
      r.2.es = c.es := by
  unfold glcontext_probe_version
  rw [hapi]
  simp only
  split
  · rename_i h0
    have h : env.GL_MAJOR_VERSION < 3 := h0
    refine ⟨_, rfl, ⟨fun _ => h, fun _ => ?_⟩, fun hn => absurd h hn, rfl, rfl, rfl⟩
    show (-1 : Int) < 0
    decide
  · rename_i h0
    have h : ¬ env.GL_MAJOR_VERSION < 3 := h0
    refine ⟨_, rfl, ⟨fun h1 => ?_, fun h3 => absurd h3 h⟩, fun _ => rfl, rfl, rfl, rfl⟩
    exact absurd (show (0 : Int) < 0 from h1) (by decide)

/-- C11, witness: a driver that reports 2.1 makes the probing of a fresh desktop
handle fail, a driver that reports 3.0 makes it succeed with version 3.0 stored
and the embedded flag unset. -/
theorem C11_desktop_version_witness :
    (∃ r, glcontext_probe_version env_desktop_2_1 handle_desktop_fresh = .returns r ∧
      r.1 < 0) ∧
    (∃ r, glcontext_probe_version env_desktop_3_0 handle_desktop_fresh = .returns r ∧
      r.1 = 0 ∧ r.2.major_version = 3 ∧ r.2.minor_version = 0 ∧ r.2.es = 0) := by
  obtain ⟨r, hr, h1, -, -, -, -⟩ :=
    C11_desktop_version env_desktop_2_1 handle_desktop_fresh rfl
  obtain ⟨r', hr', -, h2, h3, h4, h5⟩ :=
    C11_desktop_version env_desktop_3_0 handle_desktop_fresh rfl
  exact ⟨⟨r, hr, h1.mpr (by decide)⟩, ⟨r', hr', h2 (by decide), h3, h4, h5⟩⟩

theorem probe_work_group_counts_formats (env : Env) :
    ∀ (l : List Nat) (c : glcontext),
      (probe_work_group_counts env l c).gl_1comp = c.gl_1comp ∧
      (probe_work_group_counts env l c).gl_2comp = c.gl_2comp := by
  intro l
  induction l with
  | nil => intro c; exact ⟨rfl, rfl⟩
  | cons i rest ih =>
    intro c
    simp only [probe_work_group_counts]
    exact ⟨(ih _).1.trans rfl, (ih _).2.trans rfl⟩

/-- The formats `glcontext_probe_settings` stores. -/
theorem probe_settings_formats (F : FeatureFlags) (env : Env) (c : glcontext) :
    ((glcontext_probe_settings F env c).2.gl_1comp,
      (glcontext_probe_settings F env c).2.gl_2comp) =
      if c.es ≠ 0 ∧ c.major_version = 2 ∧ c.minor_version = 0
      then (GL_LUMINANCE, GL_LUMINANCE_ALPHA) else (GL_RED, GL_RG) := by
  unfold glcontext_probe_settings
  simp only
  split <;> split <;> first
    | rfl
    | (rw [(probe_work_group_counts_formats _ _ _).1,
        (probe_work_group_counts_formats _ _ _).2]; rfl)

/-- C14: `glcontext_probe_settings` stores the legacy luminance formats if and
only if the embedded flag of the handle is set and its version is exactly 2.0;
in every other case, the desktop family at any version included, it stores
`GL_RED` and `GL_RG`. -/
theorem C14_settings_formats (F : FeatureFlags) (env : Env) (c : glcontext) :
    (((glcontext_probe_settings F env c).2.gl_1comp = GL_LUMINANCE ∧
        (glcontext_probe_settings F env c).2.gl_2comp = GL_LUMINANCE_ALPHA) ↔
      (c.es ≠ 0 ∧ c.major_version = 2 ∧ c.minor_version = 0)) ∧
    (¬ (c.es ≠ 0 ∧ c.major_version = 2 ∧ c.minor_version = 0) →
      (glcontext_probe_settings F env c).2.gl_1comp = GL_RED ∧
        (glcontext_probe_settings F env c).2.gl_2comp = GL_RG) ∧
    (c.es = 0 → (glcontext_probe_settings F env c).2.gl_1comp = GL_RED ∧
        (glcontext_probe_settings F env c).2.gl_2comp = GL_RG) := by
  have key := probe_settings_formats F env c
  have hneg : ¬ (c.es ≠ 0 ∧ c.major_version = 2 ∧ c.minor_version = 0) →
      (glcontext_probe_settings F env c).2.gl_1comp = GL_RED ∧
        (glcontext_probe_settings F env c).2.gl_2comp = GL_RG := by
    intro h
    rw [if_neg h] at key
    exact ⟨congrArg Prod.fst key, congrArg Prod.snd key⟩
  refine ⟨⟨?_, ?_⟩, hneg, fun h0 => hneg (fun h => h.1 h0)⟩
  · intro h
    by_contra hn
    have := (hneg hn).1
    rw [h.1] at this
    exact absurd this (by decide)
  · intro h
    rw [if_pos h] at key
    exact ⟨congrArg Prod.fst key, congrArg Prod.snd key⟩

/-! ## Theorems: the `sscanf` of the version string -/

theorem scan_literal_append (l s : List Char) : scan_literal l (l ++ s) = some s := by
  induction l with
  | nil => cases s <;> rfl
  | cons a l ih => simp only [List.cons_append, scan_literal, if_true]; exact ih

theorem digit_not_space (c : Char) (h : c.isDigit = true) :
    isspace c = false ∧ c ≠ '-' ∧ c ≠ '+' := by
  refine ⟨?_, ?_, ?_⟩
  · by_contra hs
    have hs : isspace c = true := by simpa using hs
    simp only [isspace, Bool.or_eq_true, decide_eq_true_eq] at hs
    rcases hs with ((((rfl | rfl) | rfl) | rfl) | rfl) | rfl <;> exact absurd h (by decide)
  · rintro rfl; exact absurd h (by decide)
  · rintro rfl; exact absurd h (by decide)

theorem dropWhile_isspace_digits (ds rest : List Char) (hne : ds ≠ [])
    (hd : ∀ c ∈ ds, c.isDigit = true) :
    (ds ++ rest).dropWhile isspace = ds ++ rest := by
  cases ds with
  | nil => exact absurd rfl hne
  | cons a t =>
    have := (digit_not_space a (hd a (List.mem_cons_self _ _))).1
    simp [List.dropWhile_cons, this]

theorem takeWhile_digits (ds rest : List Char) (hd : ∀ c ∈ ds, c.isDigit = true)
    (hr : ∀ c, rest.head? = some c → c.isDigit = false) :
    (ds ++ rest).takeWhile Char.isDigit = ds ∧ (ds ++ rest).dropWhile Char.isDigit = rest := by
  have h1 : rest.takeWhile Char.isDigit = [] ∧ rest.dropWhile Char.isDigit = rest := by
    cases rest with
    | nil => exact ⟨rfl, rfl⟩
    | cons a t =>
      have := hr a rfl
      simp [List.takeWhile_cons, List.dropWhile_cons, this]
  rw [List.takeWhile_append_of_pos hd, List.dropWhile_append_of_pos hd, h1.1, h1.2]
  simp

/-- The conversion `%d` on a run of digits followed by something that does not
start with a digit. -/
theorem scan_int_digits (ds rest : List Char) (hne : ds ≠ [])
    (hd : ∀ c ∈ ds, c.isDigit = true)
    (hr : ∀ c, rest.head? = some c → c.isDigit = false) :
    scan_int (ds ++ rest) = some (digits_value ds, rest) := by
  unfold scan_int
  rw [dropWhile_isspace_digits ds rest hne hd]
  cases ds with
  | nil => exact absurd rfl hne
  | cons a t =>
    obtain ⟨-, hm, hp⟩ := digit_not_space a (hd a (List.mem_cons_self _ _))
    have hsplit : (match (a :: t ++ rest : List Char) with
        | '-' :: u => (true, u)
        | '+' :: u => (false, u)
        | _ => (false, a :: t ++ rest)) = (false, a :: t ++ rest) := by
      split
      · rename_i u heq
        exact absurd (List.cons.inj heq).1 hm
      · rename_i u heq
        exact absurd (List.cons.inj heq).1 hp
      · rfl
    simp only [hsplit]
    have htd := takeWhile_digits (a :: t) rest hd hr
    rw [htd.1, htd.2]
    simp

/-- The `sscanf` of a string `OpenGL ES <digits>.<digits><suffix>` whose suffix
does not start with a digit stores the two values and returns 2. -/
theorem sscanf_version_digits (d1 d2 suffix : List Char) (h1 : d1 ≠ []) (h2 : d2 ≠ [])
    (hd1 : ∀ c ∈ d1, c.isDigit = true) (hd2 : ∀ c ∈ d2, c.isDigit = true)
    (hs : ∀ c, suffix.head? = some c → c.isDigit = false) :
    sscanf_version ("OpenGL ES ".toList ++ (d1 ++ '.' :: (d2 ++ suffix)))
      = ⟨2, some (digits_value d1), some (digits_value d2)⟩ := by
  have e0 : "OpenGL ES ".toList ++ (d1 ++ '.' :: (d2 ++ suffix))
      = "OpenGL".toList ++ (' ' :: ("ES".toList ++ (' ' :: (d1 ++ '.' :: (d2 ++ suffix))))) := rfl
  have hdot : ∀ c, ('.' :: (d2 ++ suffix)).head? = some c → c.isDigit = false := by
    intro c hc
    have : c = '.' := (Option.some.inj hc).symm
    rw [this]; decide
  have e1 : (' ' :: ("ES".toList ++ (' ' :: (d1 ++ '.' :: (d2 ++ suffix))))).dropWhile isspace
      = "ES".toList ++ (' ' :: (d1 ++ '.' :: (d2 ++ suffix))) := rfl
  have e2 : (' ' :: (d1 ++ '.' :: (d2 ++ suffix))).dropWhile isspace
      = d1 ++ '.' :: (d2 ++ suffix) := by
    rw [List.dropWhile_cons_of_pos (by decide)]
    exact dropWhile_isspace_digits d1 _ h1 hd1
  have e3 : scan_literal ".".toList ('.' :: (d2 ++ suffix)) = some (d2 ++ suffix) :=
    scan_literal_append ['.'] (d2 ++ suffix)
  unfold sscanf_version
  simp only [e0, scan_literal_append, e1, e2, scan_int_digits d1 _ h1 hd1 hdot, e3,
    scan_int_digits d2 _ h2 hd2 hs]

theorem digits_value_snoc (l : List Char) (c : Char) :
    digits_value (l ++ [c]) = 10 * digits_value l + ((c.toNat : Int) - 48) := by
  unfold digits_value
  rw [List.foldl_append]
  rfl

theorem digitChar_digit (d : Nat) (h : d < 10) :
    (Nat.digitChar d).isDigit = true ∧ (((Nat.digitChar d).toNat : Int) - 48 = d) := by
  interval_cases d <;> exact ⟨by decide, by decide⟩

theorem toDigitsCore_append (fuel : Nat) :
    ∀ (n : Nat) (acc : List Char),
      Nat.toDigitsCore 10 fuel n acc = Nat.toDigitsCore 10 fuel n [] ++ acc := by
  induction fuel with
  | zero => intro n acc; rfl
  | succ f ih =>
    intro n acc
    simp only [Nat.toDigitsCore]
    split
    · rfl
    · rw [ih (n / 10) (Nat.digitChar (n % 10) :: acc), ih (n / 10) [Nat.digitChar (n % 10)]]
      simp

/-- The decimal numeral that core Lean prints for a natural number is a
non-empty run of digits whose value is the number. -/
theorem toDigitsCore_value (fuel : Nat) :
    ∀ n, n < fuel →
      Nat.toDigitsCore 10 fuel n [] ≠ [] ∧
      (∀ c ∈ Nat.toDigitsCore 10 fuel n [], c.isDigit = true) ∧
      digits_value (Nat.toDigitsCore 10 fuel n []) = n := by
  induction fuel with
  | zero => intro n h; exact absurd h (Nat.not_lt_zero n)
  | succ f ih =>
    intro n hn
    have hd := digitChar_digit (n % 10) (Nat.mod_lt n (by decide))
    simp only [Nat.toDigitsCore]
    split
    · rename_i h0
      refine ⟨by simp, ?_, ?_⟩
      · intro c hc
        rw [List.mem_singleton.mp hc]; exact hd.1
      · have : digits_value [Nat.digitChar (n % 10)]
            = 10 * digits_value [] + (((Nat.digitChar (n % 10)).toNat : Int) - 48) :=
          digits_value_snoc [] _
        rw [this, hd.2]
        have : digits_value [] = 0 := rfl
        rw [this]
        omega
    · rename_i h0
      have hlt : n / 10 < f := by omega
      obtain ⟨i1, i2, i3⟩ := ih (n / 10) hlt
      rw [toDigitsCore_append]
      refine ⟨by simp, ?_, ?_⟩
      · intro c hc
        rcases List.mem_append.mp hc with h | h
        · exact i2 c h
        · rw [List.mem_singleton.mp h]; exact hd.1
      · rw [digits_value_snoc, i3, hd.2]
        omega

theorem toString_nat_digits (n : Nat) :
    (toString n).toList ≠ [] ∧ (∀ c ∈ (toString n).toList, c.isDigit = true) ∧
      digits_value (toString n).toList = n :=
  toDigitsCore_value (n + 1) n (Nat.lt_succ_self n)

/-- C12: for an embedded-family handle and a version string `OpenGL ES M.m`
followed by a suffix that does not start with a digit, `M` and `m` being
decimal numerals of values that fit an `int`, `glcontext_probe_version` sets
the embedded flag, stores `M` and `m`, and succeeds when `M >= 2` (and fails
when `M < 2`). -/
theorem C12_embedded_version_parse (env : Env) (c : glcontext) (M m : Nat) (suffix : String)
    (hapi : c.api = .NGL_GLAPI_OPENGLES2)
    (_hM : M < 2 ^ 31) (_hm : m < 2 ^ 31)
    (hs : ∀ ch, suffix.toList.head? = some ch → ch.isDigit = false)
    (hv : env.GL_VERSION = some ("OpenGL ES " ++ toString M ++ "." ++ toString m ++ suffix)) :
    ∃ r, glcontext_probe_version env c = .returns r ∧ r.2.es = 1 ∧
      r.2.major_version = M ∧ r.2.minor_version = m ∧
      (2 ≤ M → r.1 = 0) ∧ (M < 2 → r.1 < 0) := by
  obtain ⟨a1, a2, a3⟩ := toString_nat_digits M
  obtain ⟨b1, b2, b3⟩ := toString_nat_digits m
  have hlist : ("OpenGL ES " ++ toString M ++ "." ++ toString m ++ suffix).toList
      = "OpenGL ES ".toList ++ ((toString M).toList ++ '.' :: ((toString m).toList
          ++ suffix.toList)) := by
    simp only [String.toList, String.data_append, List.append_assoc]
    rfl
  have hscan := sscanf_version_digits _ _ suffix.toList a1 b1 a2 b2 hs
  rw [← hlist, a3, b3] at hscan
  unfold glcontext_probe_version
  rw [hapi]
  simp only [hv, hscan, Option.getD_some, ne_eq, not_true_eq_false, if_false]
  split
  · rename_i hlt
    refine ⟨_, rfl, rfl, rfl, rfl, fun h2 => ?_, fun _ => ?_⟩
    · exact absurd hlt (by omega)
    · show (-1 : Int) < 0
      decide
  · rename_i hge
    refine ⟨_, rfl, rfl, rfl, rfl, fun _ => rfl, fun h2 => ?_⟩
    exact absurd (show ((M : Int) < 2) by omega) hge

/-- C12, witness: the version string `OpenGL ES 3.1 (driver xyz)` gives major 3
and minor 1 on a fresh embedded handle, and the probing succeeds. -/
theorem C12_embedded_version_parse_witness :
    ∃ r, glcontext_probe_version env_es_3_1 handle_es_fresh = .returns r ∧ r.2.es = 1 ∧
      r.2.major_version = 3 ∧ r.2.minor_version = 1 ∧ r.1 = 0 := by
  obtain ⟨r, h1, h2, h3, h4, h5, -⟩ :=
    C12_embedded_version_parse env_es_3_1 handle_es_fresh 3 1 " (driver xyz)" rfl
      (by decide) (by decide) (by intro ch h; rw [← Option.some.inj h]; decide) rfl
  exact ⟨r, h1, h2, h3, h4, h5 (by decide)⟩

theorem scan_literal_some :
    ∀ (l s r : List Char), scan_literal l s = some r → s = l ++ r := by
  intro l
  induction l with
  | nil =>
    intro s r h
    cases s <;> simp only [scan_literal, Option.some.injEq] at h <;> rw [← h] <;> rfl
  | cons a l ih =>
    intro s r h
    cases s with
    | nil => simp [scan_literal] at h
    | cons b t =>
      simp only [scan_literal] at h
      split at h
      · rename_i hab
        rw [hab, ih t r h]; rfl
      · exact absurd h (by simp)

theorem isBlank_takeWhile (s : List Char) : IsBlank (s.takeWhile isspace) :=
  fun _ hc => List.mem_takeWhile_imp hc

/-- What the conversion `%d` has read when it succeeds. -/
theorem scan_int_some (s r : List Char) (v : Int) (h : scan_int s = some (v, r)) :
    ∃ tok, IsIntToken tok ∧ s = tok ++ r := by
  unfold scan_int at h
  simp only at h
  split at h
  · exact absurd h (by simp)
  · rename_i hne
    have hr := congrArg Prod.snd (Option.some.inj h)
    simp only at hr
    have hsplit : s = s.takeWhile isspace ++ s.dropWhile isspace :=
      (List.takeWhile_append_dropWhile isspace s).symm
    generalize s.dropWhile isspace = s0 at hne hr hsplit
    have key : ∀ (sg u : List Char), (sg = [] ∨ sg = ['-'] ∨ sg = ['+']) → s0 = sg ++ u →
        u.takeWhile Char.isDigit ≠ [] → u.dropWhile Char.isDigit = r →
        ∃ tok, IsIntToken tok ∧ s = tok ++ r := by
      intro sg u hsg hs0 hds hrest
      refine ⟨s.takeWhile isspace ++ sg ++ u.takeWhile Char.isDigit,
        ⟨_, sg, _, rfl, isBlank_takeWhile s, hsg, hds, fun _ hc => List.mem_takeWhile_imp hc⟩, ?_⟩
      rw [← hrest, List.append_assoc, List.append_assoc, List.takeWhile_append_dropWhile, ← hs0]
      exact hsplit
    split at hne
    · rename_i t
      exact key ['-'] t (Or.inr (Or.inl rfl)) rfl hne (by simpa using hr)
    · rename_i t
      exact key ['+'] t (Or.inr (Or.inr rfl)) rfl hne (by simpa using hr)
    · exact key [] s0 (Or.inl rfl) rfl hne (by simpa using hr)

/-- The `sscanf` of the version string returns 2 only on a string that the
format matches. -/
theorem sscanf_version_sound (s : List Char) (h : (sscanf_version s).ret = 2) :
    MatchesFormat s := by
  unfold sscanf_version at h
  simp only at h
  cases h1 : scan_literal "OpenGL".toList s with
  | none =>
    rw [h1] at h
    simp only at h
    split at h <;> exact absurd h (by decide)
  | some s1 =>
    rw [h1] at h
    simp only at h
    cases h2 : scan_literal "ES".toList (s1.dropWhile isspace) with
    | none =>
      rw [h2] at h
      simp only at h
      split at h <;> exact absurd h (by decide)
    | some s2 =>
      rw [h2] at h
      simp only at h
      cases h3 : scan_int (s2.dropWhile isspace) with
      | none =>
        rw [h3] at h
        simp only at h
        split at h <;> exact absurd h (by decide)
      | some p3 =>
        obtain ⟨major, s3⟩ := p3
        rw [h3] at h
        simp only at h
        cases h4 : scan_literal ".".toList s3 with
        | none => rw [h4] at h; simp at h
        | some s4 =>
          rw [h4] at h
          simp only at h
          cases h5 : scan_int s4 with
          | none => rw [h5] at h; simp at h
          | some p5 =>
            obtain ⟨minor, s5⟩ := p5
            obtain ⟨i1, hi1, e3⟩ := scan_int_some _ _ _ h3
            obtain ⟨i2, hi2, e5⟩ := scan_int_some _ _ _ h5
            have e1 := scan_literal_some _ _ _ h1
            have e2 := scan_literal_some _ _ _ h2
            have e4 := scan_literal_some _ _ _ h4
            refine ⟨s1.takeWhile isspace, s2.takeWhile isspace, i1, i2, s5,
              isBlank_takeWhile s1, isBlank_takeWhile s2, hi1, hi2, ?_⟩
            have f4 : s3 = '.' :: (i2 ++ s5) := by rw [e4, e5]; rfl
            have f2 : s2 = s2.takeWhile isspace ++ (i1 ++ '.' :: (i2 ++ s5)) := by
              conv_lhs => rw [← List.takeWhile_append_dropWhile isspace s2, e3, f4]
            have f1 : s1 = s1.takeWhile isspace
                ++ ("ES".toList ++ (s2.takeWhile isspace ++ (i1 ++ '.' :: (i2 ++ s5)))) := by
              conv_lhs => rw [← List.takeWhile_append_dropWhile isspace s1, e2, f2]
            conv_lhs => rw [e1, f1]

theorem status_neg_one {α : Type} (x : α) : ((-1 : Int), x).1 < 0 := by
  show (-1 : Int) < 0
  decide

/-- C13 (counterexample): the version string `OpenGLES3.1` does not start with
the literal prefix `OpenGL ES `, yet version probing succeeds on it with major 3
and minor 1: a blank of the `sscanf` format also matches no white space. -/
theorem C13_unspaced_version_accepted :
    ¬ ("OpenGL ES ".toList <+: "OpenGLES3.1".toList) ∧
    ∃ r, glcontext_probe_version env_es_nospace handle_es_fresh = .returns r ∧
      r.1 = 0 ∧ r.2.major_version = 3 ∧ r.2.minor_version = 1 :=
  ⟨by decide, _, rfl, rfl, rfl, rfl⟩

/-- C13 (amended): for an embedded-family handle `glcontext_probe_version`
returns a negative value when the driver gives no version string, when the
version string is not of the form that the format `OpenGL ES %d.%d` matches
(`OpenGL`, white space, `ES`, white space, integer, dot, integer, each run of
white space possibly empty), and when the major version read is below 2. -/
theorem C13_embedded_version_failures (env : Env) (c : glcontext)
    (hapi : c.api = .NGL_GLAPI_OPENGLES2) :
    (env.GL_VERSION = none →
      ∃ r, glcontext_probe_version env c = .returns r ∧ r.1 < 0) ∧
    (∀ v, env.GL_VERSION = some v → ¬ MatchesFormat v.toList →
      ∃ r, glcontext_probe_version env c = .returns r ∧ r.1 < 0) ∧
    (∀ v M, env.GL_VERSION = some v → (sscanf_version v.toList).major = some M → M < 2 →
      ∃ r, glcontext_probe_version env c = .returns r ∧ r.1 < 0) := by
  refine ⟨?_, ?_, ?_⟩
  · intro hv
    unfold glcontext_probe_version
    rw [hapi]
    simp only [hv]
    exact ⟨_, rfl, status_neg_one _⟩
  · intro v hv hnm
    have hret : (sscanf_version v.toList).ret ≠ 2 := fun h => hnm (sscanf_version_sound _ h)
    unfold glcontext_probe_version
    rw [hapi]
    simp only [hv]
    rw [if_pos hret]
    exact ⟨_, rfl, status_neg_one _⟩
  · intro v M hv hM hlt
    unfold glcontext_probe_version
    rw [hapi]
    simp only [hv, hM, Option.getD_some]
    split <;> exact ⟨_, rfl, status_neg_one _⟩

/-- C13 (amended), witness: the version string `GLES-3.1-broken` makes version
probing fail on a fresh embedded handle. -/
theorem C13_embedded_version_failures_witness :
    ∃ r, glcontext_probe_version env_es_broken handle_es_fresh = .returns r ∧ r.1 < 0 :=
  (C13_embedded_version_failures env_es_broken handle_es_fresh rfl).2.1 "GLES-3.1-broken" rfl
    (by
      rintro ⟨b1, b2, i1, i2, rest, -, -, -, -, h⟩
      have h' : 'G' :: "LES-3.1-broken".toList
          = 'O' :: ("penGL".toList ++ (b1 ++ ("ES".toList ++ (b2 ++ (i1 ++ '.' :: (i2 ++ rest))))))
        := h
      exact absurd (List.cons.inj h').1 (by decide))

/-! ## Theorems: construction and destruction -/

/-- C15: with a platform identifier that is negative or not below the number of
slots of `glcontext_class_map`, `glcontext_new` returns a null handle and adds
no event to the log (no backend callback, `init` or `uninit`, is invoked); so
does `ngli_glcontext_new_wrapped` when the identifier is not the automatic
sentinel. -/
theorem C15_out_of_range_platform (B : Build) (mem : Mem) (display window handle : Nat)
    (platform : Int) (api : GLApi) (log : List Call)
    (h : platform < 0 ∨ platform ≥ B.glcontext_class_map.length) :
    glcontext_new B mem display window handle platform api log = some (none, log) ∧
    (platform ≠ B.NGL_GLPLATFORM_AUTO →
      ngli_glcontext_new_wrapped B mem display window handle platform api log
        = some (none, log)) := by
  have h1 : ∀ a, glcontext_new B mem display window handle platform a log = some (none, log) := by
    intro a
    unfold glcontext_new
    rw [if_pos h]
  refine ⟨h1 api, ?_⟩
  intro hne
  unfold ngli_glcontext_new_wrapped
  simp only [if_neg hne, h1]

/-- C15, witness: platform 7 on a build with three slots. -/
theorem C15_out_of_range_platform_witness :
    glcontext_new build_sample {} 0 0 0 7 .NGL_GLAPI_OPENGL3 [] = some (none, []) ∧
    (7 ≠ build_sample.NGL_GLPLATFORM_AUTO →
      ngli_glcontext_new_wrapped build_sample {} 0 0 0 7 .NGL_GLAPI_OPENGL3 []
        = some (none, [])) :=
  C15_out_of_range_platform build_sample {} 0 0 0 7 .NGL_GLAPI_OPENGL3 [] (Or.inr (by decide))

theorem freep_log (c : glcontext) (log : List Call) :
    (ngli_glcontext_freep (some (some c)) log).2
      = log ++ (if c.class_.uninit then [.uninit] else [])
        ++ [.free "priv_data", .free "glcontext"] := by
  unfold ngli_glcontext_freep
  cases h : c.class_.uninit <;> simp [h]

/-- C16 (counterexample): a backend whose `init` returns 1, a non-zero result,
gets a non-null handle from `glcontext_new`, and its `uninit` is not invoked:
only a negative result of `init` is a failure. -/
theorem C16_positive_init_succeeds :
    class_init_positive.init = some (fun _ _ _ => 1) ∧
    ∃ c, glcontext_new build_sample {} 0 0 0 2 .NGL_GLAPI_OPENGL3 []
      = some (some c, [.init 0 0 0]) :=
  ⟨rfl, { class_ := class_init_positive, platform := 2, api := .NGL_GLAPI_OPENGL3 }, rfl⟩

/-- C16 (amended): for a registered platform whose backend supplies `init`, if
`init` returns a negative result then `glcontext_new` returns a null handle;
when the two allocations succeeded, `init` was invoked, and the handle is torn
down before the return: `uninit` is invoked once if the backend has one, and
the private data and the handle are released. A non-null handle is returned
only when `init` returned a non-negative result. -/
theorem C16_init_failure_tears_down (B : Build) (mem : Mem) (display window handle : Nat)
    (platform : Int) (api : GLApi) (log : List Call) (cls : glcontext_class)
    (init : Nat → Nat → Nat → Int)
    (hreg : 0 ≤ platform ∧ platform < B.glcontext_class_map.length ∧
      B.glcontext_class_map.getD platform.toNat none = some cls)
    (hinit : cls.init = some init) :
    (init display window handle < 0 →
      ∃ log', glcontext_new B mem display window handle platform api log = some (none, log') ∧
        (mem.calloc_glcontext = true → mem.calloc_priv_data = true →
          log' = log ++ [.init display window handle]
            ++ (if cls.uninit then [.uninit] else [])
            ++ [.free "priv_data", .free "glcontext"])) ∧
    (∀ c log', glcontext_new B mem display window handle platform api log = some (some c, log') →
      0 ≤ init display window handle) := by
  have hrange : ¬ (platform < 0 ∨ platform ≥ B.glcontext_class_map.length) := by omega
  unfold glcontext_new
  rw [if_neg hrange]
  split
  · rename_i hg
    refine ⟨fun _ => ⟨_, rfl, fun h => absurd h hg⟩, fun c log' h => ?_⟩
    simp at h
  · rw [hreg.2.2]
    simp only
    split
    · rename_i hp
      refine ⟨fun _ => ⟨_, rfl, fun _ h => absurd h hp.2⟩, fun c log' h => ?_⟩
      simp [glcontext_new_fail] at h
    · rw [hinit]
      simp only
      split
      · refine ⟨fun _ => ⟨_, rfl, fun _ _ => ?_⟩, fun c log' h => ?_⟩
        · exact freep_log _ _
        · simp [glcontext_new_fail] at h
      · rename_i hneg
        exact ⟨fun h => absurd h hneg, fun _ _ _ => Int.not_lt.mp hneg⟩

/-- C16 (amended), witness: a backend with private data whose `init` returns -1:
construction returns `NULL` after `init`, `uninit` and the two releases. -/
theorem C16_init_failure_tears_down_witness :
    ∃ log', glcontext_new build_sample {} 0 0 0 1 .NGL_GLAPI_OPENGL3 [] = some (none, log') ∧
      log' = [.init 0 0 0, .uninit, .free "priv_data", .free "glcontext"] := by
  obtain ⟨log', h1, h2⟩ :=
    (C16_init_failure_tears_down build_sample {} 0 0 0 1 .NGL_GLAPI_OPENGL3 [] class_init_fails
      (fun _ _ _ => -1) ⟨by decide, by decide, rfl⟩ rfl).1 (by decide)
  exact ⟨log', h1, h2 rfl rfl⟩

/-- C18: on a reference to a handle `ngli_glcontext_freep` invokes `uninit` once
when the backend has one, releases the private data and the handle, and sets
the reference to null; on a null reference and on a null pointer it adds no
event and changes nothing; hence applying it twice is applying it once. -/
theorem C18_freep_idempotent (glcontextp : Option (Option glcontext)) (log : List Call) :
    (∀ c, glcontextp = some (some c) →
      ngli_glcontext_freep glcontextp log =
        (some none, log ++ (if c.class_.uninit then [.uninit] else [])
          ++ [.free "priv_data", .free "glcontext"]) ∧
      (ngli_glcontext_freep glcontextp log).2.count .uninit
        = log.count .uninit + (if c.class_.uninit then 1 else 0)) ∧
    ngli_glcontext_freep (some none) log = (some none, log) ∧
    ngli_glcontext_freep none log = (none, log) ∧
    ngli_glcontext_freep (ngli_glcontext_freep glcontextp log).1
        (ngli_glcontext_freep glcontextp log).2
      = ngli_glcontext_freep glcontextp log := by
  refine ⟨?_, rfl, rfl, ?_⟩
  · intro c hc
    subst hc
    refine ⟨Prod.ext rfl (freep_log c log), ?_⟩
    rw [freep_log]
    cases h : c.class_.uninit <;> simp [h, List.count_append, List.count_cons]
  · cases glcontextp with
    | none => rfl
    | some r =>
      cases r with
      | none => rfl
      | some c => rfl

/-! ## Theorems: independence of the descriptors -/

theorem check_extension_loop_01 (env : Env) (e : String) :
    ∀ (n : Nat) (i : Int) (c : glcontext),
      (glcontext_check_extension_loop env e n i c).1 = 0 ∨
      (glcontext_check_extension_loop env e n i c).1 = 1 := by
  intro n
  induction n with
  | zero => intro i c; exact Or.inl rfl
  | succ n ih =>
    intro i c
    simp only [glcontext_check_extension_loop]
    cases env.GL_EXTENSIONS_i i with
    | none => exact Or.inl rfl
    | some tmp =>
      by_cases h : e = tmp
      · simp only [if_pos h]; exact Or.inr trivial
      · simp only [if_neg h]; exact ih _ _

theorem check_extensions_loop_value (env : Env) :
    ∀ (l : List String) (c c0 : glcontext),
      (check_extensions_loop env l c).1 = (check_extensions_loop env l c0).1 := by
  intro l
  induction l with
  | nil => intro c c0; rfl
  | cons e rest ih =>
    intro c c0
    simp only [check_extensions_loop]
    rw [glcontext_check_extension_value env e c c0]
    by_cases h : (glcontext_check_extension env e c0).1 = 0
    · simp only [h, if_true]
    · simp only [h, if_false]; exact ih _ _

theorem check_extensions_es_loop_value (g : Option String) :
    ∀ (l : List String) (c c0 : glcontext) (r : Int × glcontext),
      check_extensions_es_loop g l c = .returns r →
      check_extensions_es_loop g l c0 = .returns (r.1, c0) := by
  intro l
  induction l with
  | nil =>
    intro c c0 r h
    simp only [check_extensions_es_loop, Outcome.returns.injEq] at h
    rw [← h]; rfl
  | cons e rest ih =>
    intro c c0 r h
    simp only [check_extensions_es_loop] at h ⊢
    cases hc : ngli_glcontext_check_extension (some e) g with
    | none => rw [hc] at h; exact absurd h (by simp)
    | some v =>
      rw [hc] at h
      simp only at h ⊢
      by_cases hv : v = 0
      · simp only [hv, if_true, Outcome.returns.injEq] at h ⊢
        rw [← h]
      · simp only [hv, if_false] at h ⊢
        exact ih c c0 r h

/-- The value returned by `glcontext_check_extensions` does not depend on the
call log nor on the bitmask of the handle. -/
theorem glcontext_check_extensions_value (env : Env) (c c1 : glcontext) (hc : Frame c c1)
    (exts : Option (List String)) (r1 : Int × glcontext)
    (h : glcontext_check_extensions env c1 exts = .returns r1) :
    ∃ r, glcontext_check_extensions env c exts = .returns r ∧ r.1 = r1.1 := by
  unfold glcontext_check_extensions at h ⊢
  split at h
  · exact ⟨_, rfl, by rw [← Outcome.returns.inj h]⟩
  · exact ⟨_, rfl, by rw [← Outcome.returns.inj h]⟩
  · simp only
    rw [frame_es hc] at h
    split at h
    · rename_i hes
      rw [if_pos hes]
      exact ⟨_, check_extensions_es_loop_value _ _ _ _ _ h, rfl⟩
    · rename_i hes
      rw [if_neg hes]
      refine ⟨_, rfl, ?_⟩
      rw [← Outcome.returns.inj h]
      exact check_extensions_loop_value env _ _ _

/-- One iteration of the probing loop on a handle that has gone through earlier
iterations does to the bitmask what it does on the initial handle. -/
theorem probe_feature_alone (env : Env) (d : glfeature) (c c1 c2 : glcontext)
    (hc : Frame c c1) (h : glcontext_probe_feature env c.es d c1 = .returns c2) :
    ∃ c2', glcontext_probe_feature env c.es d c = .returns c2' ∧
      ((c2'.features = c.features ∧ c2.features = c1.features) ∨
        (c2'.features = c.features ||| d.flag ∧ c2.features = c1.features ||| d.flag)) := by
  have hfun : ∀ x y : glcontext, Frame c x → Frame c y →
      ((probe_feature_functions d x).features = x.features ∧
        (probe_feature_functions d y).features = y.features) ∨
      ((probe_feature_functions d x).features = x.features ||| d.flag ∧
        (probe_feature_functions d y).features = y.features ||| d.flag) := by
    intro x y hx hy
    rw [probe_feature_functions_features, probe_feature_functions_features,
      frame_check_functions hx, frame_check_functions hy]
    by_cases hz : glcontext_check_functions c d.funcs_offsets = 0
    · left; simp only [hz, if_true, and_self]
    · right; simp only [hz, if_false, and_self]
  unfold glcontext_probe_feature at h ⊢
  rw [frame_major_version hc, frame_minor_version hc] at h
  split at h
  · rename_i hgate
    rw [if_pos hgate]
    cases hx : glcontext_check_extensions env c1 (d.gate_extensions c.es) with
    | returns r1 =>
      rw [hx] at h
      obtain ⟨r, hr, hval⟩ := glcontext_check_extensions_value env c c1 hc _ r1 hx
      have hr1 := glcontext_check_extensions_calls env c1 _ r1 hx
      have hr0 := glcontext_check_extensions_calls env c _ r hr
      rw [hr]
      simp only [Outcome.bind] at h ⊢
      rw [hval]
      split at h
      · rename_i hz
        rw [if_pos hz]
        refine ⟨_, rfl, Or.inl ⟨by rw [hr0], ?_⟩⟩
        rw [← Outcome.returns.inj h, hr1]
      · rename_i hz
        rw [if_neg hz]
        refine ⟨_, rfl, ?_⟩
        rw [← Outcome.returns.inj h]
        have e0 : r.2.features = c.features := by rw [hr0]
        have e1 : r1.2.features = c1.features := by rw [hr1]
        have := hfun r.2 r1.2 (callsOnly_frame hr0) (frame_trans hc (callsOnly_frame hr1))
        rwa [e0, e1] at this
    | aborts => rw [hx] at h; exact absurd h (by simp [Outcome.bind])
    | diverges => rw [hx] at h; exact absurd h (by simp [Outcome.bind])
  · rename_i hgate
    rw [if_neg hgate]
    refine ⟨_, rfl, ?_⟩
    rw [← Outcome.returns.inj h]
    exact hfun c c1 (frame_refl c) hc

theorem alone_bits_of_returns (env : Env) (c c2 : glcontext) (d : glfeature)
    (h : glcontext_probe_feature env c.es d c = .returns c2) :
    alone_bits env c d = c2.features := by
  unfold alone_bits
  rw [h]

theorem or_absorb_step (a c0 f : Nat) (h : a ||| c0 = a) : a ||| (c0 ||| f) = a ||| f := by
  rw [← Nat.or_assoc, h]

theorem or_superset_step (a c0 x : Nat) (h : a ||| c0 = a) : (a ||| x) ||| c0 = a ||| x := by
  rw [Nat.or_assoc, Nat.or_comm x c0, ← Nat.or_assoc, h]

/-- The bitmask after the probing loop is the initial bitmask OR-ed with the
bitmasks that the descriptors give when each is evaluated alone on the initial
handle. -/
theorem probe_loop_fold (env : Env) (c0 : glcontext) :
    ∀ (l : List glfeature) (c c' : glcontext), Frame c0 c →
      c.features ||| c0.features = c.features →
      glcontext_probe_loop env c0.es l c = .returns c' →
      c'.features = l.foldl (fun acc d => acc ||| alone_bits env c0 d) c.features := by
  intro l
  induction l with
  | nil =>
    intro c c' _ _ h
    simp only [glcontext_probe_loop] at h
    rw [← Outcome.returns.inj h]; rfl
  | cons d rest ih =>
    intro c c' hc hsup h
    simp only [glcontext_probe_loop] at h
    cases hs : glcontext_probe_feature env c0.es d c with
    | returns c1 =>
      rw [hs] at h
      simp only [Outcome.bind] at h
      obtain ⟨c2', h0, hcase⟩ := probe_feature_alone env d c0 c c1 hc hs
      have hal := alone_bits_of_returns env c0 c2' d h0
      have hf1 := (probe_feature_cases env c0.es d c c1 hs).1
      have hstep : c1.features = c.features ||| alone_bits env c0 d := by
        rw [hal]
        rcases hcase with ⟨e1, e2⟩ | ⟨e1, e2⟩
        · rw [e1, e2, hsup]
        · rw [e1, e2, or_absorb_step _ _ _ hsup]
      have hsup1 : c1.features ||| c0.features = c1.features := by
        rw [hstep]; exact or_superset_step _ _ _ hsup
      rw [List.foldl_cons, ← hstep]
      exact ih c1 c' (frame_trans hc hf1) hsup1 h
    | aborts => rw [hs] at h; exact absurd h (by simp [Outcome.bind])
    | diverges => rw [hs] at h; exact absurd h (by simp [Outcome.bind])

theorem foldl_or_testBit (g : glfeature → Nat) (k : Nat) :
    ∀ (l : List glfeature) (acc : Nat),
      (l.foldl (fun a d => a ||| g d) acc).testBit k = true ↔
        acc.testBit k = true ∨ ∃ d ∈ l, (g d).testBit k = true := by
  intro l
  induction l with
  | nil => intro acc; simp
  | cons x rest ih =>
    intro acc
    rw [List.foldl_cons, ih, Nat.testBit_or, Bool.or_eq_true]
    constructor
    · rintro ((h | h) | ⟨d, hd, h⟩)
      · exact Or.inl h
      · exact Or.inr ⟨x, List.mem_cons_self _ _, h⟩
      · exact Or.inr ⟨d, List.mem_cons_of_mem _ hd, h⟩
    · rintro (h | ⟨d, hd, h⟩)
      · exact Or.inl (Or.inl h)
      · rcases List.mem_cons.mp hd with rfl | hd
        · exact Or.inl (Or.inr h)
        · exact Or.inr ⟨d, hd, h⟩

/-- Two descriptors of the table with the same flag are the same descriptor,
when the flags are pairwise different. -/
theorem glfeatures_flag_eq (F : FeatureFlags) (hF : F.toList.Nodup) (f d : glfeature)
    (hf : f ∈ glfeatures F) (hd : d ∈ glfeatures F) (h : f.flag = d.flag) : f = d := by
  simp only [FeatureFlags.toList, List.nodup_cons, List.mem_cons, List.mem_singleton,
    List.not_mem_nil, not_or, List.nodup_nil, or_false, and_true, not_false_eq_true] at hF
  simp only [glfeatures, List.mem_cons, List.mem_singleton, List.not_mem_nil, or_false] at hf hd
  rcases hf with rfl | rfl | rfl | rfl | rfl | rfl | rfl <;>
    rcases hd with rfl | rfl | rfl | rfl | rfl | rfl | rfl <;>
    first
      | rfl
      | (exfalso; simp only at h; tauto)

theorem glfeatures_flag_mem (F : FeatureFlags) (d : glfeature) (hd : d ∈ glfeatures F) :
    d.flag ∈ F.toList := by
  simp only [glfeatures, List.mem_cons, List.mem_singleton, List.not_mem_nil, or_false] at hd
  rcases hd with rfl | rfl | rfl | rfl | rfl | rfl | rfl <;> simp [FeatureFlags.toList]

/-- What a descriptor evaluated alone gives: the bitmask of the handle, with or
without the flag of the descriptor. -/
theorem alone_bits_cases (env : Env) (c : glcontext) (d : glfeature) :
    alone_bits env c d = c.features ∨ alone_bits env c d = c.features ||| d.flag := by
  unfold alone_bits
  cases h : glcontext_probe_feature env c.es d c with
  | returns c2 => exact (probe_feature_cases env c.es d c c2 h).2.imp id (fun x => x.1)
  | aborts => exact Or.inl rfl
  | diverges => exact Or.inl rfl

/-- With distinct bits, the bit of a descriptor in the bitmask after the loop is
its bit in the bitmask that the descriptor gives when evaluated alone. -/
theorem probe_loop_bit (F : FeatureFlags) (hF : F.DistinctBits) (env : Env)
    (c c' : glcontext) (h : glcontext_probe_loop env c.es (glfeatures F) c = .returns c')
    (d : glfeature) (hd : d ∈ glfeatures F) (k : Nat) (hk : d.flag = 2 ^ k) :
    c'.features.testBit k = (alone_bits env c d).testBit k := by
  have hfold := probe_loop_fold env c (glfeatures F) c c' (frame_refl c) (Nat.or_self _) h
  have hsub : c.features.testBit k = true → (alone_bits env c d).testBit k = true := by
    intro hb
    rcases alone_bits_cases env c d with e | e <;> rw [e]
    · exact hb
    · rw [Nat.testBit_or, hb]; rfl
  rw [Bool.eq_iff_iff, hfold, foldl_or_testBit]
  constructor
  · rintro (hb | ⟨f, hf, hb⟩)
    · exact hsub hb
    · rcases alone_bits_cases env c f with e | e
      · rw [e] at hb; exact hsub hb
      · rw [e, Nat.testBit_or, Bool.or_eq_true] at hb
        rcases hb with hb | hb
        · exact hsub hb
        · obtain ⟨j, hj⟩ := hF.2 _ (glfeatures_flag_mem F f hf)
          rw [hj, Nat.testBit_two_pow] at hb
          have hjk : j = k := by simpa using hb
          have hfd : f = d := glfeatures_flag_eq F hF.1 f d hf hd (by rw [hj, hk, hjk])
          rw [← hfd, e, Nat.testBit_or, hj, hjk, Nat.testBit_two_pow_self]
          simp
  · intro hb
    exact Or.inr ⟨d, hd, hb⟩

theorem check_extensions_es_loop_rejects (g : Option String) (x : String)
    (hx : ngli_glcontext_check_extension (some x) g ≠ some 1) :
    ∀ (l : List String) (c : glcontext) (r : Int × glcontext), x ∈ l →
      check_extensions_es_loop g l c = .returns r → r.1 = 0 := by
  intro l
  induction l with
  | nil => intro c r hmem; exact absurd hmem (List.not_mem_nil x)
  | cons e rest ih =>
    intro c r hmem h
    simp only [check_extensions_es_loop] at h
    cases hc : ngli_glcontext_check_extension (some e) g with
    | none => rw [hc] at h; exact absurd h (by simp)
    | some v =>
      rw [hc] at h
      simp only at h
      by_cases hv : v = 0
      · simp only [hv, if_true, Outcome.returns.injEq] at h
        rw [← h]
      · simp only [hv, if_false] at h
        rcases List.mem_cons.mp hmem with rfl | hrest
        · rcases check_extension_result _ _ v hc with h0 | h1
          · exact absurd h0 hv
          · rw [h1] at hc; exact absurd hc hx
        · exact ih c r hrest h

theorem check_extensions_loop_rejects (env : Env) (c0 : glcontext) (x : String)
    (hx : (glcontext_check_extension env x c0).1 ≠ 1) :
    ∀ (l : List String) (c : glcontext), x ∈ l → (check_extensions_loop env l c).1 = 0 := by
  intro l
  induction l with
  | nil => intro c hmem; exact absurd hmem (List.not_mem_nil x)
  | cons e rest ih =>
    intro c hmem
    simp only [check_extensions_loop]
    by_cases hv : (glcontext_check_extension env e c).1 = 0
    · rw [if_pos hv]
    · rw [if_neg hv]
      rcases List.mem_cons.mp hmem with rfl | hrest
      · rcases check_extension_loop_01 env x _ 0 (c.log (.glGetIntegerv "GL_NUM_EXTENSIONS"))
          with h0 | h1
        · exact absurd h0 hv
        · rw [glcontext_check_extension_value env x c0 c] at hx
          exact absurd h1 hx
      · exact ih _ hrest

/-- When an extension of the list does not pass the presence test, the list
check returns 0. -/
theorem glcontext_check_extensions_rejects (env : Env) (c : glcontext) (l : List String)
    (x : String) (hmem : x ∈ l) (hx : ¬ presence_test_passes env c x) (r : Int × glcontext)
    (h : glcontext_check_extensions env c (some l) = .returns r) : r.1 = 0 := by
  unfold presence_test_passes at hx
  cases l with
  | nil => exact absurd hmem (List.not_mem_nil x)
  | cons e rest =>
    unfold glcontext_check_extensions at h
    simp only at h
    by_cases hes : c.es ≠ 0
    · rw [if_pos hes] at h hx
      exact check_extensions_es_loop_rejects _ x hx _ _ r hmem h
    · rw [if_neg hes] at h hx
      rw [← Outcome.returns.inj h]
      exact check_extensions_loop_rejects env c x hx _ c hmem

/-- An iteration of the probing loop leaves the bitmask as it is when the
version gate fails and the extension list is absent, empty or has an extension
that does not pass the presence test. -/
theorem probe_feature_rejects (env : Env) (c : glcontext) (d : glfeature)
    (hver : ¬ (c.major_version ≥ (d.gate c.es).1 ∧ c.minor_version ≥ (d.gate c.es).2))
    (hext : d.gate_extensions c.es = none ∨ d.gate_extensions c.es = some [] ∨
      ∃ l x, d.gate_extensions c.es = some l ∧ x ∈ l ∧ ¬ presence_test_passes env c x)
    (c2 : glcontext) (h : glcontext_probe_feature env c.es d c = .returns c2) :
    c2.features = c.features := by
  unfold glcontext_probe_feature at h
  rw [if_pos hver] at h
  cases hx : glcontext_check_extensions env c (d.gate_extensions c.es) with
  | returns r =>
    rw [hx] at h
    have hr0 : r.1 = 0 := by
      rcases hext with he | he | ⟨l, x, he, hmem, hnr⟩
      · rw [he] at hx
        simp only [glcontext_check_extensions, Outcome.returns.injEq] at hx
        rw [← hx]
      · rw [he] at hx
        simp only [glcontext_check_extensions, Outcome.returns.injEq] at hx
        rw [← hx]
      · rw [he] at hx
        exact glcontext_check_extensions_rejects env c l x hmem hnr r hx
    simp only [Outcome.bind, hr0, if_true] at h
    rw [← Outcome.returns.inj h, glcontext_check_extensions_calls env c _ r hx]
  | aborts => rw [hx] at h; exact absurd h (by simp [Outcome.bind])
  | diverges => rw [hx] at h; exact absurd h (by simp [Outcome.bind])

theorem testBit_of_and_two_pow_eq_zero (x k : Nat) (h : x &&& 2 ^ k = 0) :
    x.testBit k = false := by
  have := congrArg (fun n => n.testBit k) h
  simpa [Nat.testBit_and, Nat.testBit_two_pow_self] using this

/-- C17 (code evaluated at the failing inputs): with a non-null source handle,
when the underlying `glcontext_new` returns `NULL`, because the allocation of
the handle fails or because `init` returns -1, `ngli_glcontext_new_shared` has
no result: it goes on to read `glcontext->class` through the null handle. The
other parts of the claim hold: a null source handle gives `NULL` without any
call, and a failing `create` gives `NULL` after the teardown of the new
handle. -/
theorem C17_shared_dereferences_null :
    glcontext_new build_shared { calloc_glcontext := false } 1 2 3 1 .NGL_GLAPI_OPENGL3
        [.get_display, .get_window, .get_handle]
      = some (none, [.get_display, .get_window, .get_handle]) ∧
    ngli_glcontext_new_shared build_shared { calloc_glcontext := false } (some handle_source) []
      = none ∧
    ngli_glcontext_new_shared build_shared {} (some handle_source_init_fails) [] = none ∧
    (∀ B mem log, ngli_glcontext_new_shared B mem none log = some (none, log)) ∧
    ngli_glcontext_new_shared build_shared {} (some handle_source_create_fails) []
      = some (none, [.get_display, .get_window, .get_handle, .init 1 2 3, .create, .uninit,
          .free "priv_data", .free "glcontext"]) ∧
    (∃ c, ngli_glcontext_new_shared build_shared {} (some handle_source) []
      = some (some c, [.get_display, .get_window, .get_handle, .init 1 2 3, .create])) :=
  ⟨rfl, rfl, rfl, fun _ _ _ => rfl, rfl,
    { class_ := class_shared, platform := 1, api := .NGL_GLAPI_OPENGL3 }, rfl⟩

/-! ## Theorems: the desktop extension search -/

/-- The loop of the desktop search returns 1 exactly when one of the entries it
may visit is the name and the driver gave a string for each entry before it. -/
theorem check_extension_loop_iff (env : Env) (e : String) :
    ∀ (n : Nat) (i : Int) (c : glcontext),
      (glcontext_check_extension_loop env e n i c).1 = 1 ↔
        ∃ k : Nat, k < n ∧ env.GL_EXTENSIONS_i (i + k) = some e ∧
          ∀ j : Nat, j < k → env.GL_EXTENSIONS_i (i + j) ≠ none := by
  intro n
  induction n with
  | zero =>
    intro i c
    simp only [glcontext_check_extension_loop]
    constructor
    · intro h; exact absurd h (by decide)
    · rintro ⟨k, hk, -⟩; exact absurd hk (Nat.not_lt_zero k)
  | succ n ih =>
    intro i c
    simp only [glcontext_check_extension_loop]
    cases hent : env.GL_EXTENSIONS_i i with
    | none =>
      simp only
      constructor
      · intro h; exact absurd h (by decide)
      · rintro ⟨k, -, hk, hprev⟩
        cases k with
        | zero =>
          simp only [Nat.cast_zero, add_zero] at hk
          rw [hent] at hk; exact absurd hk (by simp)
        | succ k =>
          have := hprev 0 (Nat.succ_pos k)
          simp only [Nat.cast_zero, add_zero] at this
          exact absurd hent this
    | some tmp =>
      simp only
      by_cases h : e = tmp
      · simp only [if_pos h]
        constructor
        · intro _
          refine ⟨0, Nat.succ_pos n, ?_, fun j hj => absurd hj (Nat.not_lt_zero j)⟩
          simp only [Nat.cast_zero, add_zero]
          rw [hent, h]
        · intro _; trivial
      · simp only [if_neg h]
        rw [ih]
        constructor
        · rintro ⟨k, hk, hk1, hprev⟩
          refine ⟨k + 1, Nat.succ_lt_succ hk, ?_, ?_⟩
          · rw [← hk1]; congr 1; push_cast; ring
          · intro j hj
            cases j with
            | zero =>
              simp only [Nat.cast_zero, add_zero]
              rw [hent]; simp
            | succ j =>
              have := hprev j (Nat.lt_of_succ_lt_succ hj)
              rwa [show i + ((j + 1 : Nat) : Int) = i + 1 + (j : Int) by push_cast; ring]
        · rintro ⟨k, hk, hk1, hprev⟩
          cases k with
          | zero =>
            simp only [Nat.cast_zero, add_zero] at hk1
            rw [hent] at hk1
            exact absurd (Option.some.inj hk1).symm h
          | succ k =>
            refine ⟨k, Nat.lt_of_succ_lt_succ hk, ?_, ?_⟩
            · rw [← hk1]; congr 1; push_cast; ring
            · intro j hj
              have := hprev (j + 1) (Nat.succ_lt_succ hj)
              rwa [show i + ((j + 1 : Nat) : Int) = i + 1 + (j : Int) by push_cast; ring] at this

/-- C21 (counterexample): the driver counts two extensions and its entry of
index 1 is exactly the name, yet the desktop search returns 0: the entry of
index 0 is `NULL` and the loop stops there. -/
theorem C21_null_entry_hides_later_match :
    (∃ i : Int, 0 ≤ i ∧ i < env_desktop_null_entry.GL_NUM_EXTENSIONS ∧
      env_desktop_null_entry.GL_EXTENSIONS_i i = some "GL_ARB_compute_shader") ∧
    (glcontext_check_extension env_desktop_null_entry "GL_ARB_compute_shader"
      handle_desktop_4_2).1 = 0 :=
  ⟨⟨1, by decide, by decide, rfl⟩, rfl⟩

/-- C21 (amended): for the desktop family `glcontext_check_extension` returns 1
if and only if some entry of the indexed extension list, at an index below the
reported count and such that the driver returned a string for every lower
index, is exactly equal to the name; otherwise it returns 0. -/
theorem C21_desktop_exact_match (env : Env) (name : String) (c : glcontext) :
    ((glcontext_check_extension env name c).1 = 1 ↔
      ∃ k : Nat, (k : Int) < env.GL_NUM_EXTENSIONS ∧ env.GL_EXTENSIONS_i k = some name ∧
        ∀ j : Nat, j < k → env.GL_EXTENSIONS_i j ≠ none) ∧
    ((glcontext_check_extension env name c).1 = 0 ∨
      (glcontext_check_extension env name c).1 = 1) := by
  refine ⟨?_, check_extension_loop_01 env name _ 0 _⟩
  unfold glcontext_check_extension
  simp only
  rw [check_extension_loop_iff]
  constructor
  · rintro ⟨k, hk, hk1, hprev⟩
    refine ⟨k, by omega, by simpa using hk1, fun j hj => by simpa using hprev j hj⟩
  · rintro ⟨k, hk, hk1, hprev⟩
    refine ⟨k, by omega, by simpa using hk1, fun j hj => by simpa using hprev j hj⟩

/-! ## Theorems: a complete function loading -/

/-- The loop of `glcontext_load_functions` on a table none of whose mandatory
entries fails to resolve: it returns 0, each slot of the table holds what the
resolver gave for the name of its entry, every other slot is untouched, and
the resolver has been asked for each name in turn. -/
theorem load_functions_loop_complete :
    ∀ (l : List gldefinition) (c : glcontext),
      (∀ e ∈ l, ¬ (e.mandatory = true ∧ resolver c e.name = 0)) →
      (l.map (·.offset)).Nodup →
      (glcontext_load_functions_loop l c).1 = 0 ∧
      (∀ e ∈ l, (glcontext_load_functions_loop l c).2.funcs e.offset = resolver c e.name) ∧
      (∀ o, o ∉ l.map (·.offset) → (glcontext_load_functions_loop l c).2.funcs o = c.funcs o) ∧
      (glcontext_load_functions_loop l c).2.calls = c.calls ++ asked c (l.map (·.name)) := by
  intro l
  induction l with
  | nil =>
    intro c _ _
    refine ⟨rfl, fun e he => absurd he (List.not_mem_nil e), fun _ _ => rfl, ?_⟩
    simp [glcontext_load_functions_loop, asked]
    cases c.class_.get_proc_address <;> rfl
  | cons p rest ih =>
    intro c hok hnd
    have hp := hok p (List.mem_cons_self _ _)
    rw [List.map_cons, List.nodup_cons] at hnd
    simp only [glcontext_load_functions_loop, get_proc_address_eq, hp, if_false]
    have hih := ih
      { c with calls := c.calls ++ asked c [p.name],
               funcs := Function.update c.funcs p.offset (resolver c p.name) }
      (fun e he => hok e (List.mem_cons_of_mem _ he)) hnd.2
    obtain ⟨h1, h2, h3, h4⟩ := hih
    refine ⟨h1, ?_, ?_, h4.trans ?_⟩
    · intro e he
      rcases List.mem_cons.mp he with rfl | hrest
      · refine (h3 _ hnd.1).trans ?_
        show Function.update c.funcs e.offset (resolver c e.name) e.offset = resolver c e.name
        rw [Function.update_same]
      · exact h2 e hrest
    · intro o ho
      rw [List.map_cons, List.mem_cons, not_or] at ho
      refine (h3 o ho.2).trans ?_
      show Function.update c.funcs p.offset (resolver c p.name) o = c.funcs o
      rw [Function.update_noteq ho.1]
    · show (c.calls ++ asked c [p.name]) ++ asked c (rest.map (·.name))
        = c.calls ++ asked c ((p :: rest).map (·.name))
      rw [List.append_assoc, ← asked_append]
      rfl

/-- When the loop of `glcontext_load_functions` returns 0, no mandatory entry of
the table has failed to resolve. -/
theorem load_functions_loop_ok :
    ∀ (l : List gldefinition) (c : glcontext), (glcontext_load_functions_loop l c).1 = 0 →
      ∀ e ∈ l, ¬ (e.mandatory = true ∧ resolver c e.name = 0) := by
  intro l
  induction l with
  | nil => intro c _ e he; exact absurd he (List.not_mem_nil e)
  | cons p rest ih =>
    intro c h e he
    simp only [glcontext_load_functions_loop, get_proc_address_eq] at h
    by_cases hp : p.mandatory = true ∧ resolver c p.name = 0
    · rw [if_pos hp] at h
      exact absurd (show (-1 : Int) = 0 from h) (by decide)
    · rw [if_neg hp] at h
      rcases List.mem_cons.mp he with rfl | hrest
      · exact hp
      · exact ih _ h e hrest

/-- C22: under a resolver for which no mandatory entry of the table resolves to
`NULL` (the offsets of the table being pairwise distinct),
`glcontext_load_functions` returns 0 and the function-table slot of each entry
holds the address the resolver gave for the name of the entry; so an optional
entry that does not resolve has a null slot and causes no failure. The resolver
has been asked for every entry. -/
theorem C22_load_functions_complete (gldefinitions : List gldefinition) (c : glcontext)
    (hnodup : (gldefinitions.map (·.offset)).Nodup)
    (hok : ∀ e ∈ gldefinitions, ¬ (e.mandatory = true ∧ resolver c e.name = 0)) :
    (glcontext_load_functions gldefinitions c).1 = 0 ∧
    (∀ e ∈ gldefinitions,
      (glcontext_load_functions gldefinitions c).2.funcs e.offset = resolver c e.name) ∧
    (∀ e ∈ gldefinitions, e.mandatory = false → resolver c e.name = 0 →
      (glcontext_load_functions gldefinitions c).2.funcs e.offset = 0) ∧
    (glcontext_load_functions gldefinitions c).2.calls
      = c.calls ++ asked c (gldefinitions.map (·.name)) := by
  obtain ⟨h1, h2, -, h4⟩ := load_functions_loop_complete gldefinitions c hok hnodup
  exact ⟨h1, h2, fun e he _ h0 => (h2 e he).trans h0, h4⟩

/-- C22, witness: on a backend that resolves every symbol but the optional
`glTexStorage2D`, loading succeeds, the two mandatory slots hold the resolved
address 42 and the optional slot is null. -/
theorem C22_load_functions_complete_witness :
    (glcontext_load_functions gldefinitions_sample handle_without_TexStorage2D).1 = 0 ∧
    (glcontext_load_functions gldefinitions_sample handle_without_TexStorage2D).2.funcs
      "GetError" = 42 ∧
    (glcontext_load_functions gldefinitions_sample handle_without_TexStorage2D).2.funcs
      "GetString" = 42 ∧
    (glcontext_load_functions gldefinitions_sample handle_without_TexStorage2D).2.funcs
      "TexStorage2D" = 0 := by
  have h := C22_load_functions_complete gldefinitions_sample handle_without_TexStorage2D
    (by decide)
    (by
      intro e he
      simp only [gldefinitions_sample, List.mem_cons, List.mem_singleton, List.not_mem_nil,
        or_false] at he
      rcases he with rfl | rfl | rfl <;> decide)
  exact ⟨h.1,
    h.2.1 { name := "glGetError", offset := "GetError", flags := 1 } (List.mem_cons_self _ _),
    h.2.1 { name := "glGetString", offset := "GetString", flags := 1 }
      (List.mem_cons_of_mem _ (List.mem_cons_self _ _)),
    h.2.2.1 { name := "glTexStorage2D", offset := "TexStorage2D", flags := 0 }
      (List.mem_cons_of_mem _ (List.mem_cons_of_mem _ (List.mem_cons_self _ _))) rfl rfl⟩

/-! ## Theorems: termination of the token search, and the version gate -/

/-- The token search does not terminate exactly when the extension string is
not empty and the first occurrence of the name in it is followed neither by a
space nor by the end of the string. -/
theorem check_extension_diverges_iff (e s : String) :
    (∀ fuel, ngli_glcontext_check_extension_fuel fuel (some e) (some s) = none) ↔
      (0 < s.toList.length ∧ ∃ p, strstr e.toList s.toList = some p ∧
        ¬ (charAt s.toList (p + e.toList.length) = ' ' ∨
          charAt s.toList (p + e.toList.length) = '\x00')) := by
  constructor
  · intro h
    have h1 := h 1
    simp only [ngli_glcontext_check_extension_fuel, check_extension_loop_succ] at h1
    split at h1
    · rename_i hpos
      refine ⟨hpos, ?_⟩
      cases hs : strstr e.toList s.toList with
      | none => rw [hs] at h1; exact absurd h1 (by simp)
      | some p =>
        rw [hs] at h1
        simp only at h1
        refine ⟨p, rfl, ?_⟩
        intro hb
        rw [if_pos hb] at h1
        exact absurd h1 (by simp)
    · exact absurd h1 (by simp)
  · rintro ⟨hpos, p, hs, hb⟩ fuel
    exact check_extension_loop_stuck e.toList s.toList p hs hb fuel 0 hpos

/-- C23 (code evaluated at the failing input): on the name
`GL_OES_texture_float` and the extension string
`GL_OES_texture_float_linear GL_OES_rgb8_rgba8` the search never returns,
whatever the number of iterations allowed, the length of the string plus one
included: the first occurrence is the prefix of a longer token, `strstr`
starts again from the beginning of the string and `cur` takes the same value
for ever. In general the search terminates if and only if the string is empty,
the name does not occur, or its first occurrence is followed by a space or the
end of the string. -/
theorem C23_search_never_returns :
    (∀ fuel, ngli_glcontext_check_extension_fuel fuel (some "GL_OES_texture_float")
      (some "GL_OES_texture_float_linear GL_OES_rgb8_rgba8") = none) ∧
    ngli_glcontext_check_extension_fuel
      ("GL_OES_texture_float_linear GL_OES_rgb8_rgba8".toList.length + 1)
      (some "GL_OES_texture_float")
      (some "GL_OES_texture_float_linear GL_OES_rgb8_rgba8") = none ∧
    (∀ e s : String,
      (∃ fuel r, ngli_glcontext_check_extension_fuel fuel (some e) (some s) = some r) ↔
        (s.toList.length = 0 ∨ strstr e.toList s.toList = none ∨
          ∃ p, strstr e.toList s.toList = some p ∧
            (charAt s.toList (p + e.toList.length) = ' ' ∨
              charAt s.toList (p + e.toList.length) = '\x00'))) := by
  have hdiv : ∀ fuel, ngli_glcontext_check_extension_fuel fuel (some "GL_OES_texture_float")
      (some "GL_OES_texture_float_linear GL_OES_rgb8_rgba8") = none :=
    (check_extension_diverges_iff _ _).mpr ⟨by decide, 0, by decide, by decide⟩
  refine ⟨hdiv, hdiv _, ?_⟩
  intro e s
  have hiff := check_extension_diverges_iff e s
  constructor
  · rintro ⟨fuel, r, hr⟩
    by_contra hcon
    simp only [not_or, not_exists, not_and] at hcon
    obtain ⟨h0, hne, hb⟩ := hcon
    cases hs : strstr e.toList s.toList with
    | none => exact hne hs
    | some p =>
      have hall := hiff.mpr ⟨Nat.pos_of_ne_zero h0, p, hs, by
        have := hb p hs
        simpa only [not_or] using this⟩
      rw [hall fuel] at hr
      exact absurd hr (by simp)
  · intro h
    by_contra hcon
    have hall : ∀ fuel, ngli_glcontext_check_extension_fuel fuel (some e) (some s) = none := by
      intro fuel
      cases hr : ngli_glcontext_check_extension_fuel fuel (some e) (some s) with
      | none => rfl
      | some r => exact absurd ⟨fuel, r, hr⟩ hcon
    obtain ⟨hpos, p, hs, hb⟩ := hiff.mp hall
    rcases h with h | h | ⟨q, hq, hbq⟩
    · omega
    · rw [h] at hs; exact absurd hs (by simp)
    · rw [hq] at hs
      have hpq : q = p := Option.some.inj hs
      rw [hpq] at hbq
      exact hb hbq

/-- What `glcontext_probe_version` leaves untouched, and the baseline a status
of 0 guarantees. -/
theorem probe_version_frame (env : Env) (c : glcontext) (r : Int × glcontext)
    (h : glcontext_probe_version env c = .returns r) :
    r.2.funcs = c.funcs ∧ r.2.features = c.features ∧ r.2.api = c.api ∧
      (r.1 = 0 →
        (c.api = .NGL_GLAPI_OPENGL3 ∧ r.2.major_version ≥ 3 ∧ r.2.es = c.es) ∨
        (c.api = .NGL_GLAPI_OPENGLES2 ∧ r.2.major_version ≥ 2 ∧ r.2.es = 1)) := by
  unfold glcontext_probe_version at h
  split at h
  · rename_i hapi
    simp only at h
    split at h
    · rw [← Outcome.returns.inj h]
      exact ⟨rfl, rfl, rfl, fun h0 => absurd (show (-1 : Int) = 0 from h0) (by decide)⟩
    · rename_i hge
      rw [← Outcome.returns.inj h]
      exact ⟨rfl, rfl, rfl, fun _ => Or.inl ⟨hapi, Int.not_lt.mp hge, rfl⟩⟩
  · rename_i hapi
    simp only at h
    split at h
    · rw [← Outcome.returns.inj h]
      exact ⟨rfl, rfl, rfl, fun h0 => absurd (show (-1 : Int) = 0 from h0) (by decide)⟩
    · split at h
      · rw [← Outcome.returns.inj h]
        exact ⟨rfl, rfl, rfl, fun h0 => absurd (show (-1 : Int) = 0 from h0) (by decide)⟩
      · split at h
        · rw [← Outcome.returns.inj h]
          exact ⟨rfl, rfl, rfl, fun h0 => absurd (show (-1 : Int) = 0 from h0) (by decide)⟩
        · rename_i hge
          rw [← Outcome.returns.inj h]
          exact ⟨rfl, rfl, rfl, fun _ => Or.inr ⟨hapi, Int.not_lt.mp hge, rfl⟩⟩
  · exact absurd h (by simp)

theorem probe_work_group_counts_frame (env : Env) :
    ∀ (l : List Nat) (c : glcontext),
      (probe_work_group_counts env l c).funcs = c.funcs ∧
      (probe_work_group_counts env l c).features = c.features ∧
      (probe_work_group_counts env l c).major_version = c.major_version ∧
      (probe_work_group_counts env l c).es = c.es ∧
      (probe_work_group_counts env l c).api = c.api := by
  intro l
  induction l with
  | nil => intro c; exact ⟨rfl, rfl, rfl, rfl, rfl⟩
  | cons i rest ih =>
    intro c
    simp only [probe_work_group_counts]
    obtain ⟨h1, h2, h3, h4, h5⟩ := ih
      { c.log (.glGetIntegeri_v "GL_MAX_COMPUTE_WORK_GROUP_COUNT" i) with
        max_compute_work_group_counts :=
          c.max_compute_work_group_counts.set i (env.GL_MAX_COMPUTE_WORK_GROUP_COUNT i) }
    exact ⟨h1.trans rfl, h2.trans rfl, h3.trans rfl, h4.trans rfl, h5.trans rfl⟩

/-- What `glcontext_probe_settings` leaves untouched. -/
theorem probe_settings_frame (F : FeatureFlags) (env : Env) (c : glcontext) :
    (glcontext_probe_settings F env c).2.funcs = c.funcs ∧
      (glcontext_probe_settings F env c).2.features = c.features ∧
      (glcontext_probe_settings F env c).2.major_version = c.major_version ∧
      (glcontext_probe_settings F env c).2.es = c.es ∧
      (glcontext_probe_settings F env c).2.api = c.api := by
  unfold glcontext_probe_settings
  simp only
  split <;> split <;> first
    | exact ⟨rfl, rfl, rfl, rfl, rfl⟩
    | (obtain ⟨h1, h2, h3, h4, h5⟩ := probe_work_group_counts_frame env
        (List.range _) _
       exact ⟨h1.trans rfl, h2.trans rfl, h3.trans rfl, h4.trans rfl, h5.trans rfl⟩)

/-- When the function gate passes, every required function slot is non-null. -/
theorem check_functions_all (c : glcontext) (o : Option (List String))
    (h : glcontext_check_functions c o ≠ 0) :
    ∀ offs, o = some offs → ∀ off ∈ offs, c.funcs off ≠ 0 := by
  intro offs ho off hoff hz
  exact h (check_functions_of_null c o ⟨offs, off, ho, hoff, hz⟩)

/-- When `glcontext_probe_extensions` returns 0, each bit of the bitmask was
there before or is a bit of the flag of a descriptor whose function gate
passes. -/
theorem probe_extensions_bits (F : FeatureFlags) (env : Env) (c : glcontext)
    (r : Int × glcontext) (h : glcontext_probe_extensions F env c = .returns r) :
    ∀ k, r.2.features.testBit k = true → c.features.testBit k = true ∨
      ∃ f ∈ glfeatures F, glcontext_check_functions c f.funcs_offsets ≠ 0 ∧
        f.flag.testBit k = true := by
  unfold glcontext_probe_extensions at h
  simp only at h
  split at h
  · rw [← Outcome.returns.inj h]
    exact fun k hk => Or.inl hk
  · cases hl : glcontext_probe_loop env c.es (glfeatures F) c with
    | returns c2 =>
      rw [hl] at h
      simp only [Outcome.bind] at h
      rw [← Outcome.returns.inj h]
      exact (probe_loop_cases env c.es (glfeatures F) c c2 hl).2.1
    | aborts => rw [hl] at h; exact absurd h (by simp [Outcome.bind])
    | diverges => rw [hl] at h; exact absurd h (by simp [Outcome.bind])

/-- C25: the invariant of loaded handles. On a handle whose loaded flag and
feature bitmask are zero, with a table of definitions of pairwise distinct
offsets and flags that are distinct bits, when
`ngli_glcontext_load_extensions` returns with the loaded flag at 1: the status
is 0; the slot of every mandatory definition is non-null; the API family is
the desktop one with a stored major version of 3 at least, or the embedded one
with a stored major version of 2 at least and the embedded flag at 1; every bit
of the bitmask is the flag of a descriptor of `glfeatures` whose required
function slots are all non-null, and so every descriptor whose flag is in the
bitmask has all its required function slots non-null. -/
theorem C25_loaded_invariant (gldefinitions : List gldefinition) (F : FeatureFlags)
    (env : Env) (c : glcontext) (r : Int × glcontext)
    (hloaded : c.loaded = 0) (hfeatures : c.features = 0)
    (hnodup : (gldefinitions.map (·.offset)).Nodup) (hF : F.DistinctBits)
    (h : ngli_glcontext_load_extensions gldefinitions F env c = .returns r)
    (hset : r.2.loaded = 1) :
    r.1 = 0 ∧
    (∀ e ∈ gldefinitions, e.mandatory = true → r.2.funcs e.offset ≠ 0) ∧
    ((r.2.api = .NGL_GLAPI_OPENGL3 ∧ r.2.major_version ≥ 3) ∨
      (r.2.api = .NGL_GLAPI_OPENGLES2 ∧ r.2.major_version ≥ 2 ∧ r.2.es = 1)) ∧
    (∀ k, r.2.features.testBit k = true →
      ∃ d ∈ glfeatures F, d.flag = 2 ^ k ∧
        ∀ offs, d.funcs_offsets = some offs → ∀ off ∈ offs, r.2.funcs off ≠ 0) ∧
    (∀ d ∈ glfeatures F, r.2.features &&& d.flag ≠ 0 →
      ∀ offs, d.funcs_offsets = some offs → ∀ off ∈ offs, r.2.funcs off ≠ 0) := by
  have hst : r.1 = 0 := by
    rcases load_extensions_cases gldefinitions F env c hloaded r h with h0 | h0
    · exact h0.1
    · rw [h0.2] at hset; exact absurd hset (by decide)
  -- the four phases
  have hlf := load_functions_loop_frame gldefinitions c
  unfold ngli_glcontext_load_extensions at h
  rw [if_neg (by simp [hloaded])] at h
  simp only at h
  split at h
  · rename_i hneg
    rw [← Outcome.returns.inj h] at hst
    rw [hst] at hneg
    exact absurd hneg (by decide)
  rename_i hload
  have hload0 : (glcontext_load_functions_loop gldefinitions c).1 = 0 := by
    rcases hlf.2 with h0 | h0
    · exact h0
    · exfalso; apply hload; rw [glcontext_load_functions, h0]; decide
  have hok := load_functions_loop_ok gldefinitions c hload0
  have hslots := (load_functions_loop_complete gldefinitions c hok hnodup).2.1
  cases hv : glcontext_probe_version env (glcontext_load_functions gldefinitions c).2 with
  | aborts => rw [hv] at h; exact absurd h (by simp [Outcome.bind])
  | diverges => rw [hv] at h; exact absurd h (by simp [Outcome.bind])
  | returns v =>
    rw [hv] at h
    simp only [Outcome.bind] at h
    obtain ⟨hvfuncs, hvfeat, hvapi, hvbase⟩ := probe_version_frame env _ v hv
    split at h
    · rename_i hneg
      rw [← Outcome.returns.inj h] at hst
      rw [hst] at hneg
      exact absurd hneg (by decide)
    rename_i hvnn
    have hv0 : v.1 = 0 := by
      rcases (probe_version_cases env _ v hv).1 with h0 | h0
      · exact h0
      · exfalso; apply hvnn; rw [h0]; decide
    cases hp : glcontext_probe_extensions F env v.2 with
    | aborts => rw [hp] at h; exact absurd h (by simp [Outcome.bind])
    | diverges => rw [hp] at h; exact absurd h (by simp [Outcome.bind])
    | returns p =>
      rw [hp] at h
      simp only [Outcome.bind] at h
      have hpf := (probe_extensions_frame F env v.2 p hp).1
      have hbits := probe_extensions_bits F env v.2 p hp
      split at h
      · rename_i hneg
        rw [← Outcome.returns.inj h] at hst
        rw [hst] at hneg
        exact absurd hneg (by decide)
      split at h
      · rename_i hneg
        rw [(probe_settings_cases F env p.2).1] at hneg
        exact absurd hneg (by decide)
      obtain ⟨hsfuncs, hsfeat, hsmajor, hses, hsapi⟩ := probe_settings_frame F env p.2
      have hr := Outcome.returns.inj h
      have hrfuncs : r.2.funcs = v.2.funcs := by
        rw [← hr]
        show (glcontext_probe_settings F env p.2).2.funcs = _
        rw [hsfuncs, frame_funcs hpf]
      have hvf : v.2.funcs = (glcontext_load_functions_loop gldefinitions c).2.funcs := hvfuncs
      have hrfeat : r.2.features = p.2.features := by
        rw [← hr]; exact hsfeat
      have hrmajor : r.2.major_version = v.2.major_version := by
        rw [← hr]
        show (glcontext_probe_settings F env p.2).2.major_version = _
        rw [hsmajor, frame_major_version hpf]
      have hres : r.2.es = v.2.es := by
        rw [← hr]
        show (glcontext_probe_settings F env p.2).2.es = _
        rw [hses, frame_es hpf]
      have hrapi : r.2.api = (glcontext_load_functions gldefinitions c).2.api := by
        rw [← hr]
        show (glcontext_probe_settings F env p.2).2.api = _
        rw [hsapi, hpf, hvapi]
      have hbit : ∀ k, r.2.features.testBit k = true →
          ∃ d ∈ glfeatures F, d.flag.testBit k = true ∧
            ∀ offs, d.funcs_offsets = some offs → ∀ off ∈ offs, r.2.funcs off ≠ 0 := by
        intro k hk
        rw [hrfeat] at hk
        rcases hbits k hk with h0 | ⟨f, hf, hcheck, hfk⟩
        · rw [hvfeat] at h0
          have hz : (glcontext_load_functions gldefinitions c).2.features = 0 := by
            rw [glcontext_load_functions, hlf.1]; exact hfeatures
          rw [hz] at h0
          simp at h0
        · refine ⟨f, hf, hfk, ?_⟩
          rw [hrfuncs]
          exact check_functions_all v.2 f.funcs_offsets hcheck
      have hpow : ∀ d ∈ glfeatures F, ∀ k, d.flag.testBit k = true → d.flag = 2 ^ k := by
        intro d hd k hk
        obtain ⟨j, hj⟩ := hF.2 d.flag (glfeatures_flag_mem F d hd)
        rw [hj, Nat.testBit_two_pow] at hk
        rw [hj, of_decide_eq_true hk]
      refine ⟨hst, ?_, ?_, ?_, ?_⟩
      · intro e he hm
        rw [hrfuncs, hvf, hslots e he]
        intro hz
        exact hok e he ⟨hm, hz⟩
      · rw [hrapi, hrmajor, hres]
        rcases hvbase hv0 with ⟨h1, h2, -⟩ | ⟨h1, h2, h3⟩
        · exact Or.inl ⟨h1, h2⟩
        · exact Or.inr ⟨h1, h2, h3⟩
      · intro k hk
        obtain ⟨d, hd, hdk, hfun⟩ := hbit k hk
        exact ⟨d, hd, hpow d hd k hdk, hfun⟩
      · intro d hd hand
        obtain ⟨j, hj⟩ := hF.2 d.flag (glfeatures_flag_mem F d hd)
        have hk : r.2.features.testBit j = true := by
          by_contra hcon
          apply hand
          rw [hj]
          exact and_two_pow_eq_zero _ _ (by simpa using hcon)
        obtain ⟨f, hf, hfk, hfun⟩ := hbit j hk
        have hfd : f.flag = d.flag := by rw [hpow f hf j hfk, hj]
        rw [← glfeatures_flag_inj F hF.1 f d hf hd hfd]
        exact hfun

/-- C25, witness: a fresh embedded handle on a backend that resolves every
symbol, with a table that holds the two functions of texture storage and a
driver of version 3.1: the load sets the loaded flag, and the bitmask holds the
flags of `texture_storage` and of `shader_storage_buffer_object`, the two
descriptors that require these two functions. -/
theorem C25_loaded_invariant_witness :
    ∃ r, ngli_glcontext_load_extensions gldefinitions_storage F0 env_es_3_1 handle_es_fresh
        = .returns r ∧ r.2.loaded = 1 ∧
      r.2.features = F0.NGLI_FEATURE_TEXTURE_STORAGE |||
        F0.NGLI_FEATURE_SHADER_STORAGE_BUFFER_OBJECT ∧
      r.1 = 0 ∧
      (∀ e ∈ gldefinitions_storage, e.mandatory = true → r.2.funcs e.offset ≠ 0) ∧
      ((r.2.api = .NGL_GLAPI_OPENGL3 ∧ r.2.major_version ≥ 3) ∨
        (r.2.api = .NGL_GLAPI_OPENGLES2 ∧ r.2.major_version ≥ 2 ∧ r.2.es = 1)) ∧
      (∀ k, r.2.features.testBit k = true →
        ∃ d ∈ glfeatures F0, d.flag = 2 ^ k ∧
          ∀ offs, d.funcs_offsets = some offs → ∀ off ∈ offs, r.2.funcs off ≠ 0) ∧
      (∀ d ∈ glfeatures F0, r.2.features &&& d.flag ≠ 0 →
        ∀ offs, d.funcs_offsets = some offs → ∀ off ∈ offs, r.2.funcs off ≠ 0) :=
  ⟨_, rfl, rfl, rfl,
    C25_loaded_invariant gldefinitions_storage F0 env_es_3_1 handle_es_fresh _ rfl rfl
      (by decide) F0_distinct rfl rfl⟩

/-! ## Theorems: what the driver reports and what the presence tests see -/

/-- The libc `strstr` finds a needle that occurs in the haystack. -/
theorem strstr_of_infix (needle : List Char) :
    ∀ hay : List Char, needle <:+: hay → ∃ p, strstr needle hay = some p := by
  intro hay
  induction hay with
  | nil =>
    intro h
    have : needle = [] := List.eq_nil_of_infix_nil h
    exact ⟨0, by simp [strstr, this]⟩
  | cons c t ih =>
    intro h
    unfold strstr
    by_cases hp : needle.isPrefixOf (c :: t) = true
    · exact ⟨0, by rw [if_pos hp]⟩
    · rw [if_neg hp]
      rcases List.infix_cons_iff.mp h with h1 | h1
      · exact absurd (List.isPrefixOf_iff_prefix.mpr h1) hp
      · obtain ⟨p, hp2⟩ := ih h1
        exact ⟨p + 1, by rw [hp2]; rfl⟩

theorem mem_intersperse_of_mem (sep t : List Char) :
    ∀ L : List (List Char), t ∈ L → t ∈ L.intersperse sep := by
  intro L
  induction L with
  | nil => intro h; exact h
  | cons a rest ih =>
    intro h
    cases rest with
    | nil => simpa using h
    | cons b rest2 =>
      rw [List.intersperse_cons₂]
      rcases List.mem_cons.mp h with rfl | h2
      · exact List.mem_cons_self _ _
      · exact List.mem_cons_of_mem _ (List.mem_cons_of_mem _ (ih h2))

/-- A token of an extension string is a run of consecutive characters of it. -/
theorem token_infix (s : String) (t : List Char) (h : t ∈ tokens s) : t <:+: s.toList := by
  unfold tokens at h
  have hj : [' '].intercalate (s.toList.splitOn ' ') = s.toList :=
    List.intercalate_splitOn s.toList ' '
  rw [← hj]
  exact List.infix_of_mem_flatten (mem_intersperse_of_mem _ _ _ h)

/-- When a non-empty name is a token of the extension string and the search of
`ngli_glcontext_check_extension` terminates, it returns 1. -/
theorem check_extension_of_token (e s : String) (hne : e.toList ≠ [])
    (htok : e.toList ∈ tokens s)
    (hterm : ngli_glcontext_check_extension (some e) (some s) ≠ none) :
    ngli_glcontext_check_extension (some e) (some s) = some (1 : Int) := by
  have hinf := token_infix s _ htok
  obtain ⟨p, hp⟩ := strstr_of_infix _ _ hinf
  have hpos : 0 < s.toList.length := by
    have h1 := hinf.length_le
    have h2 : 0 < e.toList.length := List.length_pos.mpr hne
    omega
  unfold ngli_glcontext_check_extension at hterm ⊢
  simp only [ngli_glcontext_check_extension_fuel, Option.getD_some, check_extension_loop_succ,
    hpos, if_true, hp] at hterm ⊢
  split at hterm
  · rename_i hb
    rw [if_pos hb]
  · exact absurd rfl hterm

/-- The desktop presence test returns 1 exactly when some entry of the indexed
list below the count is the name and the driver returned a string for every
lower index. -/
theorem desktop_check_extension_iff (env : Env) (name : String) (c : glcontext) :
    (glcontext_check_extension env name c).1 = 1 ↔
      ∃ k : Nat, (k : Int) < env.GL_NUM_EXTENSIONS ∧ env.GL_EXTENSIONS_i k = some name ∧
        ∀ j : Nat, j < k → env.GL_EXTENSIONS_i j ≠ none := by
  unfold glcontext_check_extension
  simp only
  rw [check_extension_loop_iff]
  constructor
  · rintro ⟨k, hk, hk1, hprev⟩
    refine ⟨k, by omega, by simpa using hk1, fun j hj => by simpa using hprev j hj⟩
  · rintro ⟨k, hk, hk1, hprev⟩
    refine ⟨k, by omega, by simpa using hk1, fun j hj => by simpa using hprev j hj⟩

/-- An extension that the driver reports passes the presence test of the code,
provided that the desktop driver returns a string for every index below its
count and that the embedded search, run on a non-empty name, terminates. -/
theorem presence_of_reported (env : Env) (c : glcontext) (x : String)
    (hne : c.es ≠ 0 → x.toList ≠ [])
    (hstrings : c.es = 0 →
      ∀ j : Nat, (j : Int) < env.GL_NUM_EXTENSIONS → env.GL_EXTENSIONS_i j ≠ none)
    (hterm : c.es ≠ 0 → ngli_glcontext_check_extension (some x) env.GL_EXTENSIONS ≠ none)
    (h : extension_reported env c x) : presence_test_passes env c x := by
  unfold extension_reported at h
  unfold presence_test_passes
  by_cases hes : c.es ≠ 0
  · rw [if_pos hes] at h ⊢
    obtain ⟨s, hs, htok⟩ := h
    have ht := hterm hes
    rw [hs] at ht ⊢
    exact check_extension_of_token x s (hne hes) htok ht
  · rw [if_neg hes] at h ⊢
    obtain ⟨i, hi, hent⟩ := h
    have h0 : c.es = 0 := not_not.mp hes
    exact (desktop_check_extension_iff env x c).mpr
      ⟨i, hi, hent, fun j hj => hstrings h0 j (by omega)⟩

/-- For the desktop family an extension that the driver does not report does
not pass the presence test of the code. -/
theorem not_presence_of_not_reported (env : Env) (c : glcontext) (x : String)
    (h0 : c.es = 0) (h : ¬ extension_reported env c x) : ¬ presence_test_passes env c x := by
  have hes : ¬ c.es ≠ 0 := fun hne => hne h0
  unfold extension_reported at h
  unfold presence_test_passes
  rw [if_neg hes] at h ⊢
  intro hp
  obtain ⟨k, hk, hent, -⟩ := (desktop_check_extension_iff env x c).mp hp
  exact h ⟨k, hk, hent⟩

/-- For a descriptor of `glfeatures` whose flag is not yet in the bitmask (the
flags being distinct bits) and a handle whose version fails the version test
of the code, if the extension list of the family of the handle is absent or
empty, or if the handle is of the desktop family and the driver does not
report one of the extensions of the list, then the flag is not in the bitmask
that `glcontext_probe_extensions` returns, whatever the function table
holds. -/
theorem failed_gates_reject (F : FeatureFlags) (hF : F.DistinctBits) (env : Env)
    (c : glcontext) (d : glfeature) (hd : d ∈ glfeatures F)
    (hclear : c.features &&& d.flag = 0)
    (hver : ¬ (c.major_version ≥ (d.gate c.es).1 ∧ c.minor_version ≥ (d.gate c.es).2))
    (hext : d.gate_extensions c.es = none ∨ d.gate_extensions c.es = some [] ∨
      (c.es = 0 ∧ ∃ l x, d.gate_extensions c.es = some l ∧ x ∈ l ∧
        ¬ extension_reported env c x))
    (r : Int × glcontext) (hr : glcontext_probe_extensions F env c = .returns r) :
    r.2.features &&& d.flag = 0 := by
  have hext2 : d.gate_extensions c.es = none ∨ d.gate_extensions c.es = some [] ∨
      ∃ l x, d.gate_extensions c.es = some l ∧ x ∈ l ∧ ¬ presence_test_passes env c x := by
    rcases hext with h | h | ⟨h0, l, x, hl, hx, hnr⟩
    · exact Or.inl h
    · exact Or.inr (Or.inl h)
    · exact Or.inr (Or.inr ⟨l, x, hl, hx, not_presence_of_not_reported env c x h0 hnr⟩)
  unfold glcontext_probe_extensions at hr
  by_cases ha : env.bstr_create_ok = true
  · simp only [ha, not_true_eq_false, if_false] at hr
    cases hl : glcontext_probe_loop env c.es (glfeatures F) c with
    | returns c' =>
      rw [hl] at hr
      simp only [Outcome.bind] at hr
      rw [← Outcome.returns.inj hr]
      obtain ⟨k, hk⟩ := hF.2 _ (glfeatures_flag_mem F d hd)
      have hbit := probe_loop_bit F hF env c c' hl d hd k hk
      have halone : alone_bits env c d = c.features := by
        unfold alone_bits
        cases hs : glcontext_probe_feature env c.es d c with
        | returns c2 => exact probe_feature_rejects env c d hver hext2 c2 hs
        | aborts => rfl
        | diverges => rfl
      rw [hk] at hclear ⊢
      apply and_two_pow_eq_zero
      show c'.features.testBit k = false
      rw [hbit, halone]
      exact testBit_of_and_two_pow_eq_zero _ _ hclear
    | aborts => rw [hl] at hr; exact absurd hr (by simp [Outcome.bind])
    | diverges => rw [hl] at hr; exact absurd hr (by simp [Outcome.bind])
  · simp only [ha, not_false_eq_true, if_true] at hr
    rw [← Outcome.returns.inj hr]
    exact hclear

/-! ## Theorems: the extension gate against what the driver reports -/

/-- C7 (counterexample): two instances of the hypotheses of the claim in which
the flag is not set. A desktop handle of version 4.2, below the gate 4.3 of
`compute_shader`, with every function resolved, on a driver that counts two
extensions and has `GL_ARB_compute_shader` at index 1: the driver reports the
extension, but its entry of index 0 is `NULL`, the scan stops there and the
flag is left out. An embedded handle of version 2.0, below the gate 3.0 of
`vertex_array_object`, on a driver that advertises
`GL_OES_vertex_array_object`: when the summary buffer cannot be allocated the
prober returns -1 before it looks at any descriptor. -/
theorem C7_reported_extension_flag_not_set :
    (∃ d ∈ glfeatures F0,
      (handle_desktop_4_2.major_version = (d.gate handle_desktop_4_2.es).1 ∧
        handle_desktop_4_2.minor_version < (d.gate handle_desktop_4_2.es).2) ∧
      d.gate_extensions handle_desktop_4_2.es = some ["GL_ARB_compute_shader"] ∧
      extension_reported env_desktop_null_entry handle_desktop_4_2 "GL_ARB_compute_shader" ∧
      (∀ off, handle_desktop_4_2.funcs off ≠ 0) ∧
      ∃ c', glcontext_probe_extensions F0 env_desktop_null_entry handle_desktop_4_2
          = .returns (0, c') ∧
        c'.features &&& d.flag = 0 ∧ d.flag ≠ 0) ∧
    (∃ d ∈ glfeatures F0,
      handle_es_2_0.major_version < (d.gate handle_es_2_0.es).1 ∧
      d.gate_extensions handle_es_2_0.es = some ["GL_OES_vertex_array_object"] ∧
      extension_reported env_es_vao_no_buffer handle_es_2_0 "GL_OES_vertex_array_object" ∧
      (∀ off, handle_es_2_0.funcs off ≠ 0) ∧
      ∃ c', glcontext_probe_extensions F0 env_es_vao_no_buffer handle_es_2_0
          = .returns (-1, c') ∧
        c'.features &&& d.flag = 0 ∧ d.flag ≠ 0) := by
  constructor
  · refine ⟨{ name := "compute_shader"
              flag := F0.NGLI_FEATURE_COMPUTE_SHADER
              maj_version := 4, min_version := 3
              maj_es_version := 3, min_es_version := 1
              extensions := some ["GL_ARB_compute_shader"]
              funcs_offsets := some ["DispatchCompute", "MemoryBarrier"] },
      List.mem_cons_of_mem _ (List.mem_cons_of_mem _ (List.mem_cons_of_mem _
        (List.mem_cons_self _ _))),
      ⟨rfl, by decide⟩, rfl, ?_, fun _ => Nat.one_ne_zero, _, rfl, rfl, by decide⟩
    unfold extension_reported
    rw [if_neg (by decide)]
    exact ⟨1, by decide, rfl⟩
  · refine ⟨{ name := "vertex_array_object"
              flag := F0.NGLI_FEATURE_VERTEX_ARRAY_OBJECT
              maj_version := 3, min_version := 0
              maj_es_version := 3, min_es_version := 0
              extensions := some ["GL_ARB_vertex_array_object"]
              es_extensions := some ["GL_OES_vertex_array_object"]
              funcs_offsets :=
                some ["GenVertexArrays", "BindVertexArray", "DeleteVertexArrays"] },
      List.mem_cons_self _ _, by decide, rfl, ?_, fun _ => Nat.one_ne_zero, _, rfl, rfl,
      by decide⟩
    unfold extension_reported
    rw [if_pos (by decide)]
    exact ⟨_, rfl, by decide⟩

/-- C7 (amended): for a descriptor of `glfeatures` and a handle whose version is
below the version gate of the descriptor, if the extension list of the family
of the handle is not empty, the driver reports each of its extensions (as a
token of its extension string for the embedded family, as an entry of its
indexed list below the count for the desktop family), each required function
is non-null, the summary buffer is allocated, the desktop driver returns a
string for every index below its count and the embedded token search
terminates, then `glcontext_probe_extensions` returns 0 with the flag of the
descriptor set. -/
theorem C7_extension_gate_sets_flag (F : FeatureFlags) (env : Env) (c : glcontext)
    (d : glfeature) (hd : d ∈ glfeatures F)
    (hver : c.major_version < (d.gate c.es).1 ∨
      (c.major_version = (d.gate c.es).1 ∧ c.minor_version < (d.gate c.es).2))
    (e : String) (rest : List String) (hne : d.gate_extensions c.es = some (e :: rest))
    (hrep : ∀ x ∈ e :: rest, extension_reported env c x)
    (hfun : ∀ offs, d.funcs_offsets = some offs → ∀ off ∈ offs, c.funcs off ≠ 0)
    (halloc : env.bstr_create_ok = true)
    (hstrings : c.es = 0 →
      ∀ j : Nat, (j : Int) < env.GL_NUM_EXTENSIONS → env.GL_EXTENSIONS_i j ≠ none)
    (hterm : c.es ≠ 0 →
      ∀ x ∈ e :: rest, ngli_glcontext_check_extension (some x) env.GL_EXTENSIONS ≠ none) :
    ∃ c', glcontext_probe_extensions F env c = .returns (0, c') ∧
      c'.features &&& d.flag = d.flag := by
  have hlist : c.es ≠ 0 → e :: rest = ["GL_OES_vertex_array_object"] := by
    intro hes
    have hd2 : d.es_extensions = some (e :: rest) := by
      unfold glfeature.gate_extensions at hne
      rwa [if_pos hes] at hne
    rcases glfeatures_es_extensions F d hd with h1 | h1
    · rw [h1] at hd2; exact absurd hd2 (by simp)
    · rw [h1] at hd2
      exact (Option.some.inj hd2).symm
  have hpass : ∀ x ∈ e :: rest, presence_test_passes env c x := by
    intro x hx
    refine presence_of_reported env c x ?_ hstrings (fun hes => hterm hes x hx) (hrep x hx)
    intro hes
    rw [hlist hes] at hx
    rw [List.mem_singleton.mp hx]
    decide
  have hok : c.es ≠ 0 → ∀ f ∈ glfeatures F, es_ok env f := by
    intro hes
    apply glfeatures_es_ok
    apply hterm hes
    rw [hlist hes]
    exact List.mem_cons_self _ _
  obtain ⟨c', hc'⟩ := probe_loop_returns env (glfeatures F) c hok
  refine ⟨c', ?_, ?_⟩
  · unfold glcontext_probe_extensions
    simp only [halloc, not_true_eq_false, if_false, hc', Outcome.bind]
  · apply probe_loop_sets env c.es _ c c' hc' d hd
    intro c1 hc1 c2 h2
    have hgate : ¬ (c1.major_version ≥ (d.gate c.es).1 ∧ c1.minor_version ≥ (d.gate c.es).2) := by
      rw [frame_major_version hc1, frame_minor_version hc1]
      omega
    obtain ⟨r, hr, hr0⟩ := glcontext_check_extensions_all env c c1 hc1 e rest hpass
    unfold glcontext_probe_feature at h2
    rw [if_pos hgate, hne, hr] at h2
    simp only [Outcome.bind, hr0, if_false] at h2
    rw [← Outcome.returns.inj h2, probe_feature_functions_features]
    have hr2 : Frame c r.2 :=
      frame_trans hc1 (callsOnly_frame (glcontext_check_extensions_calls env c1 _ r hr))
    have hne0 : glcontext_check_functions r.2 d.funcs_offsets ≠ 0 := by
      rw [frame_check_functions hr2]; exact check_functions_of_all c _ hfun
    rw [if_neg hne0]
    exact or_and_self_right _ _

/-- C7 (amended), witness: an embedded handle of version 2.0, below the gate 3.0
of `vertex_array_object`, on a driver whose extension string has the token
`GL_OES_vertex_array_object`, gets the flag of that descriptor. -/
theorem C7_extension_gate_sets_flag_witness :
    ∃ c', glcontext_probe_extensions F0 env_es_vao handle_es_2_0 = .returns (0, c') ∧
      c'.features &&& F0.NGLI_FEATURE_VERTEX_ARRAY_OBJECT = F0.NGLI_FEATURE_VERTEX_ARRAY_OBJECT :=
  C7_extension_gate_sets_flag F0 env_es_vao handle_es_2_0
    { name := "vertex_array_object"
      flag := F0.NGLI_FEATURE_VERTEX_ARRAY_OBJECT
      maj_version := 3, min_version := 0
      maj_es_version := 3, min_es_version := 0
      extensions := some ["GL_ARB_vertex_array_object"]
      es_extensions := some ["GL_OES_vertex_array_object"]
      funcs_offsets := some ["GenVertexArrays", "BindVertexArray", "DeleteVertexArrays"] }
    (List.mem_cons_self _ _) (Or.inl (by decide)) "GL_OES_vertex_array_object" [] rfl
    (by
      intro x hx
      rw [List.mem_singleton.mp hx]
      unfold extension_reported
      rw [if_pos (by decide)]
      exact ⟨_, rfl, by decide⟩)
    (fun _ _ _ _ => Nat.one_ne_zero) rfl
    (fun h => absurd h (by decide))
    (by
      intro _ x hx
      rw [List.mem_singleton.mp hx]
      decide)

/-- C19 (code evaluated at the failing input): an embedded handle of version
2.0, which fails the gate 3.0 of `vertex_array_object`, on a driver whose
extension string is `XGL_OES_vertex_array_object GL_OES_rgb8_rgba8`. The
driver does not report `GL_OES_vertex_array_object`: it is none of the tokens
of the string. Yet `glcontext_probe_extensions` sets the flag of the
descriptor: the embedded search accepts the end of the longer first token. The
other parts of the claim hold: the flag is not set when the extension list of
the family is absent or empty and, for the desktop family, when the driver
does not report one of the extensions; so none of `texture3d` (version 2.0
only), `texture_storage`, `compute_shader`, `program_interface_query`,
`shader_image_load_store` and `shader_storage_buffer_object` is enabled on an
embedded handle of version 2.0 or 3.0. -/
theorem C19_tail_match_sets_flag :
    (∃ d ∈ glfeatures F0,
      ¬ (handle_es_2_0.major_version ≥ (d.gate handle_es_2_0.es).1 ∧
        handle_es_2_0.minor_version ≥ (d.gate handle_es_2_0.es).2) ∧
      d.gate_extensions handle_es_2_0.es = some ["GL_OES_vertex_array_object"] ∧
      ¬ extension_reported env_es_tail_match handle_es_2_0 "GL_OES_vertex_array_object" ∧
      handle_es_2_0.features &&& d.flag = 0 ∧
      ∃ c', glcontext_probe_extensions F0 env_es_tail_match handle_es_2_0
          = .returns (0, c') ∧
        c'.features &&& d.flag = d.flag ∧ d.flag ≠ 0) ∧
    (∀ (F : FeatureFlags) (env : Env) (c : glcontext) (d : glfeature) (r : Int × glcontext),
      F.DistinctBits → d ∈ glfeatures F → c.features &&& d.flag = 0 →
      ¬ (c.major_version ≥ (d.gate c.es).1 ∧ c.minor_version ≥ (d.gate c.es).2) →
      (d.gate_extensions c.es = none ∨ d.gate_extensions c.es = some [] ∨
        (c.es = 0 ∧ ∃ l x, d.gate_extensions c.es = some l ∧ x ∈ l ∧
          ¬ extension_reported env c x)) →
      glcontext_probe_extensions F env c = .returns r →
      r.2.features &&& d.flag = 0) ∧
    (∀ (F : FeatureFlags) (env : Env) (c : glcontext) (r : Int × glcontext),
      F.DistinctBits → c.es ≠ 0 → c.features = 0 →
      (c.major_version = 2 ∨ c.major_version = 3) → c.minor_version = 0 →
      glcontext_probe_extensions F env c = .returns r →
      (c.major_version = 2 → r.2.features &&& F.NGLI_FEATURE_TEXTURE_3D = 0) ∧
      r.2.features &&& F.NGLI_FEATURE_TEXTURE_STORAGE = 0 ∧
      r.2.features &&& F.NGLI_FEATURE_COMPUTE_SHADER = 0 ∧
      r.2.features &&& F.NGLI_FEATURE_PROGRAM_INTERFACE_QUERY = 0 ∧
      r.2.features &&& F.NGLI_FEATURE_SHADER_IMAGE_LOAD_STORE = 0 ∧
      r.2.features &&& F.NGLI_FEATURE_SHADER_STORAGE_BUFFER_OBJECT = 0) := by
  refine ⟨?_, ?_, ?_⟩
  · refine ⟨{ name := "vertex_array_object"
              flag := F0.NGLI_FEATURE_VERTEX_ARRAY_OBJECT
              maj_version := 3, min_version := 0
              maj_es_version := 3, min_es_version := 0
              extensions := some ["GL_ARB_vertex_array_object"]
              es_extensions := some ["GL_OES_vertex_array_object"]
              funcs_offsets :=
                some ["GenVertexArrays", "BindVertexArray", "DeleteVertexArrays"] },
      List.mem_cons_self _ _, by decide, rfl, ?_, rfl, _, rfl, rfl, by decide⟩
    intro h
    unfold extension_reported at h
    rw [if_pos (by decide)] at h
    obtain ⟨s, hs, htok⟩ := h
    have hs2 : "XGL_OES_vertex_array_object GL_OES_rgb8_rgba8" = s := Option.some.inj hs
    subst hs2
    revert htok
    decide
  · intro F env c d r hF hd hclear hver hext hr
    exact failed_gates_reject F hF env c d hd hclear hver hext r hr
  · intro F env c r hF hes hzero hmajor hminor hr
    have hclear : ∀ x : Nat, c.features &&& x = 0 := by
      intro x; rw [hzero]; exact Nat.zero_and x
    have key : ∀ d ∈ glfeatures F, d.es_extensions = none →
        ¬ (c.major_version ≥ d.maj_es_version ∧ c.minor_version ≥ d.min_es_version) →
        r.2.features &&& d.flag = 0 := by
      intro d hd hnone hver
      refine failed_gates_reject F hF env c d hd (hclear _) ?_ (Or.inl ?_) r hr
      · unfold glfeature.gate
        simpa only [hes, if_true, ne_eq, not_false_eq_true] using hver
      · unfold glfeature.gate_extensions
        rw [if_pos hes]
        exact hnone
    refine ⟨fun h2 => ?_, ?_, ?_, ?_, ?_, ?_⟩
    · exact key _ (List.mem_cons_of_mem _ (List.mem_cons_self _ _)) rfl
        (by show ¬ (c.major_version ≥ 3 ∧ c.minor_version ≥ 0); omega)
    · exact key _ (List.mem_cons_of_mem _ (List.mem_cons_of_mem _ (List.mem_cons_self _ _)))
        rfl (by show ¬ (c.major_version ≥ 3 ∧ c.minor_version ≥ 1); omega)
    · exact key _ (List.mem_cons_of_mem _ (List.mem_cons_of_mem _ (List.mem_cons_of_mem _
        (List.mem_cons_self _ _))))
        rfl (by show ¬ (c.major_version ≥ 3 ∧ c.minor_version ≥ 1); omega)
    · exact key _ (List.mem_cons_of_mem _ (List.mem_cons_of_mem _ (List.mem_cons_of_mem _
        (List.mem_cons_of_mem _ (List.mem_cons_self _ _)))))
        rfl (by show ¬ (c.major_version ≥ 3 ∧ c.minor_version ≥ 1); omega)
    · exact key _ (List.mem_cons_of_mem _ (List.mem_cons_of_mem _ (List.mem_cons_of_mem _
        (List.mem_cons_of_mem _ (List.mem_cons_of_mem _ (List.mem_cons_self _ _))))))
        rfl (by show ¬ (c.major_version ≥ 3 ∧ c.minor_version ≥ 1); omega)
    · exact key _ (List.mem_cons_of_mem _ (List.mem_cons_of_mem _ (List.mem_cons_of_mem _
        (List.mem_cons_of_mem _ (List.mem_cons_of_mem _ (List.mem_cons_of_mem _
          (List.mem_cons_self _ _)))))))
        rfl (by show ¬ (c.major_version ≥ 3 ∧ c.minor_version ≥ 1); omega)

end NodeGL
